import Mathlib

/-!
Verification of the QueueAndBuffer repository.

This file gives a shallow embedding of the three components of the
repository and proves properties of the embedded operations:

* `SQ` — the intrusive single-producer/single-consumer node queue of
  `spsc_queue.hpp` (`SPSCQueueBase`, wait-free mode), modelled as a
  pointer machine over an explicit node store;
* `SB` — the unbounded SPSC byte buffer of `spsc_block_buffer.hpp`
  (`SPSCBlockBufferBase<0>`, the wait-free mode), in its single-threaded
  semantics: one thread performs the operations, so the acquire/release
  atomic loads and stores read and write the unique copy of the state;
* `BB` — the sequential `BlockBuffer` of `block_buffer.hpp`.

Machine integers (`size_t`) are modelled as `Nat`, with the wrap-around
of C++ unsigned subtraction made explicit (`sub64`) at each subtraction
the source performs on `size_t` operands inside comparisons.  Byte
blocks are lists of `Nat`; freshly allocated (uninitialised) blocks are
modelled as zero-filled.  Fallible code paths (an access the source
performs on an empty container, which is undefined behaviour for
`std::queue::front`) return `Option`.
-/

set_option maxRecDepth 4000

/-- Wrap-around subtraction as performed by C++ on `size_t` operands:
`a - b` computed modulo `2 ^ 64`.  For `b ≤ a < 2 ^ 64` this is ordinary
subtraction; for `a < b` it wraps to a large value. -/
def sub64 (a b : Nat) : Nat :=
  (a + (2 ^ 64 - b % 2 ^ 64)) % 2 ^ 64

theorem sub64_of_le {a b : Nat} (hba : b ≤ a) (ha : a < 2 ^ 64) : sub64 a b = a - b := by
  unfold sub64
  have hb : b % 2 ^ 64 = b := Nat.mod_eq_of_lt (lt_of_le_of_lt hba ha)
  rw [hb]
  omega

/-- Little-endian byte image of a `size_t` value (8 bytes, host order). -/
def le64 (n : Nat) : List Nat :=
  [n % 256, n / 256 % 256, n / 256 ^ 2 % 256, n / 256 ^ 3 % 256,
   n / 256 ^ 4 % 256, n / 256 ^ 5 % 256, n / 256 ^ 6 % 256, n / 256 ^ 7 % 256]

/-- Value of an 8-byte little-endian `size_t` image; `0` on a list of the
wrong shape. -/
def de64 (l : List Nat) : Nat :=
  match l with
  | [b0, b1, b2, b3, b4, b5, b6, b7] =>
      b0 + 256 * b1 + 256 ^ 2 * b2 + 256 ^ 3 * b3 + 256 ^ 4 * b4 + 256 ^ 5 * b5 +
        256 ^ 6 * b6 + 256 ^ 7 * b7
  | _ => 0

theorem le64_length (n : Nat) : (le64 n).length = 8 := rfl

theorem de64_le64 {n : Nat} (h : n < 2 ^ 64) : de64 (le64 n) = n := by
  simp only [le64, de64]
  omega

/-- Overwrite of the region `[pos, pos + data.length)` of a byte block,
modelling `std::copy(first, last, blk + pos)`. -/
def setSlice (blk : List Nat) (pos : Nat) (data : List Nat) : List Nat :=
  blk.take pos ++ data ++ blk.drop (pos + data.length)

/-- Read of `len` bytes starting at offset `pos` of a block. -/
def getSlice (blk : List Nat) (pos len : Nat) : List Nat :=
  (blk.drop pos).take len

theorem setSlice_length {blk data : List Nat} {pos : Nat}
    (h : pos + data.length ≤ blk.length) :
    (setSlice blk pos data).length = blk.length := by
  simp [setSlice]
  omega

theorem getSlice_setSlice_self {blk data : List Nat} {pos : Nat}
    (h : pos + data.length ≤ blk.length) :
    getSlice (setSlice blk pos data) pos data.length = data := by
  have hpos : (blk.take pos).length = pos := by
    simp
    omega
  unfold getSlice setSlice
  rw [List.append_assoc, List.drop_append_of_le_length (by omega), List.drop_of_length_le (by omega)]
  simp

theorem getSlice_setSlice_before {blk data : List Nat} {q m pos : Nat}
    (hqm : q + m ≤ pos) (hpos : pos ≤ blk.length) :
    getSlice (setSlice blk pos data) q m = getSlice blk q m := by
  unfold getSlice setSlice
  have h1 : ∀ l2 : List Nat, ((blk.take pos ++ l2).drop q).take m = ((blk.take pos).drop q).take m := by
    intro l2
    rw [List.drop_append_of_le_length (by simp; omega)]
    rw [List.take_append_of_le_length (by simp; omega)]
  rw [List.append_assoc, h1]
  rw [List.drop_take, List.take_take]
  congr 1
  omega

theorem getSlice_of_take_eq {b1 b2 : List Nat} {e r n : Nat}
    (hagree : b1.take e = b2.take e) (hrn : r + n ≤ e) :
    getSlice b1 r n = getSlice b2 r n := by
  unfold getSlice
  have h1 : ∀ b : List Nat, (b.drop r).take n = ((b.take e).drop r).take n := by
    intro b
    rw [List.drop_take, List.take_take]
    congr 1
    omega
  rw [h1 b1, h1 b2, hagree]

theorem take_setSlice_eq {b1 b2 data : List Nat} {wp : Nat}
    (hagree : b1.take wp = b2.take wp)
    (h1 : wp + data.length ≤ b1.length) (h2 : wp + data.length ≤ b2.length) :
    (setSlice b1 wp data).take (wp + data.length) =
      (setSlice b2 wp data).take (wp + data.length) := by
  have key : ∀ b : List Nat, wp + data.length ≤ b.length →
      (setSlice b wp data).take (wp + data.length) = b.take wp ++ data := by
    intro b hb
    have hA : (b.take wp).length = wp := by simp; omega
    unfold setSlice
    rw [List.append_assoc]
    rw [show wp + data.length = (b.take wp).length + data.length from by rw [hA]]
    rw [List.take_append]
    rw [List.take_left]
  rw [key b1 h1, key b2 h2, hagree]

namespace SB

/-- One segment of the buffer: the queue node's payload pair
`std::pair<std::unique_ptr<char[]>, size_t>`.  `sid` is the identity of
the queue node holding the pair, standing in for the (stable) address of
its `second` field: the source only ever compares the address of the
current front's `second` field against `wpos_`, and `wpos_` always holds
the address of the current back's `second` field, so distinct live nodes
compare unequal and fresh identifiers model the comparisons faithfully. -/
structure Seg where
  sid : Nat
  block : List Nat
  segEnd : Nat
deriving DecidableEq, Repr

/-- State of `SPSCBlockBufferBase<0>` (wait-free mode) in its
single-threaded semantics.  `wposId` is the node identity the published
pointer `wpos_` addresses; `wp` is `wpos_private_`; `obl` is
`one_block_left_`; `nextId` is the allocator for fresh node identities. -/
structure St where
  bs : Nat
  buf : List Seg
  freeList : List (List Nat)
  preserved : List Seg
  rpos : Nat
  wposId : Nat
  wp : Nat
  obl : Bool
  nextId : Nat
deriving DecidableEq, Repr

/-- Modify the last element of a list (the segment queue's `back()`). -/
def modLast : List Seg → (Seg → Seg) → List Seg
  | [], _ => []
  | [g], f => [f g]
  | g :: g2 :: t, f => g :: modLast (g2 :: t) f

/-- Store through the published pointer:
`__atomic_store_n(wpos_, wpos_private_, __ATOMIC_RELEASE)`.  `wpos_`
addresses the `second` field of the segment node with identity `wposId`. -/
def storeWpos (s : St) : St :=
  { s with buf := s.buf.map fun g => if g.sid = s.wposId then { g with segEnd := s.wp } else g }

/-- Load through the published pointer:
`__atomic_load_n(wpos_, __ATOMIC_ACQUIRE)`. -/
def loadWpos (s : St) : Nat :=
  match s.buf.find? (fun g => g.sid == s.wposId) with
  | some g => g.segEnd
  | none => 0

def frontBlock (s : St) : List Nat := (s.buf.head?.map Seg.block).getD []

/-- Plain (non-atomic) read of `buf_.front().second`. -/
def frontEnd (s : St) : Nat := (s.buf.head?.map Seg.segEnd).getD 0

/-- Acquire-load of `buf_.front().second`; in the single-threaded
semantics it reads the same unique copy as a plain load. -/
def frontEndAcq (s : St) : Nat := frontEnd s

/-- `init(block_size)` with an explicit block size.  (Passing `-1` makes
the source read `sysconf(_SC_PAGESIZE)`, an environment value outside
the model; the resulting state is `init pageSize`.)  A freshly allocated
`new char[block_size]` is uninitialised; it is modelled zero-filled. -/
def init (bs : Nat) : St :=
  { bs := bs
    buf := [⟨0, List.replicate bs 0, 0⟩]
    freeList := []
    preserved := []
    rpos := 0
    wposId := 0
    wp := 0
    obl := true
    nextId := 1 }

/-- `notify()` in mode 0: the release-store of `wpos_private_` through
`wpos_`.  (The other modes add mutex/condition-variable signalling or an
eventfd write around the same published store.) -/
def notify (s : St) : St := storeWpos s

/-- `add_block()`: publish the old tail's end, reset the private cursor,
link a segment recycled from the freelist or freshly allocated, and point
`wpos_` at the new tail's `second` field. -/
def add_block (s : St) : St :=
  let s1 := storeWpos s
  let s2 := { s1 with wp := 0 }
  match s2.freeList with
  | [] =>
      { s2 with
        buf := s2.buf ++ [⟨s2.nextId, List.replicate s2.bs 0, 0⟩]
        wposId := s2.nextId
        nextId := s2.nextId + 1 }
  | b :: rest =>
      { s2 with
        buf := s2.buf ++ [⟨s2.nextId, b, 0⟩]
        freeList := rest
        wposId := s2.nextId
        nextId := s2.nextId + 1 }

def add_block_if_needed (s : St) : St :=
  if s.wp = s.bs then add_block s else s

/-- `add_block_if_needed(cont_write_len)`:
`cont_write_len > block_size_ - wpos_private_` on `size_t` operands. -/
def add_block_if_needed_cont (s : St) (len : Nat) : St :=
  if sub64 s.bs s.wp < len then add_block s else s

/-- The loop body of `write(write_start, write_end)`.  Each iteration of
the source loop copies `min(remaining, block_size_ - wpos_private_)`
bytes; one unit of fuel per byte suffices, since every iteration from a
well-formed state copies at least one byte. -/
def writeLoop : St → List Nat → Nat → St
  | s, _, 0 => s
  | s, data, fuel + 1 =>
    if data.isEmpty then s
    else
      let s1 := add_block_if_needed s
      let tw := min data.length (sub64 s1.bs s1.wp)
      let s2 := { s1 with
        buf := modLast s1.buf fun g => { g with block := setSlice g.block s1.wp (data.take tw) } }
      let s3 := { s2 with wp := s2.wp + tw }
      writeLoop s3 (data.drop tw) fuel

/-- `write(write_start, write_end, notify)`. -/
def write (s : St) (data : List Nat) (noti : Bool) : St :=
  let s1 := writeLoop s data data.length
  if noti then notify s1 else s1

/-- `write<size_t>(v, notify)`: the byte image of the value. -/
def write_size_t (s : St) (n : Nat) (noti : Bool) : St :=
  write s (le64 n) noti

/-- `write(const std::string&, notify)`: the length prefix (with
`notify=false`), then the bytes. -/
def write_string (s : St) (str : List Nat) (noti : Bool) : St :=
  let s1 := write_size_t s str.length false
  write s1 str noti

/-- `check_one_block_left()`: compares the address of the front
segment's `second` field with the published pointer `wpos_`. -/
def check_one_block_left (s : St) : Bool :=
  match s.buf.head? with
  | some g => g.sid == s.wposId
  | none => false

/-- `pop_block()`: move the front segment to the preserved list, reset
`rpos_`, and re-evaluate `one_block_left_`.  (`front`/`pop` of an empty
segment queue is undefined behaviour in the source and unreachable, by
guarantee 1; the empty case is the identity here.) -/
def pop_block (s : St) : St :=
  match s.buf with
  | [] => s
  | g :: rest =>
    let s1 := { s with buf := rest, preserved := s.preserved ++ [g], rpos := 0 }
    { s1 with obl := check_one_block_left s1 }

/-- `pop_block_if_needed(size)` in wait-free mode (`mode == 0`). -/
def pop_block_if_needed (s : St) (size : Nat) : St :=
  if s.obl then
    if check_one_block_left s = false ∧ sub64 (frontEnd s) s.rpos < size then pop_block s else s
  else if sub64 (frontEnd s) s.rpos < size then pop_block s else s

/-- `pop_block_if_needed_and_available(size)` (same body in the
single-threaded semantics). -/
def pop_block_if_needed_and_available (s : St) (size : Nat) : St :=
  if s.obl then
    if check_one_block_left s = false ∧ sub64 (frontEnd s) s.rpos < size then pop_block s else s
  else if sub64 (frontEnd s) s.rpos < size then pop_block s else s

/-- `read<T>()` for a `size`-byte `T`: the new state and the `size`
bytes the returned pointer addresses. -/
def read_bytes (s : St) (size : Nat) : St × List Nat :=
  let s1 := pop_block_if_needed s size
  let res := getSlice (frontBlock s1) s1.rpos size
  ({ s1 with rpos := s1.rpos + size }, res)

/-- The loop of `clear_preserved(len)`: pop preserved segments while the
list is non-empty and the front's `second` still fits in the budget,
pushing their blocks onto the freelist. -/
def clearLoop : List Seg → List (List Nat) → Nat → Nat → List Seg × List (List Nat)
  | [], free, _, _ => ([], free)
  | g :: rest, free, cleared, len =>
    if g.segEnd + cleared ≤ len then
      clearLoop rest (free ++ [g.block]) (cleared + g.segEnd) len
    else (g :: rest, free)

/-- `clear_preserved(len)`. -/
def clear_preserved (s : St) (len : Nat) : St :=
  let p := clearLoop s.preserved s.freeList 0 len
  { s with preserved := p.1, freeList := p.2 }

/-- `get_cont(dest, len)`: the bytes copied out to `dest`. -/
def get_cont (s : St) (len : Nat) : St × List Nat :=
  let s1 := pop_block_if_needed s len
  let res := getSlice (frontBlock s1) s1.rpos len
  (clear_preserved { s1 with rpos := s1.rpos + len } len, res)

/-- `get_string()`: `read<size_t>`, then ensure the payload's bytes are
poppable, build the string from `buf_.front() + rpos_`, advance `rpos_`,
and release `sizeof(size_t) + len` preserved bytes. -/
def get_string (s : St) : St × List Nat :=
  let r1 := read_bytes s 8
  let len := de64 r1.2
  let s2 := pop_block_if_needed r1.1 len
  let str := getSlice (frontBlock s2) s2.rpos len
  let s3 := { s2 with rpos := s2.rpos + len }
  (clear_preserved s3 (8 + len), str)

/-- `write_cont(write_start, write_end, notify)`. -/
def write_cont (s : St) (data : List Nat) (noti : Bool) : St :=
  if data.isEmpty then s
  else
    let s1 := add_block_if_needed_cont s data.length
    let s2 := { s1 with
      buf := modLast s1.buf fun g => { g with block := setSlice g.block s1.wp data } }
    let s3 := { s2 with wp := s2.wp + data.length }
    if noti then notify s3 else s3

/-- `ensure_cont(size)`: the new state and the offset within the tail
block of the returned pointer `buf_.back().first.get() + wpos_private_`. -/
def ensure_cont (s : St) (size : Nat) : St × Nat :=
  let s1 := add_block_if_needed_cont s size
  (s1, s1.wp)

/-- The `const` overload of `empty()`. -/
def empty_c (s : St) : Bool :=
  s.obl && check_one_block_left s && (s.rpos == loadWpos s)

/-- The non-`const` overload of `empty()`, which refreshes
`one_block_left_` when it was `true`. -/
def empty_m (s : St) : St × Bool :=
  if s.obl then
    let c := check_one_block_left s
    let s1 := { s with obl := c }
    (s1, c && (s1.rpos == loadWpos s1))
  else (s, false)

/-- One `::read(fd, dst, cap)` outcome of the environment: `none` is an
error (the call returns `-1`); `some l` delivers `l.take cap` bytes,
`[]` meaning end of file.  An exhausted list behaves as end of file. -/
abbrev RdStep := Option (List Nat)

/-- The loop of `input_from_fd`, also returning the running byte total
and whether the stopping `::read` errored. -/
def inputLoop : St → List RdStep → Bool → Option Nat → Nat → St × Nat × Bool
  | s, [], _, _, total => (s, total, false)
  | s, step :: rest, cont, maxLen, total =>
    let s1 := add_block_if_needed s
    let cap :=
      match maxLen with
      | none => sub64 s1.bs s1.wp
      | some m => min (sub64 m total) (sub64 s1.bs s1.wp)
    match step with
    | none => (s1, total, true)
    | some l =>
      let data := l.take cap
      if data.isEmpty then (s1, total, false)
      else
        let s2 := { s1 with
          buf := modLast s1.buf fun g => { g with block := setSlice g.block s1.wp data } }
        let s3 := { s2 with wp := s2.wp + data.length }
        if cont then (s3, total + data.length, false)
        else inputLoop s3 rest cont maxLen (total + data.length)

/-- `input_from_fd(fd, cont, max_len)`: the new state, the `ssize_t`
result, and (exposed for the statements) the loop's byte total and error
flag.  An immediate error returns the negative value without notifying;
otherwise the producer notifies iff any byte was read. -/
def input_from_fd (s : St) (steps : List RdStep) (cont : Bool) (maxLen : Option Nat) :
    St × Int × Nat × Bool :=
  let r := inputLoop s steps cont maxLen 0
  if r.2.2 = true ∧ r.2.1 = 0 then (r.1, -1, r.2.1, r.2.2)
  else
    let s2 := if 0 < r.2.1 then notify r.1 else r.1
    (s2, (r.2.1 : Int), r.2.1, r.2.2)

/-- One `::write(fd, src, req)` outcome of the environment: `none` is an
error (the call returns `-1`); `some k` writes `min k req` bytes.  An
exhausted list behaves as a zero-length write. -/
abbrev WrStep := Option Nat

/-- The loop of `output_to_fd`, also returning the running byte total
and whether the stopping `::write` errored.  The head segment's `end` is
acquire-loaded when `one_block_left_`, read plainly otherwise. -/
def outputLoop : St → List WrStep → Nat → St × Nat × Bool
  | s, [], total => (s, total, false)
  | s, step :: rest, total =>
    let s1 := pop_block_if_needed_and_available s 1
    let req :=
      if s1.obl then sub64 (frontEndAcq s1) s1.rpos else sub64 (frontEnd s1) s1.rpos
    match step with
    | none => (s1, total, true)
    | some k =>
      let len := min k req
      if len = 0 then (s1, total, false)
      else outputLoop { s1 with rpos := s1.rpos + len } rest (total + len)

/-- `output_to_fd(fd)`: an immediate error returns the negative value
without clearing; otherwise `clear_preserved(total_len)` runs and the
total is returned. -/
def output_to_fd (s : St) (steps : List WrStep) : St × Int × Nat × Bool :=
  let r := outputLoop s steps 0
  if r.2.2 = true ∧ r.2.1 = 0 then (r.1, -1, r.2.1, r.2.2)
  else (clear_preserved r.1 r.2.1, (r.2.1 : Int), r.2.1, r.2.2)

/-- Structural invariant of the buffer state: the source file's
guarantees 1 (`buf_` never empty), 2 (`wpos_` addresses the back
segment's `second`) and 11 (`one_block_left_ == false` implies more than
one segment), together with well-formedness of sizes, block lengths and
node identities. -/
def Inv (s : St) : Prop :=
  s.buf ≠ [] ∧
  (s.buf.getLast?.map Seg.sid) = some s.wposId ∧
  (s.buf.map Seg.sid).Nodup ∧
  (∀ g ∈ s.buf, g.sid < s.nextId) ∧
  (s.obl = false → 1 < s.buf.length) ∧
  s.wp ≤ s.bs ∧
  s.bs < 2 ^ 64 ∧
  (∀ g ∈ s.buf, g.block.length = s.bs) ∧
  (∀ g ∈ s.buf, g.segEnd ≤ s.bs) ∧
  (∀ b ∈ s.freeList, b.length = s.bs) ∧
  (∀ g ∈ s.preserved, g.block.length = s.bs)

instance (s : St) : Decidable (Inv s) := by
  unfold Inv
  infer_instance

end SB

namespace BB

/-- The `(size_t)-1` sentinel marking the uncommitted tail segment. -/
def SENTINEL : Nat := 2 ^ 64 - 1

/-- One segment of the sequential buffer: the pair
`std::pair<std::unique_ptr<char[]>, size_t>`; the tail's `second` is the
`SENTINEL`. -/
structure BSeg where
  block : List Nat
  bEnd : Nat
deriving DecidableEq, Repr

/-- State of the sequential `BlockBuffer`. -/
structure St where
  bs : Nat
  buf : List BSeg
  freeList : List (List Nat)
  preserved : List BSeg
  rpos : Nat
  wpos : Nat
deriving DecidableEq, Repr

/-- Modify the last element of a list (the queue's `back()`). -/
def modLast : List BSeg → (BSeg → BSeg) → List BSeg
  | [], _ => []
  | [g], f => [f g]
  | g :: g2 :: t, f => g :: modLast (g2 :: t) f

def frontBlock (s : St) : List Nat := (s.buf.head?.map BSeg.block).getD []

def frontEnd (s : St) : Nat := (s.buf.head?.map BSeg.bEnd).getD 0

/-- `BlockBuffer(block_size)` with an explicit block size (the
default-constructed and `-1` cases read `sysconf(_SC_PAGESIZE)`). -/
def init (bs : Nat) : St :=
  { bs := bs
    buf := [⟨List.replicate bs 0, SENTINEL⟩]
    freeList := []
    preserved := []
    rpos := 0
    wpos := 0 }

/-- `add_block()`: commit the old tail's length, reset the cursor, link
a recycled or fresh segment marked with the sentinel. -/
def add_block (s : St) : St :=
  let s1 := { s with buf := modLast s.buf fun g => { g with bEnd := s.wpos }, wpos := 0 }
  match s1.freeList with
  | [] => { s1 with buf := s1.buf ++ [⟨List.replicate s1.bs 0, SENTINEL⟩] }
  | b :: rest => { s1 with buf := s1.buf ++ [⟨b, SENTINEL⟩], freeList := rest }

def add_block_if_needed (s : St) : St :=
  if s.wpos = s.bs then add_block s else s

/-- `add_block_if_needed(cont_write_len)`. -/
def add_block_if_needed_cont (s : St) (len : Nat) : St :=
  if sub64 s.bs s.wpos < len then add_block s else s

/-- The loop body of `write(write_start, write_end)`. -/
def writeLoop : St → List Nat → Nat → St
  | s, _, 0 => s
  | s, data, fuel + 1 =>
    if data.isEmpty then s
    else
      let s1 := add_block_if_needed s
      let tw := min data.length (sub64 s1.bs s1.wpos)
      let s2 := { s1 with
        buf := modLast s1.buf fun g => { g with block := setSlice g.block s1.wpos (data.take tw) } }
      let s3 := { s2 with wpos := s2.wpos + tw }
      writeLoop s3 (data.drop tw) fuel

/-- `write(write_start, write_end)`. -/
def write (s : St) (data : List Nat) : St :=
  writeLoop s data data.length

/-- `write<size_t>(v)`. -/
def write_size_t (s : St) (n : Nat) : St :=
  write s (le64 n)

/-- `write(const std::string&)`. -/
def write_string (s : St) (str : List Nat) : St :=
  write (write_size_t s str.length) str

/-- `pop_block()`. -/
def pop_block (s : St) : St :=
  match s.buf with
  | [] => s
  | g :: rest => { s with buf := rest, preserved := s.preserved ++ [g], rpos := 0 }

/-- `pop_block_if_needed(size)`: pop when the front is committed and too
short. -/
def pop_block_if_needed (s : St) (size : Nat) : St :=
  if frontEnd s ≠ SENTINEL ∧ sub64 (frontEnd s) s.rpos < size then pop_block s else s

/-- `read<T>()` for a `size`-byte `T`. -/
def read_bytes (s : St) (size : Nat) : St × List Nat :=
  let s1 := pop_block_if_needed s size
  let res := getSlice (frontBlock s1) s1.rpos size
  ({ s1 with rpos := s1.rpos + size }, res)

/-- `get_string()` (no `clear_preserved` in the sequential variant). -/
def get_string (s : St) : St × List Nat :=
  let r1 := read_bytes s 8
  let len := de64 r1.2
  let s2 := pop_block_if_needed r1.1 len
  let str := getSlice (frontBlock s2) s2.rpos len
  ({ s2 with rpos := s2.rpos + len }, str)

/-- `write_cont(write_start, write_end)` (the `assert` is a no-op in a
release build). -/
def write_cont (s : St) (data : List Nat) : St :=
  if data.isEmpty then s
  else
    let s1 := add_block_if_needed_cont s data.length
    let s2 := { s1 with
      buf := modLast s1.buf fun g => { g with block := setSlice g.block s1.wpos data } }
    { s2 with wpos := s2.wpos + data.length }

/-- `ensure_cont(size)`: the new state and the offset of the returned
pointer within the tail block. -/
def ensure_cont (s : St) (size : Nat) : St × Nat :=
  let s1 := add_block_if_needed_cont s size
  (s1, s1.wpos)

/-- `empty()`. -/
def empty (s : St) : Bool :=
  (frontEnd s == SENTINEL) && (s.rpos == s.wpos)

/-- The loop of `input_from_fd` (no `max_len` in the sequential
variant), with the running total and error flag exposed. -/
def inputLoop : St → List SB.RdStep → Bool → Nat → St × Nat × Bool
  | s, [], _, total => (s, total, false)
  | s, step :: rest, cont, total =>
    let s1 := add_block_if_needed s
    let cap := sub64 s1.bs s1.wpos
    match step with
    | none => (s1, total, true)
    | some l =>
      let data := l.take cap
      if data.isEmpty then (s1, total, false)
      else
        let s2 := { s1 with
          buf := modLast s1.buf fun g => { g with block := setSlice g.block s1.wpos data } }
        let s3 := { s2 with wpos := s2.wpos + data.length }
        if cont then (s3, total + data.length, false)
        else inputLoop s3 rest cont (total + data.length)

/-- `input_from_fd(fd, cont)`. -/
def input_from_fd (s : St) (steps : List SB.RdStep) (cont : Bool) : St × Int × Nat × Bool :=
  let r := inputLoop s steps cont 0
  if r.2.2 = true ∧ r.2.1 = 0 then (r.1, -1, r.2.1, r.2.2)
  else (r.1, (r.2.1 : Int), r.2.1, r.2.2)

/-- The loop of `output_to_fd`: write from the front, and pop the front
into the preserved list after a write that exactly drains a committed
segment (breaking should the list empty, which cannot happen while the
tail carries the sentinel). -/
def outputLoop : St → List SB.WrStep → Nat → St × Nat × Bool
  | s, [], total => (s, total, false)
  | s, step :: rest, total =>
    let req :=
      if frontEnd s = SENTINEL then sub64 s.wpos s.rpos else sub64 (frontEnd s) s.rpos
    match step with
    | none => (s, total, true)
    | some k =>
      let len := min k req
      if len = 0 then (s, total, false)
      else
        let s1 := { s with rpos := s.rpos + len }
        if frontEnd s1 ≠ SENTINEL ∧ s1.rpos = frontEnd s1 then
          let s2 := pop_block s1
          if s2.buf.isEmpty then (s2, total + len, false)
          else outputLoop s2 rest (total + len)
        else outputLoop s1 rest (total + len)

/-- `output_to_fd(fd)` (no `clear_preserved` in the sequential variant). -/
def output_to_fd (s : St) (steps : List SB.WrStep) : St × Int × Nat × Bool :=
  let r := outputLoop s steps 0
  if r.2.2 = true ∧ r.2.1 = 0 then (r.1, -1, r.2.1, r.2.2)
  else (r.1, (r.2.1 : Int), r.2.1, r.2.2)

/-- The loop of the sequential `clear_preserved(len)`.  Unlike the SPSC
version, the source performs no emptiness check before evaluating
`preserved_list_.front()`; calling `front()` on an empty `std::queue` is
undefined behaviour and is modelled as `none`. -/
def clearLoop : List BSeg → List (List Nat) → Nat → Nat → Option (List BSeg × List (List Nat))
  | [], _, _, _ => none
  | g :: rest, free, cleared, len =>
    if g.bEnd + cleared ≤ len then clearLoop rest (free ++ [g.block]) (cleared + g.bEnd) len
    else some (g :: rest, free)

/-- `clear_preserved(len)` of the sequential `BlockBuffer`. -/
def clear_preserved (s : St) (len : Nat) : Option St :=
  (clearLoop s.preserved s.freeList 0 len).map fun p =>
    { s with preserved := p.1, freeList := p.2 }

/-- Structural invariant of the sequential buffer: the source file's
guarantees 1 (`buf_` never empty), 2 (the tail carries the sentinel) and
3 (preserved entries are committed), with well-formedness of sizes. -/
def Inv (s : St) : Prop :=
  s.buf ≠ [] ∧
  (s.buf.getLast?.map BSeg.bEnd) = some SENTINEL ∧
  (∀ g ∈ s.buf.dropLast, g.bEnd ≤ s.bs) ∧
  s.wpos ≤ s.bs ∧
  s.bs < SENTINEL ∧
  (∀ g ∈ s.buf, g.block.length = s.bs) ∧
  (∀ b ∈ s.freeList, b.length = s.bs) ∧
  (∀ g ∈ s.preserved, g.block.length = s.bs) ∧
  (∀ g ∈ s.preserved, g.bEnd ≤ s.bs)

instance (s : St) : Decidable (Inv s) := by
  unfold Inv
  infer_instance

end BB

namespace SQ

/-- A queue node: payload (`none` after destruction / before construction)
and `next` pointer.  Addresses are indices into the node store. -/
structure QNode (α : Type) where
  obj : Option α
  next : Option Nat
  deriving DecidableEq

/-- `SPSCQueueBase<T, 0>` state: the node store plus the four pointers
`head_`, `tail_`, `free_head_`, `free_tail_`. -/
structure St (α : Type) where
  store : List (QNode α)
  head : Nat
  tail : Nat
  freeHead : Nat
  freeTail : Nat
  deriving DecidableEq

/-- Dereference a node address. -/
def qget (store : List (QNode α)) (i : Nat) : QNode α :=
  (store[i]?).getD ⟨none, none⟩

/-- Constructor: a dummy head node and a dummy freelist head node.
(`Node()` leaves `next` uninitialized in the source; it is modelled as
`none`, and it is only ever read on paths that are undefined behaviour
in the source.) -/
def initQ (α : Type) : St α :=
  { store := [⟨none, none⟩, ⟨none, none⟩], head := 0, tail := 0, freeHead := 1, freeTail := 1 }

/-- `free_list_empty()`. -/
def free_list_empty (q : St α) : Bool :=
  q.freeHead == q.freeTail

/-- `push(obj)` (mode 0): link a node after `tail_` (a fresh allocation,
or the freelist's dummy head), placement-construct `Node(nullptr, obj)`
in it, and publish it as the new `tail_`. -/
def push (q : St α) (x : α) : St α :=
  if free_list_empty q then
    let n := q.store.length
    let store1 := q.store ++ [QNode.mk (some x) none]
    let store2 := store1.set q.tail { qget store1 q.tail with next := some n }
    { q with store := store2, tail := n }
  else
    let n := q.freeHead
    let fh2 := ((qget q.store n).next).getD 0
    let store1 := q.store.set q.tail { qget q.store q.tail with next := some n }
    let store2 := store1.set n (QNode.mk (some x) none)
    { q with store := store2, tail := n, freeHead := fh2 }

/-- `pop()` (mode 0): append the old head (dummy) to the freelist,
advance `head_` one step, destroy the old dummy's payload and clear its
`next`, and publish it as the new `free_tail_`. -/
def pop (q : St α) : St α :=
  let oldHead := q.head
  let store1 := q.store.set q.freeTail { qget q.store q.freeTail with next := some oldHead }
  let newHead := ((qget store1 oldHead).next).getD 0
  let store2 := store1.set oldHead { qget store1 oldHead with obj := none, next := none }
  { q with store := store2, head := newHead, freeTail := oldHead }

/-- `front()` (mode 0): the value `head_->next->obj` addresses. -/
def front (q : St α) : Option α :=
  match (qget q.store q.head).next with
  | some n => (qget q.store n).obj
  | none => none

/-- `back()`: the value `tail_->obj` addresses. -/
def backObj (q : St α) : Option α :=
  (qget q.store q.tail).obj

/-- `empty()`. -/
def empty (q : St α) : Bool :=
  q.head == q.tail

/-- Push a whole list, left to right. -/
def pushAll (q : St α) : List α → St α
  | [] => q
  | x :: rest => pushAll (push q x) rest

/-- `n` successive `front()`/`pop()` pairs. -/
def drainFronts (q : St α) : Nat → List (Option α)
  | 0 => []
  | n + 1 => front q :: drainFronts (pop q) n

/-- The `next` links of the store chain the address list together. -/
def linked (store : List (QNode α)) : List Nat → Bool
  | [] => true
  | [_] => true
  | i :: j :: rest => ((qget store i).next == some j) && linked store (j :: rest)

/-- Representation invariant: `hs` is the node chain from `head_`
(inclusive, the dummy) to `tail_`, carrying the logical elements `xs`
after the dummy; `fs` is the freelist chain from `free_head_` to
`free_tail_`; all addresses are distinct and in bounds, and both chain
ends have cleared `next`. -/
def QRep (q : St α) (hs : List Nat) (xs : List α) (fs : List Nat) : Prop :=
  hs.head? = some q.head ∧
  hs.getLast? = some q.tail ∧
  fs.head? = some q.freeHead ∧
  fs.getLast? = some q.freeTail ∧
  linked q.store hs = true ∧
  linked q.store fs = true ∧
  (qget q.store q.tail).next = none ∧
  (qget q.store q.freeTail).next = none ∧
  (hs.drop 1).map (fun i => (qget q.store i).obj) = xs.map some ∧
  (hs ++ fs).Nodup ∧
  (∀ i ∈ hs ++ fs, i < q.store.length) ∧
  hs.length = xs.length + 1

instance {α : Type} [DecidableEq α] (q : St α) (hs : List Nat) (xs : List α)
    (fs : List Nat) : Decidable (QRep q hs xs fs) := by
  unfold QRep
  infer_instance

end SQ

/-- Pairwise correspondence between the SPSC buffer's segment queue and
the sequential buffer's: committed segments carry the same published end
and agree on their committed bytes; the tail pair agrees up to the write
cursor `wp`, the sequential tail being marked by the sentinel. -/
def corrSegs : Nat → List SB.Seg → List BB.BSeg → Bool
  | wp, [g], [b] =>
    (b.bEnd == BB.SENTINEL) && (b.block.take wp == g.block.take wp) &&
      (b.block.length == g.block.length)
  | wp, g :: g2 :: gs, b :: b2 :: bs =>
    (b.bEnd == g.segEnd) && (b.block.take g.segEnd == g.block.take g.segEnd) &&
      (b.block.length == g.block.length) && corrSegs wp (g2 :: gs) (b2 :: bs)
  | _, _, _ => false

/-- Correspondence between an SPSC buffer state driven single-threadedly
and a sequential `BlockBuffer` state: same block size and cursors, and
corresponding segment queues.  (The freelists and preserved lists need
not correspond - recycled blocks only ever contribute bytes that are
overwritten before being readable - but the sequential freelist's blocks
must have the block size.) -/
def corr (s : SB.St) (t : BB.St) : Prop :=
  t.bs = s.bs ∧ t.rpos = s.rpos ∧ t.wpos = s.wp ∧ s.bs < BB.SENTINEL ∧
  corrSegs s.wp s.buf t.buf = true ∧
  (∀ b ∈ t.freeList, b.length = t.bs)

instance (s : SB.St) (t : BB.St) : Decidable (corr s t) := by
  unfold corr
  infer_instance

/-- The number of bytes of the front segment already committed by the
writer: its published end for a committed segment, the write cursor when
the front is also the tail.  Reads beyond this window return bytes the
producer never wrote (allowed but meaningless in both buffers). -/
def readWindow (s : SB.St) : Nat :=
  if s.buf.length = 1 then s.wp else SB.frontEnd s

namespace SB

theorem modLast_nil (f : Seg → Seg) : modLast [] f = [] := rfl

theorem modLast_concat (l : List Seg) (g : Seg) (f : Seg → Seg) :
    modLast (l ++ [g]) f = l ++ [f g] := by
  induction l with
  | nil => rfl
  | cons a t ih =>
    cases t with
    | nil => rfl
    | cons b t2 => simpa [modLast] using ih

theorem modLast_eq_dropLast_append (l : List Seg) (f : Seg → Seg) (h : l ≠ []) :
    modLast l f = l.dropLast ++ [f (l.getLast h)] := by
  induction l with
  | nil => exact absurd rfl h
  | cons a t ih =>
    cases t with
    | nil => rfl
    | cons b t2 =>
      simp only [modLast, List.dropLast_cons₂, List.getLast_cons]
      rw [ih (by simp)]
      simp

theorem length_modLast (l : List Seg) (f : Seg → Seg) :
    (modLast l f).length = l.length := by
  induction l with
  | nil => rfl
  | cons a t ih =>
    cases t with
    | nil => rfl
    | cons b t2 => simpa [modLast] using ih

theorem mapUpdate_eq_modLast (l : List Seg) (w wp : Nat)
    (hnd : (l.map Seg.sid).Nodup) (hlast : l.getLast?.map Seg.sid = some w) :
    l.map (fun g => if g.sid = w then { g with segEnd := wp } else g) =
      modLast l (fun g => { g with segEnd := wp }) := by
  induction l with
  | nil => simp at hlast
  | cons a t ih =>
    cases t with
    | nil =>
      simp only [List.getLast?_singleton, Option.map_some'] at hlast
      have ha : a.sid = w := by simpa using hlast
      simp [modLast, ha]
    | cons b t2 =>
      have hlast2 : (b :: t2).getLast?.map Seg.sid = some w := by
        rwa [List.getLast?_cons_cons] at hlast
      have hwmem : w ∈ (b :: t2).map Seg.sid := by
        rcases Option.map_eq_some'.mp hlast2 with ⟨g, hg, hgw⟩
        have hmem : g ∈ b :: t2 := by
          rcases List.mem_getLast?_eq_getLast (show g ∈ (b :: t2).getLast? from hg) with ⟨hne, hgl⟩
          exact hgl ▸ List.getLast_mem hne
        exact hgw ▸ List.mem_map_of_mem Seg.sid hmem
      have hane : a.sid ≠ w := by
        intro hc
        have : a.sid ∉ (b :: t2).map Seg.sid := by
          have := hnd
          simp only [List.map_cons, List.nodup_cons] at this
          simpa using this.1
        exact this (hc ▸ hwmem)
      simp only [List.map_cons, modLast, if_neg hane]
      have hnd2 : ((b :: t2).map Seg.sid).Nodup := by
        simp only [List.map_cons, List.nodup_cons] at hnd ⊢
        exact hnd.2
      rw [← ih hnd2 hlast2]
      simp [modLast]

end SB

namespace SB

theorem storeWpos_eq (s : St) (hnd : (s.buf.map Seg.sid).Nodup)
    (hlast : s.buf.getLast?.map Seg.sid = some s.wposId) :
    storeWpos s = { s with buf := modLast s.buf fun g => { g with segEnd := s.wp } } := by
  simp only [storeWpos]
  rw [mapUpdate_eq_modLast s.buf s.wposId s.wp hnd hlast]

theorem find_sid_getLast (l : List Seg) (w : Nat) (hnd : (l.map Seg.sid).Nodup)
    (hlast : l.getLast?.map Seg.sid = some w) :
    l.find? (fun g => g.sid == w) = l.getLast? := by
  induction l with
  | nil => simp at hlast
  | cons a t ih =>
    cases t with
    | nil =>
      have ha : a.sid = w := by simpa using hlast
      simp [List.find?, ha]
    | cons b t2 =>
      have hlast2 : (b :: t2).getLast?.map Seg.sid = some w := by
        rwa [List.getLast?_cons_cons] at hlast
      have hwmem : w ∈ (b :: t2).map Seg.sid := by
        rcases Option.map_eq_some'.mp hlast2 with ⟨g, hg, hgw⟩
        have hmem : g ∈ b :: t2 := by
          rcases List.mem_getLast?_eq_getLast (show g ∈ (b :: t2).getLast? from hg) with ⟨hne, hgl⟩
          exact hgl ▸ List.getLast_mem hne
        exact hgw ▸ List.mem_map_of_mem Seg.sid hmem
      have hane : (a.sid == w) = false := by
        apply beq_false_of_ne
        intro hc
        have : a.sid ∉ (b :: t2).map Seg.sid := by
          simp only [List.map_cons, List.nodup_cons] at hnd
          simpa using hnd.1
        exact this (hc ▸ hwmem)
      have hnd2 : ((b :: t2).map Seg.sid).Nodup := by
        rw [List.map_cons, List.nodup_cons] at hnd
        exact hnd.2
      rw [List.getLast?_cons_cons, ← ih hnd2 hlast2]
      simp [List.find?, hane]

theorem loadWpos_eq (s : St) (hnd : (s.buf.map Seg.sid).Nodup)
    (hlast : s.buf.getLast?.map Seg.sid = some s.wposId) :
    loadWpos s = (s.buf.getLast?.map Seg.segEnd).getD 0 := by
  unfold loadWpos
  rw [find_sid_getLast s.buf s.wposId hnd hlast]
  cases s.buf.getLast? <;> simp

theorem check_iff (s : St) (hne : s.buf ≠ []) (hnd : (s.buf.map Seg.sid).Nodup)
    (hlast : s.buf.getLast?.map Seg.sid = some s.wposId) :
    check_one_block_left s = true ↔ s.buf.length = 1 := by
  unfold check_one_block_left
  match hb : s.buf, hne with
  | [g], _ =>
    have : g.sid = s.wposId := by
      rw [hb] at hlast
      simpa using hlast
    simp [this]
  | g :: b :: t, _ =>
    rw [hb] at hlast hnd
    have hlast2 : ((b :: t).getLast?.map Seg.sid) = some s.wposId := by
      rwa [List.getLast?_cons_cons] at hlast
    have hwmem : s.wposId ∈ (b :: t).map Seg.sid := by
      rcases Option.map_eq_some'.mp hlast2 with ⟨g2, hg, hgw⟩
      have hmem : g2 ∈ b :: t := by
        rcases List.mem_getLast?_eq_getLast (show g2 ∈ (b :: t).getLast? from hg) with ⟨hne2, hgl⟩
        exact hgl ▸ List.getLast_mem hne2
      exact hgw ▸ List.mem_map_of_mem Seg.sid hmem
    have hane : g.sid ≠ s.wposId := by
      intro hc
      have : g.sid ∉ (b :: t).map Seg.sid := by
        simp only [List.map_cons, List.nodup_cons] at hnd
        simpa using hnd.1
      exact this (hc ▸ hwmem)
    simp [hane]

/-- Generic invariant preservation for updates of the tail segment that
keep the node identity, keep the block length, and keep the published
end within the block size. -/
theorem inv_modLast (s : St) (h : Inv s) (f : Seg → Seg)
    (hsid : ∀ g, (f g).sid = g.sid)
    (hblock : ∀ g, g.block.length = s.bs → (f g).block.length = s.bs)
    (hend : ∀ g, g.segEnd ≤ s.bs → (f g).segEnd ≤ s.bs) :
    Inv { s with buf := modLast s.buf f } := by
  obtain ⟨h1, h2, h3, h4, h5, h6, h7, h8, h9, h10, h11⟩ := h
  rw [modLast_eq_dropLast_append _ _ h1]
  have hgl : s.buf.getLast? = some (s.buf.getLast h1) := List.getLast?_eq_getLast_of_ne_nil h1
  have hglmem : s.buf.getLast h1 ∈ s.buf := List.getLast_mem h1
  have hrebuild : s.buf.dropLast ++ [s.buf.getLast h1] = s.buf := List.dropLast_append_getLast h1
  have hmemsplit : ∀ g, g ∈ s.buf.dropLast ++ [f (s.buf.getLast h1)] →
      g ∈ s.buf ∨ g = f (s.buf.getLast h1) := by
    intro g hg
    rcases List.mem_append.mp hg with hg | hg
    · exact Or.inl (by rw [← hrebuild]; exact List.mem_append.mpr (Or.inl hg))
    · exact Or.inr (by simpa using hg)
  refine ⟨by simp, ?_, ?_, ?_, ?_, h6, h7, ?_, ?_, h10, h11⟩
  · rw [List.getLast?_concat]
    rw [hgl] at h2
    simp only [Option.map_some'] at h2 ⊢
    rw [hsid]
    exact h2
  · have hmap : (s.buf.dropLast ++ [f (s.buf.getLast h1)]).map Seg.sid = s.buf.map Seg.sid := by
      conv_rhs => rw [← hrebuild]
      simp [hsid]
    simpa [hmap] using h3
  · intro g hg
    rcases hmemsplit g hg with hg | hg
    · exact h4 g hg
    · rw [hg, hsid]
      exact h4 _ hglmem
  · intro hobl
    have := h5 hobl
    have hlen : (s.buf.dropLast ++ [f (s.buf.getLast h1)]).length = s.buf.length := by
      conv_rhs => rw [← hrebuild]
      simp
    simpa [hlen]
  · intro g hg
    rcases hmemsplit g hg with hg | hg
    · exact h8 g hg
    · rw [hg]
      exact hblock _ (h8 _ hglmem)
  · intro g hg
    rcases hmemsplit g hg with hg | hg
    · exact h9 g hg
    · rw [hg]
      exact hend _ (h9 _ hglmem)

theorem inv_storeWpos (s : St) (h : Inv s) : Inv (storeWpos s) := by
  rw [storeWpos_eq s h.2.2.1 h.2.1]
  exact inv_modLast s h _ (fun g => rfl) (fun g hg => hg) (fun g _ => h.2.2.2.2.2.1)

theorem inv_notify (s : St) (h : Inv s) : Inv (notify s) := inv_storeWpos s h

end SB

namespace SB

theorem sub64_zero {a : Nat} (h : a < 2 ^ 64) : sub64 a 0 = a := by
  unfold sub64
  omega

/-- Invariant reassembly under changes of the consumer cursor, the
private write cursor (kept within the block) and the
`one_block_left_` flag (kept `true` unless more than one segment). -/
theorem inv_mk_of (s : St) (h : Inv s) (r w : Nat) (hw : w ≤ s.bs) (c : Bool)
    (hc : c = false → 1 < s.buf.length) :
    Inv { s with rpos := r, wp := w, obl := c } := by
  obtain ⟨h1, h2, h3, h4, h5, h6, h7, h8, h9, h10, h11⟩ := h
  exact ⟨h1, h2, h3, h4, hc, hw, h7, h8, h9, h10, h11⟩

theorem add_block_eq (s : St) :
    add_block s =
      match (storeWpos s).freeList with
      | [] =>
        { storeWpos s with
            wp := 0
            buf := (storeWpos s).buf ++
              [⟨(storeWpos s).nextId, List.replicate (storeWpos s).bs 0, 0⟩]
            wposId := (storeWpos s).nextId
            nextId := (storeWpos s).nextId + 1 }
      | b :: rest =>
        { storeWpos s with
            wp := 0
            buf := (storeWpos s).buf ++ [⟨(storeWpos s).nextId, b, 0⟩]
            freeList := rest
            wposId := (storeWpos s).nextId
            nextId := (storeWpos s).nextId + 1 } := rfl

theorem inv_add_aux (s : St) (h : Inv s) (nb : List Nat) (hnb : nb.length = s.bs)
    (fl : List (List Nat)) (hfl : ∀ b ∈ fl, b.length = s.bs) :
    Inv { s with wp := 0, buf := s.buf ++ [⟨s.nextId, nb, 0⟩],
                 freeList := fl, wposId := s.nextId, nextId := s.nextId + 1 } := by
  obtain ⟨h1, h2, h3, h4, h5, h6, h7, h8, h9, h10, h11⟩ := h
  refine ⟨by simp, ?_, ?_, ?_, ?_, by simp, h7, ?_, ?_, hfl, h11⟩
  · simp [List.getLast?_concat]
  · have hmap : (s.buf ++ [⟨s.nextId, nb, 0⟩] : List Seg).map Seg.sid =
        s.buf.map Seg.sid ++ [s.nextId] := by
      simp
    dsimp only
    rw [hmap, List.nodup_append]
    refine ⟨h3, by simp, ?_⟩
    intro x hx
    simp only [List.mem_singleton]
    intro hx1
    rcases List.mem_map.mp hx with ⟨g, hg, hgx⟩
    have := h4 g hg
    omega
  · intro g hg
    dsimp only at hg ⊢
    rcases List.mem_append.mp hg with hg | hg
    · have := h4 g hg
      omega
    · simp only [List.mem_singleton] at hg
      rw [hg]
      simp
  · intro _
    have : s.buf.length ≠ 0 := by
      intro hc
      exact h1 (List.length_eq_zero.mp hc)
    simp
    omega
  · intro g hg
    dsimp only at hg
    rcases List.mem_append.mp hg with hg | hg
    · exact h8 g hg
    · simp only [List.mem_singleton] at hg
      rw [hg]
      exact hnb
  · intro g hg
    dsimp only at hg
    rcases List.mem_append.mp hg with hg | hg
    · exact h9 g hg
    · simp only [List.mem_singleton] at hg
      rw [hg]
      simp

theorem inv_add_block (s : St) (h : Inv s) : Inv (add_block s) := by
  have hInv1 := inv_storeWpos s h
  rw [add_block_eq]
  cases hfl : (storeWpos s).freeList with
  | nil =>
    exact inv_add_aux (storeWpos s) hInv1 (List.replicate (storeWpos s).bs 0) (by simp)
      (storeWpos s).freeList hInv1.2.2.2.2.2.2.2.2.2.1
  | cons b rest =>
    have hb : b.length = (storeWpos s).bs :=
      hInv1.2.2.2.2.2.2.2.2.2.1 b (by rw [hfl]; simp)
    have hrest : ∀ x ∈ rest, x.length = (storeWpos s).bs := by
      intro x hx
      exact hInv1.2.2.2.2.2.2.2.2.2.1 x (by rw [hfl]; simp [hx])
    exact inv_add_aux (storeWpos s) hInv1 b hb rest hrest

theorem inv_add_block_if_needed (s : St) (h : Inv s) : Inv (add_block_if_needed s) := by
  unfold add_block_if_needed
  split
  · exact inv_add_block s h
  · exact h

theorem inv_add_block_if_needed_cont (s : St) (h : Inv s) (len : Nat) :
    Inv (add_block_if_needed_cont s len) := by
  unfold add_block_if_needed_cont
  split
  · exact inv_add_block s h
  · exact h

theorem writeLoop_succ (s : St) (data : List Nat) (fuel : Nat) :
    writeLoop s data (fuel + 1) =
      if data.isEmpty then s
      else
        let s1 := add_block_if_needed s
        let tw := min data.length (sub64 s1.bs s1.wp)
        let s2 := { s1 with
          buf := modLast s1.buf fun g => { g with block := setSlice g.block s1.wp (data.take tw) } }
        writeLoop { s2 with wp := s2.wp + tw } (data.drop tw) fuel := rfl

theorem inv_writeCopy (s : St) (h : Inv s) (data : List Nat)
    (hlen : s.wp + data.length ≤ s.bs) :
    Inv { s with
      buf := modLast s.buf fun g => { g with block := setSlice g.block s.wp data },
      wp := s.wp + data.length } := by
  have h2 := inv_modLast s h (fun g => { g with block := setSlice g.block s.wp data })
    (fun g => rfl)
    (fun g hg => by rw [setSlice_length (by omega)]; exact hg)
    (fun g hg => hg)
  exact inv_mk_of _ h2 _ _ (by simpa using hlen) _ (fun hc => by
    have := h2.2.2.2.2.1 hc
    simpa [length_modLast] using this)

theorem inv_writeLoop (fuel : Nat) : ∀ (s : St) (data : List Nat), Inv s →
    Inv (writeLoop s data fuel) := by
  induction fuel with
  | zero => intro s data h; exact h
  | succ fuel ih =>
    intro s data h
    rw [writeLoop_succ]
    by_cases hd : data.isEmpty
    · simpa [hd]
    · simp only [hd, if_false]
      have h1 : Inv (add_block_if_needed s) := inv_add_block_if_needed s h
      set s1 := add_block_if_needed s with hs1
      set tw := min data.length (sub64 s1.bs s1.wp) with htw
      have hwp : s1.wp ≤ s1.bs := h1.2.2.2.2.2.1
      have hbs : s1.bs < 2 ^ 64 := h1.2.2.2.2.2.2.1
      have hsub : sub64 s1.bs s1.wp = s1.bs - s1.wp := sub64_of_le hwp hbs
      have hbound : s1.wp + (data.take tw).length ≤ s1.bs := by
        simp only [List.length_take]
        omega
      have h2 := inv_writeCopy s1 h1 (data.take tw) hbound
      have : Inv { { s1 with
          buf := modLast s1.buf fun g =>
            { g with block := setSlice g.block s1.wp (data.take tw) } } with
          wp := s1.wp + tw } := by
        have heq : s1.wp + tw = s1.wp + (data.take tw).length := by
          simp only [List.length_take]
          omega
        rw [heq]
        exact h2
      exact ih _ _ this

theorem inv_write (s : St) (h : Inv s) (data : List Nat) (noti : Bool) :
    Inv (write s data noti) := by
  unfold write
  have h1 := inv_writeLoop data.length s data h
  split
  · exact inv_notify _ h1
  · exact h1

theorem inv_write_string (s : St) (h : Inv s) (str : List Nat) (noti : Bool) :
    Inv (write_string s str noti) := by
  unfold write_string write_size_t
  exact inv_write _ (inv_write s h _ false) str noti

end SB

namespace SB

theorem check_false_len (s : St) (hne : s.buf ≠ []) (hnd : (s.buf.map Seg.sid).Nodup)
    (hlast : s.buf.getLast?.map Seg.sid = some s.wposId)
    (hc : check_one_block_left s = false) : 1 < s.buf.length := by
  have hiff := check_iff s hne hnd hlast
  have hlen0 : s.buf.length ≠ 0 := by
    intro h0
    exact hne (List.length_eq_zero.mp h0)
  have hlen1 : s.buf.length ≠ 1 := by
    intro h1
    rw [hiff.mpr h1] at hc
    cases hc
  omega

theorem pop_block_cons (s : St) (g : Seg) (rest : List Seg) (hb : s.buf = g :: rest) :
    pop_block s =
      { s with buf := rest, preserved := s.preserved ++ [g], rpos := 0,
               obl := check_one_block_left
                 { s with buf := rest, preserved := s.preserved ++ [g], rpos := 0 } } := by
  unfold pop_block
  rw [hb]

theorem inv_pop_block (s : St) (h : Inv s) (hlen : 1 < s.buf.length) : Inv (pop_block s) := by
  obtain ⟨h1, h2, h3, h4, h5, h6, h7, h8, h9, h10, h11⟩ := h
  cases hb : s.buf with
  | nil => exact absurd hb h1
  | cons g rest =>
    have hrest : rest ≠ [] := by
      rw [hb] at hlen
      simp at hlen
      intro hc
      rw [hc] at hlen
      simp at hlen
    rw [pop_block_cons s g rest hb]
    have hlast2 : rest.getLast?.map Seg.sid = some s.wposId := by
      rw [hb] at h2
      cases rest with
      | nil => exact absurd rfl hrest
      | cons b t => rwa [List.getLast?_cons_cons] at h2
    have hnd2 : (rest.map Seg.sid).Nodup := by
      rw [hb, List.map_cons, List.nodup_cons] at h3
      exact h3.2
    refine ⟨hrest, hlast2, hnd2, ?_, ?_, h6, h7, ?_, ?_, h10, ?_⟩
    · intro x hx
      exact h4 x (by rw [hb]; simp [hx])
    · intro hobl
      dsimp only at hobl
      have := check_false_len { s with buf := rest, preserved := s.preserved ++ [g], rpos := 0 }
        hrest hnd2 hlast2 hobl
      simpa using this
    · intro x hx
      exact h8 x (by rw [hb]; simp [hx])
    · intro x hx
      exact h9 x (by rw [hb]; simp [hx])
    · intro x hx
      dsimp only at hx
      rcases List.mem_append.mp hx with hx | hx
      · exact h11 x hx
      · simp only [List.mem_singleton] at hx
        rw [hx]
        exact h8 g (by rw [hb]; simp)

theorem pop_block_if_needed_eq (s : St) (h : Inv s) (n : Nat) :
    pop_block_if_needed s n =
      if 1 < s.buf.length ∧ sub64 (frontEnd s) s.rpos < n then pop_block s else s := by
  obtain ⟨h1, h2, h3, h4, h5, _, _, _, _, _, _⟩ := h
  unfold pop_block_if_needed
  cases hobl : s.obl with
  | false =>
    have hlen := h5 hobl
    simp only [Bool.false_eq_true, if_false]
    by_cases hc : sub64 (frontEnd s) s.rpos < n
    · rw [if_pos hc, if_pos ⟨hlen, hc⟩]
    · rw [if_neg hc, if_neg (by intro hand; exact hc hand.2)]
  | true =>
    simp only [if_true]
    by_cases hc : check_one_block_left s = true
    · have hlen1 : s.buf.length = 1 := (check_iff s h1 h3 h2).mp hc
      rw [if_neg (by intro hand; rw [hand.1] at hc; cases hc)]
      rw [if_neg (by intro hand; omega)]
    · have hc' : check_one_block_left s = false := by
        cases hcc : check_one_block_left s
        · rfl
        · exact absurd hcc hc
      have hlen := check_false_len s h1 h3 h2 hc'
      by_cases hs : sub64 (frontEnd s) s.rpos < n
      · rw [if_pos ⟨hc', hs⟩, if_pos ⟨hlen, hs⟩]
      · rw [if_neg (by intro hand; exact hs hand.2), if_neg (by intro hand; exact hs hand.2)]

theorem pop_avail_eq (s : St) (n : Nat) :
    pop_block_if_needed_and_available s n = pop_block_if_needed s n := rfl

theorem inv_pop_block_if_needed (s : St) (h : Inv s) (n : Nat) :
    Inv (pop_block_if_needed s n) := by
  rw [pop_block_if_needed_eq s h n]
  split
  · next hc => exact inv_pop_block s h hc.1
  · exact h

theorem inv_read_bytes (s : St) (h : Inv s) (n : Nat) : Inv (read_bytes s n).1 := by
  unfold read_bytes
  have h1 := inv_pop_block_if_needed s h n
  exact inv_mk_of _ h1 _ _ h1.2.2.2.2.2.1 _ h1.2.2.2.2.1

/-- Number of preserved segments `clear_preserved` removes: the longest
prefix whose cumulative published lengths fit in the budget. -/
def clearCount : List Seg → Nat → Nat
  | [], _ => 0
  | g :: rest, n => if g.segEnd ≤ n then clearCount rest (n - g.segEnd) + 1 else 0

theorem clearLoop_spec : ∀ (pres : List Seg) (free : List (List Nat)) (cleared len : Nat),
    cleared ≤ len →
    clearLoop pres free cleared len =
      (pres.drop (clearCount pres (len - cleared)),
       free ++ (pres.take (clearCount pres (len - cleared))).map Seg.block) := by
  intro pres
  induction pres with
  | nil => intro free cleared len hcl; simp [clearLoop, clearCount]
  | cons g rest ih =>
    intro free cleared len hcl
    unfold clearLoop clearCount
    by_cases hc : g.segEnd + cleared ≤ len
    · rw [if_pos hc, if_pos (by omega)]
      rw [ih (free ++ [g.block]) (cleared + g.segEnd) len (by omega)]
      have harith : len - (cleared + g.segEnd) = len - cleared - g.segEnd := by omega
      rw [harith]
      simp
    · rw [if_neg hc, if_neg (by omega)]
      simp

theorem clear_preserved_eq (s : St) (len : Nat) :
    clear_preserved s len =
      { s with preserved := s.preserved.drop (clearCount s.preserved len),
               freeList := s.freeList ++
                 (s.preserved.take (clearCount s.preserved len)).map Seg.block } := by
  unfold clear_preserved
  rw [clearLoop_spec s.preserved s.freeList 0 len (by omega)]
  simp

theorem inv_clear_preserved (s : St) (h : Inv s) (len : Nat) : Inv (clear_preserved s len) := by
  obtain ⟨h1, h2, h3, h4, h5, h6, h7, h8, h9, h10, h11⟩ := h
  rw [clear_preserved_eq]
  refine ⟨h1, h2, h3, h4, h5, h6, h7, h8, h9, ?_, ?_⟩
  · intro b hb
    dsimp only at hb
    rcases List.mem_append.mp hb with hb | hb
    · exact h10 b hb
    · rcases List.mem_map.mp hb with ⟨g, hg, hgb⟩
      exact hgb ▸ h11 g (List.mem_of_mem_take hg)
  · intro g hg
    exact h11 g (List.mem_of_mem_drop hg)

theorem inv_get_cont (s : St) (h : Inv s) (len : Nat) : Inv (get_cont s len).1 := by
  unfold get_cont
  have h1 := inv_pop_block_if_needed s h len
  exact inv_clear_preserved _ (inv_mk_of _ h1 _ _ h1.2.2.2.2.2.1 _ h1.2.2.2.2.1) len

theorem inv_get_string (s : St) (h : Inv s) : Inv (get_string s).1 := by
  unfold get_string
  dsimp only
  have h1 := inv_read_bytes s h 8
  have h2 := inv_pop_block_if_needed _ h1 (de64 (read_bytes s 8).2)
  set s2 := pop_block_if_needed (read_bytes s 8).1 (de64 (read_bytes s 8).2) with hs2
  exact inv_clear_preserved _
    (inv_mk_of s2 h2 (s2.rpos + de64 (read_bytes s 8).2) s2.wp h2.2.2.2.2.2.1 s2.obl
      (fun hc => h2.2.2.2.2.1 hc)) _

theorem inv_write_cont (s : St) (h : Inv s) (data : List Nat) (hlen : data.length ≤ s.bs)
    (noti : Bool) : Inv (write_cont s data noti) := by
  unfold write_cont
  by_cases hd : data.isEmpty
  · simpa [hd]
  · simp only [hd, if_false]
    have h1 := inv_add_block_if_needed_cont s h data.length
    set s1 := add_block_if_needed_cont s data.length with hs1
    have hbs1 : s1.bs = s.bs := by
      rw [hs1]
      unfold add_block_if_needed_cont
      split
      · rw [add_block_eq]
        cases (storeWpos s).freeList <;> rfl
      · rfl
    have hfits : s1.wp + data.length ≤ s1.bs := by
      rw [hs1]
      unfold add_block_if_needed_cont
      split
      · next hcond =>
        have : (add_block s).wp = 0 := by
          rw [add_block_eq]
          cases (storeWpos s).freeList <;> rfl
        rw [this]
        have : (add_block s).bs = s.bs := by
          rw [add_block_eq]
          cases (storeWpos s).freeList <;> rfl
        rw [this]
        omega
      · next hcond =>
        have hsub : sub64 s.bs s.wp = s.bs - s.wp :=
          sub64_of_le h.2.2.2.2.2.1 h.2.2.2.2.2.2.1
        rw [hsub] at hcond
        have h6 := h.2.2.2.2.2.1
        omega
    have h2 := inv_writeCopy s1 h1 data hfits
    by_cases hn : noti = true
    · rw [if_pos hn]
      exact inv_notify _ h2
    · rw [if_neg hn]
      exact h2

theorem inv_ensure_cont (s : St) (h : Inv s) (n : Nat) : Inv (ensure_cont s n).1 := by
  unfold ensure_cont
  exact inv_add_block_if_needed_cont s h n

theorem inv_empty_m (s : St) (h : Inv s) : Inv (empty_m s).1 := by
  unfold empty_m
  split
  · next hobl =>
    dsimp only
    refine inv_mk_of s h s.rpos s.wp h.2.2.2.2.2.1 (check_one_block_left s) ?_
    intro hc
    exact check_false_len s h.1 h.2.2.1 h.2.1 hc
  · exact h

end SB

namespace SB

theorem inputLoop_cons (s : St) (step : RdStep) (rest : List RdStep) (cont : Bool)
    (maxLen : Option Nat) (total : Nat) :
    inputLoop s (step :: rest) cont maxLen total =
      let s1 := add_block_if_needed s
      let cap :=
        match maxLen with
        | none => sub64 s1.bs s1.wp
        | some m => min (sub64 m total) (sub64 s1.bs s1.wp)
      match step with
      | none => (s1, total, true)
      | some l =>
        let data := l.take cap
        if data.isEmpty then (s1, total, false)
        else
          let s2 := { s1 with
            buf := modLast s1.buf fun g => { g with block := setSlice g.block s1.wp data } }
          let s3 := { s2 with wp := s2.wp + data.length }
          if cont then (s3, total + data.length, false)
          else inputLoop s3 rest cont maxLen (total + data.length) := rfl

theorem inv_inputLoop (steps : List RdStep) : ∀ (s : St) (cont : Bool) (maxLen : Option Nat)
    (total : Nat), Inv s → Inv (inputLoop s steps cont maxLen total).1 := by
  induction steps with
  | nil => intro s cont maxLen total h; exact h
  | cons step rest ih =>
    intro s cont maxLen total h
    rw [inputLoop_cons]
    have h1 : Inv (add_block_if_needed s) := inv_add_block_if_needed s h
    set s1 := add_block_if_needed s with hs1
    set cap :=
      match maxLen with
      | none => sub64 s1.bs s1.wp
      | some m => min (sub64 m total) (sub64 s1.bs s1.wp) with hcap
    cases step with
    | none => exact h1
    | some l =>
      dsimp only
      by_cases hd : (l.take cap).isEmpty
      · simp only [hd, if_true]
        exact h1
      · simp only [hd, if_false]
        have hsub : sub64 s1.bs s1.wp = s1.bs - s1.wp :=
          sub64_of_le h1.2.2.2.2.2.1 h1.2.2.2.2.2.2.1
        have hcaple : cap ≤ sub64 s1.bs s1.wp := by
          rw [hcap]
          cases maxLen <;> simp
        have hdle : (l.take cap).length ≤ cap := by
          simp
        have hwp1 : s1.wp ≤ s1.bs := h1.2.2.2.2.2.1
        have hcaple2 : cap ≤ s1.bs - s1.wp := by
          rw [← hsub]
          exact hcaple
        have hfits : s1.wp + (l.take cap).length ≤ s1.bs := by
          omega
        have h2 := inv_writeCopy s1 h1 (l.take cap) hfits
        by_cases hcont : cont = true
        · rw [if_pos hcont]
          exact h2
        · rw [if_neg hcont]
          exact ih _ _ _ _ h2

theorem inv_input_from_fd (s : St) (h : Inv s) (steps : List RdStep) (cont : Bool)
    (maxLen : Option Nat) : Inv (input_from_fd s steps cont maxLen).1 := by
  unfold input_from_fd
  have h1 := inv_inputLoop steps s cont maxLen 0 h
  dsimp only
  by_cases hcase : (inputLoop s steps cont maxLen 0).2.2 = true ∧
      (inputLoop s steps cont maxLen 0).2.1 = 0
  · rw [if_pos hcase]
    exact h1
  · rw [if_neg hcase]
    by_cases hpos : 0 < (inputLoop s steps cont maxLen 0).2.1
    · rw [if_pos hpos]
      exact inv_notify _ h1
    · rw [if_neg hpos]
      exact h1

theorem outputLoop_cons (s : St) (step : WrStep) (rest : List WrStep) (total : Nat) :
    outputLoop s (step :: rest) total =
      let s1 := pop_block_if_needed_and_available s 1
      let req :=
        if s1.obl then sub64 (frontEndAcq s1) s1.rpos else sub64 (frontEnd s1) s1.rpos
      match step with
      | none => (s1, total, true)
      | some k =>
        let len := min k req
        if len = 0 then (s1, total, false)
        else outputLoop { s1 with rpos := s1.rpos + len } rest (total + len) := rfl

theorem inv_set_rpos (s : St) (h : Inv s) (r : Nat) : Inv { s with rpos := r } :=
  inv_mk_of s h r s.wp h.2.2.2.2.2.1 s.obl h.2.2.2.2.1

theorem inv_outputLoop (steps : List WrStep) : ∀ (s : St) (total : Nat), Inv s →
    Inv (outputLoop s steps total).1 := by
  induction steps with
  | nil => intro s total h; exact h
  | cons step rest ih =>
    intro s total h
    rw [outputLoop_cons]
    have h1 : Inv (pop_block_if_needed_and_available s 1) := by
      rw [pop_avail_eq]
      exact inv_pop_block_if_needed s h 1
    set s1 := pop_block_if_needed_and_available s 1 with hs1
    cases step with
    | none => exact h1
    | some k =>
      dsimp only
      set req := if s1.obl = true then sub64 (frontEndAcq s1) s1.rpos
        else sub64 (frontEnd s1) s1.rpos with hreq
      by_cases hz : min k req = 0
      · rw [if_pos hz]
        exact h1
      · rw [if_neg hz]
        exact ih _ _ (inv_set_rpos s1 h1 _)

theorem inv_output_to_fd (s : St) (h : Inv s) (steps : List WrStep) :
    Inv (output_to_fd s steps).1 := by
  unfold output_to_fd
  have h1 := inv_outputLoop steps s 0 h
  dsimp only
  by_cases hcase : (outputLoop s steps 0).2.2 = true ∧ (outputLoop s steps 0).2.1 = 0
  · rw [if_pos hcase]
    exact h1
  · rw [if_neg hcase]
    exact inv_clear_preserved _ h1 _

theorem inv_init (bs : Nat) (h : bs < 2 ^ 64) : Inv (init bs) := by
  unfold init Inv
  refine ⟨by simp, by simp, by simp, ?_, by simp, by simp, h, ?_, ?_, by simp, by simp⟩
  · intro g hg
    simp only [List.mem_singleton] at hg
    rw [hg]
    simp
  · intro g hg
    simp only [List.mem_singleton] at hg
    rw [hg]
    simp
  · intro g hg
    simp only [List.mem_singleton] at hg
    rw [hg]
    simp

end SB

namespace SB

/-- The two conjuncts of the claimed state invariant: the segment list
is non-empty and the published pointer `wpos_` addresses the `second`
field of the tail (back) segment. -/
def wposAtBack (s : St) : Prop :=
  s.buf ≠ [] ∧ (s.buf.getLast?.map Seg.sid) = some s.wposId

/-- The `one_block_left_` hysteresis property: whenever the flag is
`false`, the segment list holds strictly more than one segment. -/
def oblSafe (s : St) : Prop :=
  s.obl = false → 1 < s.buf.length

end SB

/-- C2: for every consumer state satisfying the buffer invariant,
`empty()` returns `true` exactly when the segment list holds one segment
and `rpos_` equals the published write position `*wpos_`; in particular
it never returns `true` while more than one segment exists. -/
theorem C2_empty_iff (s : SB.St) (h : SB.Inv s) :
    (SB.empty_c s = true ↔ s.buf.length = 1 ∧ s.rpos = SB.loadWpos s) ∧
    (1 < s.buf.length → SB.empty_c s = false) := by
  have hiff : SB.empty_c s = true ↔ s.buf.length = 1 ∧ s.rpos = SB.loadWpos s := by
    unfold SB.empty_c
    cases hobl : s.obl with
    | false =>
      have hlen := h.2.2.2.2.1 hobl
      simp only [Bool.false_and]
      constructor
      · intro hc
        cases hc
      · intro hc
        omega
    | true =>
      have hcheck := SB.check_iff s h.1 h.2.2.1 h.2.1
      simp only [Bool.true_and, Bool.and_eq_true, beq_iff_eq]
      constructor
      · rintro ⟨hc, hr⟩
        exact ⟨hcheck.mp hc, hr⟩
      · rintro ⟨hl, hr⟩
        exact ⟨hcheck.mpr hl, hr⟩
  refine ⟨hiff, ?_⟩
  intro hlen
  cases hc : SB.empty_c s with
  | false => rfl
  | true =>
    have := hiff.mp hc
    omega

/-- C2 witness: the freshly initialised buffer is a concrete instance. -/
theorem C2_empty_iff_witness :
    SB.empty_c (SB.init 4) = true ↔
      ((SB.init 4).buf.length = 1 ∧ (SB.init 4).rpos = SB.loadWpos (SB.init 4)) :=
  (C2_empty_iff (SB.init 4) (by decide)).1

/-- C8: after `init` and after every public producer or consumer
operation run from an invariant state, the segment list `buf_` is
non-empty and the published pointer `wpos_` addresses the `end` field
of the tail segment. -/
theorem C8_theorem :
    (∀ bs, bs < 2 ^ 64 → SB.wposAtBack (SB.init bs)) ∧
    (∀ s data noti, SB.Inv s → SB.wposAtBack (SB.write s data noti)) ∧
    (∀ s str noti, SB.Inv s → SB.wposAtBack (SB.write_string s str noti)) ∧
    (∀ s data noti, SB.Inv s → data.length ≤ s.bs → SB.wposAtBack (SB.write_cont s data noti)) ∧
    (∀ s n, SB.Inv s → SB.wposAtBack (SB.read_bytes s n).1) ∧
    (∀ s n, SB.Inv s → SB.wposAtBack (SB.get_cont s n).1) ∧
    (∀ s, SB.Inv s → SB.wposAtBack (SB.get_string s).1) ∧
    (∀ s n, SB.Inv s → SB.wposAtBack (SB.ensure_cont s n).1) ∧
    (∀ s, SB.Inv s → SB.wposAtBack (SB.empty_m s).1) ∧
    (∀ s n, SB.Inv s → SB.wposAtBack (SB.clear_preserved s n)) ∧
    (∀ s, SB.Inv s → SB.wposAtBack (SB.notify s)) ∧
    (∀ s steps cont maxLen, SB.Inv s → SB.wposAtBack (SB.input_from_fd s steps cont maxLen).1) ∧
    (∀ s steps, SB.Inv s → SB.wposAtBack (SB.output_to_fd s steps).1) := by
  refine ⟨?_, ?_, ?_, ?_, ?_, ?_, ?_, ?_, ?_, ?_, ?_, ?_, ?_⟩
  · intro bs hbs
    have h := SB.inv_init bs hbs
    exact ⟨h.1, h.2.1⟩
  · intro s data noti h
    have h2 := SB.inv_write s h data noti
    exact ⟨h2.1, h2.2.1⟩
  · intro s str noti h
    have h2 := SB.inv_write_string s h str noti
    exact ⟨h2.1, h2.2.1⟩
  · intro s data noti h hlen
    have h2 := SB.inv_write_cont s h data hlen noti
    exact ⟨h2.1, h2.2.1⟩
  · intro s n h
    have h2 := SB.inv_read_bytes s h n
    exact ⟨h2.1, h2.2.1⟩
  · intro s n h
    have h2 := SB.inv_get_cont s h n
    exact ⟨h2.1, h2.2.1⟩
  · intro s h
    have h2 := SB.inv_get_string s h
    exact ⟨h2.1, h2.2.1⟩
  · intro s n h
    have h2 := SB.inv_ensure_cont s h n
    exact ⟨h2.1, h2.2.1⟩
  · intro s h
    have h2 := SB.inv_empty_m s h
    exact ⟨h2.1, h2.2.1⟩
  · intro s n h
    have h2 := SB.inv_clear_preserved s h n
    exact ⟨h2.1, h2.2.1⟩
  · intro s h
    have h2 := SB.inv_notify s h
    exact ⟨h2.1, h2.2.1⟩
  · intro s steps cont maxLen h
    have h2 := SB.inv_input_from_fd s h steps cont maxLen
    exact ⟨h2.1, h2.2.1⟩
  · intro s steps h
    have h2 := SB.inv_output_to_fd s h steps
    exact ⟨h2.1, h2.2.1⟩

/-- C8 witness: concrete instances for `init` and a `write`. -/
theorem C8_theorem_witness :
    SB.wposAtBack (SB.init 4) ∧ SB.wposAtBack (SB.write (SB.init 4) [1, 2, 3, 4, 5] true) :=
  ⟨C8_theorem.1 4 (by decide), C8_theorem.2.1 (SB.init 4) [1, 2, 3, 4, 5] true (by decide)⟩

/-- C9: the `one_block_left_` hysteresis invariant — whenever the flag
is `false` there are strictly more than one segments — is established by
`init` and preserved by every public operation run from an invariant
state, and the flag is re-evaluated on every head-segment pop. -/
theorem C9_theorem :
    (∀ bs, bs < 2 ^ 64 → SB.oblSafe (SB.init bs)) ∧
    (∀ s data noti, SB.Inv s → SB.oblSafe (SB.write s data noti)) ∧
    (∀ s str noti, SB.Inv s → SB.oblSafe (SB.write_string s str noti)) ∧
    (∀ s data noti, SB.Inv s → data.length ≤ s.bs → SB.oblSafe (SB.write_cont s data noti)) ∧
    (∀ s n, SB.Inv s → SB.oblSafe (SB.read_bytes s n).1) ∧
    (∀ s n, SB.Inv s → SB.oblSafe (SB.get_cont s n).1) ∧
    (∀ s, SB.Inv s → SB.oblSafe (SB.get_string s).1) ∧
    (∀ s n, SB.Inv s → SB.oblSafe (SB.ensure_cont s n).1) ∧
    (∀ s, SB.Inv s → SB.oblSafe (SB.empty_m s).1) ∧
    (∀ s n, SB.Inv s → SB.oblSafe (SB.clear_preserved s n)) ∧
    (∀ s steps cont maxLen, SB.Inv s → SB.oblSafe (SB.input_from_fd s steps cont maxLen).1) ∧
    (∀ s steps, SB.Inv s → SB.oblSafe (SB.output_to_fd s steps).1) ∧
    (∀ s g rest, s.buf = g :: rest →
      (SB.pop_block s).obl = SB.check_one_block_left (SB.pop_block s)) := by
  refine ⟨?_, ?_, ?_, ?_, ?_, ?_, ?_, ?_, ?_, ?_, ?_, ?_, ?_⟩
  · intro bs hbs
    exact (SB.inv_init bs hbs).2.2.2.2.1
  · intro s data noti h
    exact (SB.inv_write s h data noti).2.2.2.2.1
  · intro s str noti h
    exact (SB.inv_write_string s h str noti).2.2.2.2.1
  · intro s data noti h hlen
    exact (SB.inv_write_cont s h data hlen noti).2.2.2.2.1
  · intro s n h
    exact (SB.inv_read_bytes s h n).2.2.2.2.1
  · intro s n h
    exact (SB.inv_get_cont s h n).2.2.2.2.1
  · intro s h
    exact (SB.inv_get_string s h).2.2.2.2.1
  · intro s n h
    exact (SB.inv_ensure_cont s h n).2.2.2.2.1
  · intro s h
    exact (SB.inv_empty_m s h).2.2.2.2.1
  · intro s n h
    exact (SB.inv_clear_preserved s h n).2.2.2.2.1
  · intro s steps cont maxLen h
    exact (SB.inv_input_from_fd s h steps cont maxLen).2.2.2.2.1
  · intro s steps h
    exact (SB.inv_output_to_fd s h steps).2.2.2.2.1
  · intro s g rest hb
    rw [SB.pop_block_cons s g rest hb]
    rfl

/-- C9 witness: concrete instances for `init`, a `write` and a pop. -/
theorem C9_theorem_witness :
    SB.oblSafe (SB.init 4) ∧
      SB.oblSafe (SB.write (SB.init 4) [1, 2, 3] true) ∧
      (SB.pop_block (SB.write (SB.init 2) [1, 2, 3] true)).obl =
        SB.check_one_block_left (SB.pop_block (SB.write (SB.init 2) [1, 2, 3] true)) :=
  ⟨C9_theorem.1 4 (by decide),
   C9_theorem.2.1 (SB.init 4) [1, 2, 3] true (by decide),
   C9_theorem.2.2.2.2.2.2.2.2.2.2.2.2 (SB.write (SB.init 2) [1, 2, 3] true)
     ⟨0, [1, 2], 2⟩ [⟨1, [3, 0], 1⟩] (by decide)⟩

namespace SB

theorem clearCount_maximal (pres : List Seg) : ∀ n : Nat,
    ((pres.take (clearCount pres n)).map Seg.segEnd).sum ≤ n ∧
    (∀ j, j ≤ pres.length → ((pres.take j).map Seg.segEnd).sum ≤ n → j ≤ clearCount pres n) := by
  induction pres with
  | nil =>
    intro n
    refine ⟨by simp, ?_⟩
    intro j hj _
    simpa [clearCount] using hj
  | cons g rest ih =>
    intro n
    unfold clearCount
    by_cases hg : g.segEnd ≤ n
    · rw [if_pos hg]
      obtain ⟨ih1, ih2⟩ := ih (n - g.segEnd)
      constructor
      · simp only [List.take_succ_cons, List.map_cons, List.sum_cons]
        omega
      · intro j hj hsum
        cases j with
        | zero => omega
        | succ j2 =>
          simp only [List.take_succ_cons, List.map_cons, List.sum_cons] at hsum
          have hj2 : j2 ≤ rest.length := by
            simp at hj
            omega
          have := ih2 j2 hj2 (by omega)
          omega
    · rw [if_neg hg]
      refine ⟨by simp, ?_⟩
      intro j hj hsum
      cases j with
      | zero => omega
      | succ j2 =>
        simp only [List.take_succ_cons, List.map_cons, List.sum_cons] at hsum
        omega

end SB

/-- C3: `clear_preserved(n)` of the SPSC buffer removes exactly the
longest preserved prefix whose published lengths sum to at most `n`,
moves the removed blocks to the freelist, and leaves all other state
unchanged.  The sequential `BlockBuffer` does NOT share these semantics
on every call: with an empty preserved list the SPSC version is a no-op
while the sequential loop evaluates `preserved_list_.front()` on an
empty `std::queue` (undefined behaviour, modelled `none`). -/
theorem C3_theorem :
    (∀ (s : SB.St) (n : Nat),
      SB.clear_preserved s n =
        { s with
            preserved := s.preserved.drop (SB.clearCount s.preserved n)
            freeList := s.freeList ++
              (s.preserved.take (SB.clearCount s.preserved n)).map SB.Seg.block }) ∧
    (∀ (pres : List SB.Seg) (n : Nat),
      ((pres.take (SB.clearCount pres n)).map SB.Seg.segEnd).sum ≤ n ∧
      (∀ j, j ≤ pres.length → ((pres.take j).map SB.Seg.segEnd).sum ≤ n →
        j ≤ SB.clearCount pres n)) ∧
    (SB.clear_preserved (SB.init 4) 0 = SB.init 4 ∧
      BB.clear_preserved (BB.init 4) 0 = none) := by
  refine ⟨?_, ?_, by decide, by decide⟩
  · intro s n
    exact SB.clear_preserved_eq s n
  · intro pres n
    exact SB.clearCount_maximal pres n

/-- C3 witness: the maximal-prefix characterisation applied at a
concrete preserved list. -/
theorem C3_theorem_witness :
    ((([⟨0, [1, 2], 2⟩, ⟨1, [3, 4], 2⟩] : List SB.Seg).take
        (SB.clearCount [⟨0, [1, 2], 2⟩, ⟨1, [3, 4], 2⟩] 3)).map SB.Seg.segEnd).sum ≤ 3 ∧
      1 ≤ SB.clearCount [⟨0, [1, 2], 2⟩, ⟨1, [3, 4], 2⟩] 3 :=
  ⟨(C3_theorem.2.1 [⟨0, [1, 2], 2⟩, ⟨1, [3, 4], 2⟩] 3).1,
   (C3_theorem.2.1 [⟨0, [1, 2], 2⟩, ⟨1, [3, 4], 2⟩] 3).2 1 (by decide) (by decide)⟩

/-- C10: refuted safety property — `BlockBuffer::clear_preserved`
evaluates `preserved_list_.front()` with no emptiness check, so on an
empty preserved list the loop performs the out-of-bounds access (the
`none` outcome) for every budget `n`, instead of terminating before
reading `front()`. -/
theorem C10_theorem (t : BB.St) (n : Nat) (h : t.preserved = []) :
    BB.clear_preserved t n = none := by
  unfold BB.clear_preserved
  rw [h]
  rfl

/-- C10 witness: a freshly constructed `BlockBuffer`. -/
theorem C10_theorem_witness : BB.clear_preserved (BB.init 4) 0 = none :=
  C10_theorem (BB.init 4) 0 rfl

namespace SB

theorem getLast?_modLast (l : List Seg) (f : Seg → Seg) :
    (modLast l f).getLast? = l.getLast?.map f := by
  cases hl : l with
  | nil => rfl
  | cons g t =>
    have hne : l ≠ [] := by rw [hl]; simp
    rw [← hl, modLast_eq_dropLast_append l f hne, List.getLast?_concat,
      List.getLast?_eq_getLast_of_ne_nil hne]
    rfl

theorem dropLast_modLast (l : List Seg) (f : Seg → Seg) :
    (modLast l f).dropLast = l.dropLast := by
  cases hl : l with
  | nil => rfl
  | cons g t =>
    have hne : l ≠ [] := by rw [hl]; simp
    rw [← hl, modLast_eq_dropLast_append l f hne, List.dropLast_concat]

theorem storeWpos_fields (s : St) :
    (storeWpos s).bs = s.bs ∧ (storeWpos s).wp = s.wp ∧ (storeWpos s).rpos = s.rpos ∧
      (storeWpos s).buf.length = s.buf.length := by
  refine ⟨rfl, rfl, rfl, ?_⟩
  simp [storeWpos]

end SB

/-- C5: `write_cont(begin, end)` with a non-empty range of at most
`block_size` bytes: when the tail's remaining capacity is smaller than
the range, the tail is closed with its end published at the old
`wpos_private_` and a fresh segment is linked, the bytes land
contiguously at the start of that fresh tail and `wpos_private_` ends at
the range length; otherwise the bytes land contiguously at the old
cursor and `wpos_private_` advances by exactly the range length. -/
theorem C5_theorem (s : SB.St) (h : SB.Inv s) (data : List Nat) (hne : data ≠ [])
    (hlen : data.length ≤ s.bs) :
    (if sub64 s.bs s.wp < data.length then
      (SB.write_cont s data true).buf.length = s.buf.length + 1 ∧
      ((SB.write_cont s data true).buf.dropLast.getLast?.map SB.Seg.segEnd) = some s.wp ∧
      getSlice (((SB.write_cont s data true).buf.getLast?.map SB.Seg.block).getD [])
        0 data.length = data ∧
      (SB.write_cont s data true).wp = data.length
    else
      (SB.write_cont s data true).buf.length = s.buf.length ∧
      getSlice (((SB.write_cont s data true).buf.getLast?.map SB.Seg.block).getD [])
        s.wp data.length = data ∧
      (SB.write_cont s data true).wp = s.wp + data.length) := by
  have hde : data.isEmpty = false := by
    cases data with
    | nil => exact absurd rfl hne
    | cons a t => rfl
  have hwp := h.2.2.2.2.2.1
  have hbs := h.2.2.2.2.2.2.1
  have hsub : sub64 s.bs s.wp = s.bs - s.wp := sub64_of_le hwp hbs
  by_cases hcond : sub64 s.bs s.wp < data.length
  · rw [if_pos hcond]
    have hs1 : SB.add_block_if_needed_cont s data.length = SB.add_block s := by
      unfold SB.add_block_if_needed_cont
      rw [if_pos hcond]
    have hwc : SB.write_cont s data true =
        SB.notify { SB.add_block s with
          buf := SB.modLast (SB.add_block s).buf fun g =>
            { g with block := setSlice g.block (SB.add_block s).wp data }
          wp := (SB.add_block s).wp + data.length } := by
      unfold SB.write_cont
      rw [hde]
      simp [hs1]
    -- structure of `add_block s`
    have hInv1 : SB.Inv (SB.add_block s) := SB.inv_add_block s h
    obtain ⟨nb, hnb, hbuf1⟩ : ∃ nb, nb.length = s.bs ∧
        (SB.add_block s).buf = (SB.storeWpos s).buf ++ [⟨s.nextId, nb, 0⟩] := by
      rw [SB.add_block_eq]
      cases hfl : (SB.storeWpos s).freeList with
      | nil => exact ⟨List.replicate s.bs 0, by simp, rfl⟩
      | cons b rest =>
        refine ⟨b, ?_, rfl⟩
        exact h.2.2.2.2.2.2.2.2.2.1 b (by
          have : (SB.storeWpos s).freeList = s.freeList := rfl
          rw [this] at hfl
          rw [hfl]
          simp)
    have hwp1 : (SB.add_block s).wp = 0 := by
      rw [SB.add_block_eq]
      cases (SB.storeWpos s).freeList <;> rfl
    have hbs1 : (SB.add_block s).bs = s.bs := by
      rw [SB.add_block_eq]
      cases (SB.storeWpos s).freeList <;> rfl
    -- the copy step
    have hInv3 : SB.Inv { SB.add_block s with
        buf := SB.modLast (SB.add_block s).buf fun g =>
          { g with block := setSlice g.block (SB.add_block s).wp data }
        wp := (SB.add_block s).wp + data.length } := by
      have := SB.inv_writeCopy (SB.add_block s) hInv1 data (by rw [hwp1, hbs1]; omega)
      exact this
    rw [hwc]
    unfold SB.notify
    rw [SB.storeWpos_eq _ hInv3.2.2.1 hInv3.2.1]
    set s3buf := SB.modLast (SB.add_block s).buf fun g =>
      { g with block := setSlice g.block (SB.add_block s).wp data } with hs3buf
    have hbuf3 : s3buf = (SB.storeWpos s).buf ++
        [⟨s.nextId, setSlice nb (SB.add_block s).wp data, 0⟩] := by
      rw [hs3buf, hbuf1, SB.modLast_concat]
    have hlen3 : (SB.modLast s3buf fun g => { g with segEnd := (SB.add_block s).wp + data.length }).length
        = s.buf.length + 1 := by
      rw [SB.length_modLast, hbuf3]
      simp [(SB.storeWpos_fields s).2.2.2]
    refine ⟨by simpa using hlen3, ?_, ?_, ?_⟩
    · rw [SB.dropLast_modLast, hbuf3, List.dropLast_concat]
      rw [SB.storeWpos_eq s h.2.2.1 h.2.1]
      dsimp only
      rw [SB.getLast?_modLast, List.getLast?_eq_getLast_of_ne_nil h.1]
      rfl
    · rw [SB.getLast?_modLast, hbuf3, List.getLast?_concat]
      dsimp only
      rw [hwp1]
      exact getSlice_setSlice_self (by rw [hnb]; omega)
    · show (SB.add_block s).wp + data.length = data.length
      rw [hwp1]
      omega
  · rw [if_neg hcond]
    have hs1 : SB.add_block_if_needed_cont s data.length = s := by
      unfold SB.add_block_if_needed_cont
      rw [if_neg hcond]
    have hwc : SB.write_cont s data true =
        SB.notify { s with
          buf := SB.modLast s.buf fun g => { g with block := setSlice g.block s.wp data }
          wp := s.wp + data.length } := by
      unfold SB.write_cont
      rw [hde]
      simp [hs1]
    have hfits : s.wp + data.length ≤ s.bs := by omega
    have hInv3 : SB.Inv { s with
        buf := SB.modLast s.buf fun g => { g with block := setSlice g.block s.wp data }
        wp := s.wp + data.length } := SB.inv_writeCopy s h data hfits
    rw [hwc]
    unfold SB.notify
    rw [SB.storeWpos_eq _ hInv3.2.2.1 hInv3.2.1]
    refine ⟨by simp [SB.length_modLast], ?_, rfl⟩
    rw [SB.getLast?_modLast, SB.getLast?_modLast, List.getLast?_eq_getLast_of_ne_nil h.1]
    dsimp only
    have hbl : (s.buf.getLast h.1).block.length = s.bs :=
      h.2.2.2.2.2.2.2.1 _ (List.getLast_mem h.1)
    exact getSlice_setSlice_self (by rw [hbl]; omega)

/-- C5 witness: a concrete `write_cont` that fits the tail's remaining
capacity. -/
theorem C5_theorem_witness :
    (SB.write_cont (SB.init 4) [7, 8, 9] true).buf.length = (SB.init 4).buf.length ∧
      (SB.write_cont (SB.init 4) [7, 8, 9] true).wp =
        (SB.init 4).wp + ([7, 8, 9] : List Nat).length := by
  have h := C5_theorem (SB.init 4) (by decide) [7, 8, 9] (by decide) (by decide)
  rw [if_neg (by decide)] at h
  exact ⟨h.1, h.2.2⟩

namespace SB

/-- Bytes the producer has appended: the published lengths of the
committed segments plus the private cursor within the tail. -/
def writtenBytes (s : St) : Nat :=
  (s.buf.dropLast.map Seg.segEnd).sum + s.wp

/-- Bytes published in the live segments that the consumer has not yet
read past. -/
def unreadBytes (s : St) : Int :=
  ((s.buf.map Seg.segEnd).sum : Int) - s.rpos

theorem writtenBytes_storeWpos (s : St) (h : Inv s) :
    writtenBytes (storeWpos s) = writtenBytes s := by
  rw [storeWpos_eq s h.2.2.1 h.2.1]
  unfold writtenBytes
  rw [dropLast_modLast]

theorem writtenBytes_add_block (s : St) (h : Inv s) :
    writtenBytes (add_block s) = writtenBytes s := by
  have hsw : (storeWpos s).buf = modLast s.buf fun g => { g with segEnd := s.wp } := by
    rw [storeWpos_eq s h.2.2.1 h.2.1]
  have hkey : ((storeWpos s).buf.map Seg.segEnd).sum = (s.buf.dropLast.map Seg.segEnd).sum + s.wp := by
    rw [hsw, modLast_eq_dropLast_append s.buf _ h.1]
    simp
  rw [add_block_eq]
  cases (storeWpos s).freeList with
  | nil =>
    unfold writtenBytes
    dsimp only
    rw [List.dropLast_concat]
    rw [hkey]
    rfl
  | cons b rest =>
    unfold writtenBytes
    dsimp only
    rw [List.dropLast_concat]
    rw [hkey]
    rfl

theorem writtenBytes_add_block_if_needed (s : St) (h : Inv s) :
    writtenBytes (add_block_if_needed s) = writtenBytes s := by
  unfold add_block_if_needed
  split
  · exact writtenBytes_add_block s h
  · rfl

theorem writtenBytes_copy (s : St) (f : List Nat → List Nat) (w : Nat) :
    writtenBytes { s with
      buf := modLast s.buf fun g => { g with block := f g.block }, wp := w } =
      (s.buf.dropLast.map Seg.segEnd).sum + w := by
  unfold writtenBytes
  rw [dropLast_modLast]

theorem inputLoop_spec (steps : List RdStep) : ∀ (s : St) (cont : Bool) (maxLen : Option Nat)
    (total : Nat), Inv s →
    writtenBytes (inputLoop s steps cont maxLen total).1 + total =
        writtenBytes s + (inputLoop s steps cont maxLen total).2.1 ∧
      total ≤ (inputLoop s steps cont maxLen total).2.1 := by
  induction steps with
  | nil =>
    intro s cont maxLen total h
    exact ⟨rfl, le_refl total⟩
  | cons step rest ih =>
    intro s cont maxLen total h
    rw [inputLoop_cons]
    have h1 : Inv (add_block_if_needed s) := inv_add_block_if_needed s h
    have hw1 : writtenBytes (add_block_if_needed s) = writtenBytes s :=
      writtenBytes_add_block_if_needed s h
    set s1 := add_block_if_needed s with hs1
    set cap :=
      match maxLen with
      | none => sub64 s1.bs s1.wp
      | some m => min (sub64 m total) (sub64 s1.bs s1.wp) with hcap
    cases step with
    | none => exact ⟨by rw [hw1], le_refl total⟩
    | some l =>
      dsimp only
      by_cases hd : (l.take cap).isEmpty
      · rw [if_pos hd]
        exact ⟨by rw [hw1], le_refl total⟩
      · rw [if_neg hd]
        set s3 : St := { s1 with
            buf := modLast s1.buf fun g =>
              { g with block := setSlice g.block s1.wp (l.take cap) }
            wp := s1.wp + (l.take cap).length } with hs3
        have hw2 : writtenBytes s3 = writtenBytes s1 + (l.take cap).length := by
          rw [hs3]
          rw [writtenBytes_copy s1 (fun b => setSlice b s1.wp (l.take cap))
            (s1.wp + (l.take cap).length)]
          unfold writtenBytes
          omega
        by_cases hcont : cont = true
        · rw [if_pos hcont]
          refine ⟨?_, ?_⟩
          · show writtenBytes s3 + total = writtenBytes s + (total + (l.take cap).length)
            rw [hw2, hw1]
            omega
          · show total ≤ total + (l.take cap).length
            omega
        · rw [if_neg hcont]
          have hsub : sub64 s1.bs s1.wp = s1.bs - s1.wp :=
            sub64_of_le h1.2.2.2.2.2.1 h1.2.2.2.2.2.2.1
          have hcaple : cap ≤ sub64 s1.bs s1.wp := by
            rw [hcap]
            cases maxLen <;> simp
          have hfits : s1.wp + (l.take cap).length ≤ s1.bs := by
            have hdle : (l.take cap).length ≤ cap := by simp
            have hwp1 : s1.wp ≤ s1.bs := h1.2.2.2.2.2.1
            omega
          have h2 : Inv s3 := by
            rw [hs3]
            exact inv_writeCopy s1 h1 (l.take cap) hfits
          obtain ⟨ihs, iht⟩ := ih s3 cont maxLen (total + (l.take cap).length) h2
          refine ⟨?_, ?_⟩
          · show writtenBytes (inputLoop s3 rest cont maxLen
                (total + (l.take cap).length)).1 + total =
              writtenBytes s + (inputLoop s3 rest cont maxLen
                (total + (l.take cap).length)).2.1
            rw [hw2, hw1] at ihs
            omega
          · show total ≤ (inputLoop s3 rest cont maxLen (total + (l.take cap).length)).2.1
            omega

end SB

namespace SB

theorem unreadBytes_clear_preserved (s : St) (n : Nat) :
    unreadBytes (clear_preserved s n) = unreadBytes s := by
  rw [clear_preserved_eq]
  rfl

theorem outputLoop_spec (steps : List WrStep) : ∀ (s : St) (total : Nat), Inv s →
    s.rpos ≤ frontEnd s →
    unreadBytes s + total =
        unreadBytes (outputLoop s steps total).1 + (outputLoop s steps total).2.1 ∧
      total ≤ (outputLoop s steps total).2.1 ∧
      Inv (outputLoop s steps total).1 ∧
      (outputLoop s steps total).1.rpos ≤ frontEnd (outputLoop s steps total).1 := by
  induction steps with
  | nil =>
    intro s total h hr
    exact ⟨rfl, le_refl total, h, hr⟩
  | cons step rest ih =>
    intro s total h hr
    rw [outputLoop_cons]
    have hmain : unreadBytes (pop_block_if_needed_and_available s 1) = unreadBytes s ∧
        Inv (pop_block_if_needed_and_available s 1) ∧
        (pop_block_if_needed_and_available s 1).rpos ≤
          frontEnd (pop_block_if_needed_and_available s 1) := by
      rw [pop_avail_eq, pop_block_if_needed_eq s h 1]
      by_cases hc : 1 < s.buf.length ∧ sub64 (frontEnd s) s.rpos < 1
      · rw [if_pos hc]
        obtain ⟨hlen, hsubc⟩ := hc
        cases hb : s.buf with
        | nil => exact absurd hb h.1
        | cons g rest2 =>
          have hfe : frontEnd s = g.segEnd := by
            unfold frontEnd
            rw [hb]
            rfl
          have hgbs : g.segEnd ≤ s.bs := h.2.2.2.2.2.2.2.2.1 g (by rw [hb]; simp)
          have hbs := h.2.2.2.2.2.2.1
          have hsub : sub64 (frontEnd s) s.rpos = frontEnd s - s.rpos :=
            sub64_of_le hr (by omega)
          have heq : s.rpos = g.segEnd := by
            rw [hsub, hfe] at hsubc
            rw [hfe] at hr
            omega
          have hpop := inv_pop_block s h hlen
          rw [pop_block_cons s g rest2 hb] at hpop ⊢
          refine ⟨?_, hpop, by simp⟩
          unfold unreadBytes
          dsimp only
          rw [hb]
          simp only [List.map_cons, List.sum_cons]
          omega
      · rw [if_neg hc]
        exact ⟨rfl, h, hr⟩
    obtain ⟨hu1, hInv1, hr1⟩ := hmain
    set s1 := pop_block_if_needed_and_available s 1 with hs1
    have hfeb : frontEnd s1 ≤ s1.bs := by
      cases hb : s1.buf with
      | nil => exact absurd hb hInv1.1
      | cons g r2 =>
        have := hInv1.2.2.2.2.2.2.2.2.1 g (by rw [hb]; simp)
        unfold frontEnd
        rw [hb]
        simpa using this
    have hsub1 : sub64 (frontEnd s1) s1.rpos = frontEnd s1 - s1.rpos :=
      sub64_of_le hr1 (by have := hInv1.2.2.2.2.2.2.1; omega)
    have hreqeq : (if s1.obl = true then sub64 (frontEndAcq s1) s1.rpos
        else sub64 (frontEnd s1) s1.rpos) = frontEnd s1 - s1.rpos := by
      unfold frontEndAcq
      cases s1.obl <;> simp [hsub1]
    dsimp only
    rw [hreqeq]
    cases step with
    | none => exact ⟨by rw [hu1], le_refl total, hInv1, hr1⟩
    | some k =>
      dsimp only
      by_cases hz : min k (frontEnd s1 - s1.rpos) = 0
      · rw [if_pos hz]
        exact ⟨by rw [hu1], le_refl total, hInv1, hr1⟩
      · rw [if_neg hz]
        set len := min k (frontEnd s1 - s1.rpos) with hlendef
        have hlenle : len ≤ frontEnd s1 - s1.rpos := by
          rw [hlendef]
          exact min_le_right _ _
        have h2 : Inv { s1 with rpos := s1.rpos + len } := inv_set_rpos s1 hInv1 _
        have hfe2 : frontEnd { s1 with rpos := s1.rpos + len } = frontEnd s1 := rfl
        have hr2 : ({ s1 with rpos := s1.rpos + len } : St).rpos ≤
            frontEnd { s1 with rpos := s1.rpos + len } := by
          rw [hfe2]
          dsimp only
          omega
        obtain ⟨ih1, ih2, ih3, ih4⟩ := ih { s1 with rpos := s1.rpos + len } (total + len) h2 hr2
        have hu2 : unreadBytes { s1 with rpos := s1.rpos + len } = unreadBytes s1 - len := by
          unfold unreadBytes
          dsimp only
          push_cast
          ring
        refine ⟨?_, by omega, ih3, ih4⟩
        rw [← hu1]
        rw [hu2] at ih1
        omega

end SB

/-- C4: `input_from_fd` and `output_to_fd` return `-1` exactly when the
underlying `::read`/`::write` errored with no byte yet transferred in
the current call; in every other case (including an error after a
partial transfer, which is swallowed, and immediate end of file) the
total transferred in this call is returned — that total being exactly
the growth of the produced byte count (input) respectively the drop of
the unread byte count (output). -/
theorem C4_theorem :
    (∀ (s : SB.St) (steps : List SB.RdStep) (cont : Bool) (maxLen : Option Nat), SB.Inv s →
      ((SB.input_from_fd s steps cont maxLen).2.1 = -1 ↔
        (SB.input_from_fd s steps cont maxLen).2.2.2 = true ∧
          (SB.input_from_fd s steps cont maxLen).2.2.1 = 0) ∧
      ((SB.input_from_fd s steps cont maxLen).2.1 ≠ -1 →
        (SB.input_from_fd s steps cont maxLen).2.1 =
          ((SB.input_from_fd s steps cont maxLen).2.2.1 : Int)) ∧
      SB.writtenBytes (SB.input_from_fd s steps cont maxLen).1 =
        SB.writtenBytes s + (SB.input_from_fd s steps cont maxLen).2.2.1) ∧
    (∀ (s : SB.St) (steps : List SB.WrStep), SB.Inv s → s.rpos ≤ SB.frontEnd s →
      ((SB.output_to_fd s steps).2.1 = -1 ↔
        (SB.output_to_fd s steps).2.2.2 = true ∧ (SB.output_to_fd s steps).2.2.1 = 0) ∧
      ((SB.output_to_fd s steps).2.1 ≠ -1 →
        (SB.output_to_fd s steps).2.1 = ((SB.output_to_fd s steps).2.2.1 : Int)) ∧
      SB.unreadBytes s =
        SB.unreadBytes (SB.output_to_fd s steps).1 + (SB.output_to_fd s steps).2.2.1) := by
  constructor
  · intro s steps cont maxLen h
    obtain ⟨hspec, _⟩ := SB.inputLoop_spec steps s cont maxLen 0 h
    have hInvr := SB.inv_inputLoop steps s cont maxLen 0 h
    unfold SB.input_from_fd
    dsimp only
    by_cases hcase : (SB.inputLoop s steps cont maxLen 0).2.2 = true ∧
        (SB.inputLoop s steps cont maxLen 0).2.1 = 0
    · rw [if_pos hcase]
      dsimp only
      refine ⟨by simp [hcase], by intro hc; exact absurd rfl hc, ?_⟩
      omega
    · rw [if_neg hcase]
      dsimp only
      refine ⟨?_, ?_, ?_⟩
      · constructor
        · intro hc
          exfalso
          omega
        · intro hc
          exact absurd hc hcase
      · intro _
        rfl
      · by_cases hpos : 0 < (SB.inputLoop s steps cont maxLen 0).2.1
        · rw [if_pos hpos]
          unfold SB.notify
          rw [SB.writtenBytes_storeWpos _ hInvr]
          omega
        · rw [if_neg hpos]
          omega
  · intro s steps h hr
    obtain ⟨hspec, _, hInvr, _⟩ := SB.outputLoop_spec steps s 0 h hr
    unfold SB.output_to_fd
    dsimp only
    by_cases hcase : (SB.outputLoop s steps 0).2.2 = true ∧ (SB.outputLoop s steps 0).2.1 = 0
    · rw [if_pos hcase]
      dsimp only
      refine ⟨by simp [hcase], by intro hc; exact absurd rfl hc, ?_⟩
      omega
    · rw [if_neg hcase]
      dsimp only
      refine ⟨?_, ?_, ?_⟩
      · constructor
        · intro hc
          exfalso
          omega
        · intro hc
          exact absurd hc hcase
      · intro _
        rfl
      · rw [SB.unreadBytes_clear_preserved]
        omega

/-- C4 witness: a concrete successful read and a concrete partial
write. -/
theorem C4_theorem_witness :
    ((SB.input_from_fd (SB.init 4) [some [1, 2]] false none).2.1 = -1 ↔
      (SB.input_from_fd (SB.init 4) [some [1, 2]] false none).2.2.2 = true ∧
        (SB.input_from_fd (SB.init 4) [some [1, 2]] false none).2.2.1 = 0) ∧
    SB.unreadBytes (SB.write (SB.init 4) [9] true) =
      SB.unreadBytes (SB.output_to_fd (SB.write (SB.init 4) [9] true) [some 5]).1 +
        (SB.output_to_fd (SB.write (SB.init 4) [9] true) [some 5]).2.2.1 :=
  ⟨(C4_theorem.1 (SB.init 4) [some [1, 2]] false none (by decide)).1,
   (C4_theorem.2 (SB.write (SB.init 4) [9] true) [some 5] (by decide) (by decide)).2.2⟩

namespace SB

theorem writeLoop_nil (s : St) (fuel : Nat) : writeLoop s [] fuel = s := by
  cases fuel with
  | zero => rfl
  | succ f => rfl

theorem writeLoop_fits (s : St) (data : List Nat) (fuel : Nat) (hne : data ≠ [])
    (hwp : s.wp < s.bs) (hbs : s.bs < 2 ^ 64) (hfit : s.wp + data.length ≤ s.bs)
    (hfuel : 1 ≤ fuel) :
    writeLoop s data fuel =
      { s with
        buf := modLast s.buf fun g => { g with block := setSlice g.block s.wp data }
        wp := s.wp + data.length } := by
  cases fuel with
  | zero => omega
  | succ f =>
    rw [writeLoop_succ]
    have hde : ¬(data.isEmpty = true) := by
      cases data with
      | nil => exact absurd rfl hne
      | cons a t => simp
    simp only [hde, if_false]
    have h1 : add_block_if_needed s = s := by
      unfold add_block_if_needed
      rw [if_neg (by omega)]
    rw [h1]
    have hsub : sub64 s.bs s.wp = s.bs - s.wp := sub64_of_le (by omega) hbs
    have htw : min data.length (sub64 s.bs s.wp) = data.length := by
      rw [hsub]
      omega
    rw [htw, List.take_length, List.drop_length, writeLoop_nil]
    simp

theorem writeLoop_add (s : St) (data : List Nat) (fuel : Nat) (hwp : s.wp = s.bs)
    (hbs0 : 0 < s.bs) (hne : data ≠ []) :
    writeLoop s data (fuel + 1) = writeLoop (add_block s) data (fuel + 1) := by
  rw [writeLoop_succ, writeLoop_succ]
  have hde : ¬(data.isEmpty = true) := by
    cases data with
    | nil => exact absurd rfl hne
    | cons a t => simp
  simp only [hde, if_false]
  have h1 : add_block_if_needed s = add_block s := by
    unfold add_block_if_needed
    rw [if_pos hwp]
  have hw0 : (add_block s).wp = 0 := by
    rw [add_block_eq]
    cases (storeWpos s).freeList <;> rfl
  have hb0 : (add_block s).bs = s.bs := by
    rw [add_block_eq]
    cases (storeWpos s).freeList <;> rfl
  have h2 : add_block_if_needed (add_block s) = add_block s := by
    unfold add_block_if_needed
    rw [if_neg (by rw [hw0, hb0]; omega)]
  rw [h1, h2]
  simp

theorem pop_if_needed_noop_checked (s : St) (n : Nat) (hobl : s.obl = true)
    (hc : check_one_block_left s = true) :
    pop_block_if_needed s n = s := by
  unfold pop_block_if_needed
  rw [if_pos hobl, if_neg (by intro hand; rw [hc] at hand; exact absurd hand.1 (by simp))]

theorem pop_if_needed_noop_avail (s : St) (n : Nat)
    (hcond : ¬ sub64 (frontEnd s) s.rpos < n) :
    pop_block_if_needed s n = s := by
  unfold pop_block_if_needed
  by_cases hobl : s.obl = true
  · rw [if_pos hobl, if_neg (by intro hand; exact hcond hand.2)]
  · rw [if_neg hobl, if_neg hcond]

theorem pop_if_needed_pop (s : St) (n : Nat)
    (hcheck : check_one_block_left s = false) (hcond : sub64 (frontEnd s) s.rpos < n) :
    pop_block_if_needed s n = pop_block s := by
  unfold pop_block_if_needed
  by_cases hobl : s.obl = true
  · rw [if_pos hobl, if_pos ⟨hcheck, hcond⟩]
  · rw [if_neg hobl, if_pos hcond]

end SB

/-- C1 counterexample: on a fresh 16-byte-block buffer, `write` of a
10-byte string places the first 8 payload bytes at the end of the first
segment and the last 2 at the start of a fresh one, but `get_string`
reads the payload contiguously from one segment, so the round trip
fails. -/
theorem C1_counterexample :
    (SB.get_string (SB.write_string (SB.init 16) [1, 2, 3, 4, 5, 6, 7, 8, 9, 10] true)).2 ≠
      [1, 2, 3, 4, 5, 6, 7, 8, 9, 10] := by decide

namespace SB

theorem get_string_snd (t : St) :
    (get_string t).2 =
      getSlice (frontBlock (pop_block_if_needed (read_bytes t 8).1 (de64 (read_bytes t 8).2)))
        (pop_block_if_needed (read_bytes t 8).1 (de64 (read_bytes t 8).2)).rpos
        (de64 (read_bytes t 8).2) := rfl

theorem read_bytes_eval_noop (t : St) (n : Nat) (hpop : pop_block_if_needed t n = t) :
    read_bytes t n = ({ t with rpos := t.rpos + n }, getSlice (frontBlock t) t.rpos n) := by
  unfold read_bytes
  rw [hpop]

theorem read_bytes_eval_pop (t : St) (n : Nat) (hpop : pop_block_if_needed t n = pop_block t) :
    read_bytes t n =
      ({ pop_block t with rpos := (pop_block t).rpos + n },
        getSlice (frontBlock (pop_block t)) (pop_block t).rpos n) := by
  unfold read_bytes
  rw [hpop]

theorem check_cons (t : St) (x : Seg) (r : List Seg) (hbuf : t.buf = x :: r) :
    check_one_block_left t = (x.sid == t.wposId) := by
  unfold check_one_block_left
  rw [hbuf]
  rfl

theorem frontEnd_cons (t : St) (x : Seg) (r : List Seg) (hbuf : t.buf = x :: r) :
    frontEnd t = x.segEnd := by
  unfold frontEnd
  rw [hbuf]
  rfl

theorem frontBlock_cons (t : St) (x : Seg) (r : List Seg) (hbuf : t.buf = x :: r) :
    frontBlock t = x.block := by
  unfold frontBlock
  rw [hbuf]
  rfl

theorem notify_single (t : St) (a : Seg) (hbuf : t.buf = [a]) (hsid : a.sid = t.wposId) :
    notify t = { t with buf := [⟨a.sid, a.block, t.wp⟩] } := by
  unfold notify storeWpos
  rw [hbuf]
  simp [hsid]

theorem notify_pair (t : St) (a b : Seg) (hbuf : t.buf = [a, b])
    (hbsid : b.sid = t.wposId) (hasid : a.sid ≠ t.wposId) :
    notify t = { t with buf := [a, ⟨b.sid, b.block, t.wp⟩] } := by
  unfold notify storeWpos
  rw [hbuf]
  simp [hbsid, hasid]

theorem notify_triple (t : St) (a b c : Seg) (hbuf : t.buf = [a, b, c])
    (hcsid : c.sid = t.wposId) (hasid : a.sid ≠ t.wposId) (hbsid : b.sid ≠ t.wposId) :
    notify t = { t with buf := [a, b, ⟨c.sid, c.block, t.wp⟩] } := by
  unfold notify storeWpos
  rw [hbuf]
  simp [hcsid, hasid, hbsid]

theorem add_block_single (s' : St) (g' : Seg) (hbuf' : s'.buf = [g'])
    (hsid' : g'.sid = s'.wposId) (hfl : ∀ b ∈ s'.freeList, b.length = s'.bs) :
    ∃ nb fl2, nb.length = s'.bs ∧
      add_block s' = { s' with
        buf := [⟨g'.sid, g'.block, s'.wp⟩, ⟨s'.nextId, nb, 0⟩]
        freeList := fl2
        wp := 0
        wposId := s'.nextId
        nextId := s'.nextId + 1 } := by
  have hsw : storeWpos s' = { s' with buf := [⟨g'.sid, g'.block, s'.wp⟩] } := by
    unfold storeWpos
    rw [hbuf']
    simp [hsid']
  rw [add_block_eq, hsw]
  cases hfl2 : s'.freeList with
  | nil =>
    exact ⟨List.replicate s'.bs 0, [], by simp, rfl⟩
  | cons b rest =>
    exact ⟨b, rest, hfl b (by rw [hfl2]; simp), rfl⟩

theorem add_block_pair (s' : St) (a b : Seg) (hbuf' : s'.buf = [a, b])
    (hbsid : b.sid = s'.wposId) (hasid : a.sid ≠ s'.wposId)
    (hfl : ∀ x ∈ s'.freeList, x.length = s'.bs) :
    ∃ nb fl2, nb.length = s'.bs ∧
      add_block s' = { s' with
        buf := [a, ⟨b.sid, b.block, s'.wp⟩, ⟨s'.nextId, nb, 0⟩]
        freeList := fl2
        wp := 0
        wposId := s'.nextId
        nextId := s'.nextId + 1 } := by
  have hsw : storeWpos s' = { s' with buf := [a, ⟨b.sid, b.block, s'.wp⟩] } := by
    unfold storeWpos
    rw [hbuf']
    simp [hbsid, hasid]
  rw [add_block_eq, hsw]
  cases hfl2 : s'.freeList with
  | nil =>
    exact ⟨List.replicate s'.bs 0, [], by simp, rfl⟩
  | cons x rest =>
    exact ⟨x, rest, hfl x (by rw [hfl2]; simp), rfl⟩

end SB

namespace SB

theorem c1_A_fit (s : St) (g : Seg) (str : List Nat)
    (hbuf : s.buf = [g]) (hsid : g.sid = s.wposId)
    (hglen : g.block.length = s.bs) (hobl : s.obl = true) (hrpos : s.rpos = s.wp)
    (hbslt : s.bs < 2 ^ 64) (hstr : str.length < 2 ^ 64)
    (hne : str ≠ []) (hfit : s.wp + 8 + str.length ≤ s.bs) :
    (get_string (write_string s str true)).2 = str := by
  have hLpos : 0 < str.length := List.length_pos.mpr hne
  have hwplt : s.wp < s.bs := by omega
  have hp8ne : le64 str.length ≠ [] := by simp [le64]
  have hp8len : (le64 str.length).length = 8 := le64_length _
  have hw1 : write_size_t s str.length false =
      { s with buf := [⟨g.sid, setSlice g.block s.wp (le64 str.length), g.segEnd⟩],
               wp := s.wp + 8 } := by
    unfold write_size_t write
    rw [writeLoop_fits s (le64 str.length) (le64 str.length).length hp8ne hwplt hbslt
      (by rw [hp8len]; omega) (by rw [hp8len]; omega)]
    rw [hbuf]
    rfl
  have hw2 : write_string s str true =
      { s with
          buf := [Seg.mk g.sid
            (setSlice (setSlice g.block s.wp (le64 str.length)) (s.wp + 8) str)
            (s.wp + 8 + str.length)]
          wp := s.wp + 8 + str.length } := by
    unfold write_string
    rw [hw1]
    unfold write
    dsimp only
    rw [writeLoop_fits _ str str.length hne (by show s.wp + 8 < s.bs; omega)
      (by show s.bs < 2 ^ 64; exact hbslt) (by show s.wp + 8 + str.length ≤ s.bs; omega)
      (by omega)]
    rw [if_pos rfl]
    have hnote : notify { s with
        buf := [Seg.mk g.sid
          (setSlice (setSlice g.block s.wp (le64 str.length)) (s.wp + 8) str) g.segEnd]
        wp := s.wp + 8 + str.length } =
      { s with
        buf := [Seg.mk g.sid
          (setSlice (setSlice g.block s.wp (le64 str.length)) (s.wp + 8) str)
          (s.wp + 8 + str.length)]
        wp := s.wp + 8 + str.length } := by
      rw [notify_single { s with
          buf := [Seg.mk g.sid
            (setSlice (setSlice g.block s.wp (le64 str.length)) (s.wp + 8) str) g.segEnd]
          wp := s.wp + 8 + str.length }
        (Seg.mk g.sid
          (setSlice (setSlice g.block s.wp (le64 str.length)) (s.wp + 8) str) g.segEnd)
        rfl hsid]
    exact hnote
  rw [hw2]
  set blkF := setSlice (setSlice g.block s.wp (le64 str.length)) (s.wp + 8) str with hblkF
  set sF : St := { s with
    buf := [Seg.mk g.sid blkF (s.wp + 8 + str.length)]
    wp := s.wp + 8 + str.length } with hsF
  have hsFbuf : sF.buf = [⟨g.sid, blkF, s.wp + 8 + str.length⟩] := by rw [hsF]
  have hch : check_one_block_left sF = true := by
    rw [check_cons sF ⟨g.sid, blkF, s.wp + 8 + str.length⟩ [] hsFbuf]
    simp [hsid]
  have hobF : sF.obl = true := hobl
  have hrposF : sF.rpos = s.wp := hrpos
  have hpop1 : pop_block_if_needed sF 8 = sF := pop_if_needed_noop_checked sF 8 hobF hch
  have hsliceLen : (setSlice g.block s.wp (le64 str.length)).length = s.bs := by
    rw [setSlice_length (by rw [hp8len, hglen]; omega)]
    exact hglen
  have hfb : frontBlock sF = blkF := frontBlock_cons sF _ [] hsFbuf
  have hpre : getSlice blkF s.wp 8 = le64 str.length := by
    rw [hblkF]
    rw [getSlice_setSlice_before (by omega) (by rw [hsliceLen]; omega)]
    rw [show (8 : Nat) = (le64 str.length).length from hp8len.symm]
    exact getSlice_setSlice_self (by rw [hp8len, hglen]; omega)
  have hread : read_bytes sF 8 = ({ sF with rpos := sF.rpos + 8 }, le64 str.length) := by
    rw [read_bytes_eval_noop sF 8 hpop1, hfb, hrposF, hpre]
  rw [get_string_snd, hread]
  rw [de64_le64 hstr]
  have hch2 : check_one_block_left { sF with rpos := sF.rpos + 8 } = true := hch
  have hpop2 : pop_block_if_needed { sF with rpos := sF.rpos + 8 } str.length =
      { sF with rpos := sF.rpos + 8 } :=
    pop_if_needed_noop_checked _ _ hobF hch2
  rw [hpop2]
  have hfb2 : frontBlock { sF with rpos := sF.rpos + 8 } = blkF :=
    frontBlock_cons _ ⟨g.sid, blkF, s.wp + 8 + str.length⟩ [] hsFbuf
  rw [hfb2]
  show getSlice blkF (sF.rpos + 8) str.length = str
  rw [hrposF, hblkF]
  exact getSlice_setSlice_self (by rw [hsliceLen]; omega)

end SB

namespace SB

theorem writeLoop_add' (s : St) (data : List Nat) (fuel : Nat) (hwp : s.wp = s.bs)
    (hbs0 : 0 < s.bs) (hne : data ≠ []) (hfuel : 1 ≤ fuel) :
    writeLoop s data fuel = writeLoop (add_block s) data fuel := by
  cases fuel with
  | zero => omega
  | succ f => exact writeLoop_add s data f hwp hbs0 hne

theorem c1_A_zero (s : St) (g : Seg)
    (hbuf : s.buf = [g]) (hsid : g.sid = s.wposId) (hglen : g.block.length = s.bs)
    (hobl : s.obl = true) (hrpos : s.rpos = s.wp) (hbslt : s.bs < 2 ^ 64)
    (hfit : s.wp + 8 ≤ s.bs) :
    (get_string (write_string s [] true)).2 = [] := by
  have hp8ne : le64 0 ≠ [] := by simp [le64]
  have hp8len : (le64 0).length = 8 := le64_length 0
  have hwplt : s.wp < s.bs := by omega
  have hw1 : write_size_t s 0 false =
      { s with buf := [Seg.mk g.sid (setSlice g.block s.wp (le64 0)) g.segEnd],
               wp := s.wp + 8 } := by
    unfold write_size_t write
    rw [writeLoop_fits s (le64 0) (le64 0).length hp8ne hwplt hbslt
      (by rw [hp8len]; omega) (by rw [hp8len]; omega)]
    rw [hbuf]
    rfl
  have hw2 : write_string s [] true =
      { s with buf := [Seg.mk g.sid (setSlice g.block s.wp (le64 0)) (s.wp + 8)],
               wp := s.wp + 8 } := by
    unfold write_string
    rw [List.length_nil, hw1]
    unfold write
    dsimp only
    rw [writeLoop_nil]
    rw [if_pos rfl]
    have hnote : notify { s with
        buf := [Seg.mk g.sid (setSlice g.block s.wp (le64 0)) g.segEnd]
        wp := s.wp + 8 } =
      { s with buf := [Seg.mk g.sid (setSlice g.block s.wp (le64 0)) (s.wp + 8)]
               wp := s.wp + 8 } := by
      rw [notify_single { s with
          buf := [Seg.mk g.sid (setSlice g.block s.wp (le64 0)) g.segEnd]
          wp := s.wp + 8 }
        (Seg.mk g.sid (setSlice g.block s.wp (le64 0)) g.segEnd) rfl hsid]
    exact hnote
  rw [hw2]
  set blkF := setSlice g.block s.wp (le64 0) with hblkF
  set sF : St := { s with buf := [Seg.mk g.sid blkF (s.wp + 8)], wp := s.wp + 8 } with hsF
  have hsFbuf : sF.buf = [Seg.mk g.sid blkF (s.wp + 8)] := by rw [hsF]
  have hch : check_one_block_left sF = true := by
    rw [check_cons sF (Seg.mk g.sid blkF (s.wp + 8)) [] hsFbuf]
    simp [hsid]
  have hobF : sF.obl = true := hobl
  have hrposF : sF.rpos = s.wp := hrpos
  have hpop1 : pop_block_if_needed sF 8 = sF := pop_if_needed_noop_checked sF 8 hobF hch
  have hfb : frontBlock sF = blkF := frontBlock_cons sF _ [] hsFbuf
  have hpre : getSlice blkF s.wp 8 = le64 0 := by
    rw [hblkF]
    rw [show (8 : Nat) = (le64 0).length from hp8len.symm]
    exact getSlice_setSlice_self (by rw [hp8len, hglen]; omega)
  have hread : read_bytes sF 8 = ({ sF with rpos := sF.rpos + 8 }, le64 0) := by
    rw [read_bytes_eval_noop sF 8 hpop1, hfb, hrposF, hpre]
  rw [get_string_snd, hread]
  rw [de64_le64 (by norm_num)]
  have hch2 : check_one_block_left { sF with rpos := sF.rpos + 8 } = true := hch
  have hpop2 : pop_block_if_needed { sF with rpos := sF.rpos + 8 } 0 =
      { sF with rpos := sF.rpos + 8 } :=
    pop_if_needed_noop_checked _ _ hobF hch2
  rw [hpop2]
  rfl

end SB

namespace SB

theorem c1_A_boundary (s : St) (g : Seg) (str : List Nat)
    (hbuf : s.buf = [g]) (hsid : g.sid = s.wposId) (hglen : g.block.length = s.bs)
    (hobl : s.obl = true) (hrpos : s.rpos = s.wp) (hbslt : s.bs < 2 ^ 64)
    (hstr : str.length < 2 ^ 64) (hne : str ≠ [])
    (hfree : ∀ b ∈ s.freeList, b.length = s.bs)
    (hlt : g.sid < s.nextId)
    (hq : s.wp + 8 = s.bs) (hlenbs : str.length ≤ s.bs) :
    (get_string (write_string s str true)).2 = str := by
  have hLpos : 0 < str.length := List.length_pos.mpr hne
  have hwplt : s.wp < s.bs := by omega
  have hp8ne : le64 str.length ≠ [] := by simp [le64]
  have hp8len : (le64 str.length).length = 8 := le64_length _
  have hw1 : write_size_t s str.length false =
      { s with buf := [Seg.mk g.sid (setSlice g.block s.wp (le64 str.length)) g.segEnd],
               wp := s.wp + 8 } := by
    unfold write_size_t write
    rw [writeLoop_fits s (le64 str.length) (le64 str.length).length hp8ne hwplt hbslt
      (by rw [hp8len]; omega) (by rw [hp8len]; omega)]
    rw [hbuf]
    rfl
  obtain ⟨nb, fl2, hnb, habs⟩ := add_block_single
    { s with buf := [Seg.mk g.sid (setSlice g.block s.wp (le64 str.length)) g.segEnd]
             wp := s.wp + 8 }
    (Seg.mk g.sid (setSlice g.block s.wp (le64 str.length)) g.segEnd)
    rfl hsid hfree
  have hw2 : write_string s str true =
      { s with
          buf := [Seg.mk g.sid (setSlice g.block s.wp (le64 str.length)) (s.wp + 8),
            Seg.mk s.nextId (setSlice nb 0 str) (0 + str.length)]
          freeList := fl2
          wp := 0 + str.length
          wposId := s.nextId
          nextId := s.nextId + 1 } := by
    unfold write_string
    rw [hw1]
    unfold write
    dsimp only
    rw [writeLoop_add' _ str str.length (by show s.wp + 8 = s.bs; omega)
      (by show 0 < s.bs; omega) hne (by omega)]
    rw [habs]
    rw [writeLoop_fits _ str str.length hne (by show (0 : Nat) < s.bs; omega)
      (by show s.bs < 2 ^ 64; exact hbslt) (by show 0 + str.length ≤ s.bs; omega)
      (by omega)]
    rw [if_pos rfl]
    have hnote : notify { s with
        buf := [Seg.mk g.sid (setSlice g.block s.wp (le64 str.length)) (s.wp + 8),
          Seg.mk s.nextId (setSlice nb 0 str) 0]
        freeList := fl2
        wp := 0 + str.length
        wposId := s.nextId
        nextId := s.nextId + 1 } =
      { s with
          buf := [Seg.mk g.sid (setSlice g.block s.wp (le64 str.length)) (s.wp + 8),
            Seg.mk s.nextId (setSlice nb 0 str) (0 + str.length)]
          freeList := fl2
          wp := 0 + str.length
          wposId := s.nextId
          nextId := s.nextId + 1 } := by
      rw [notify_pair { s with
          buf := [Seg.mk g.sid (setSlice g.block s.wp (le64 str.length)) (s.wp + 8),
            Seg.mk s.nextId (setSlice nb 0 str) 0]
          freeList := fl2
          wp := 0 + str.length
          wposId := s.nextId
          nextId := s.nextId + 1 }
        (Seg.mk g.sid (setSlice g.block s.wp (le64 str.length)) (s.wp + 8))
        (Seg.mk s.nextId (setSlice nb 0 str) 0)
        rfl rfl (by show g.sid ≠ s.nextId; omega)]
    exact hnote
  have hw2c : write_string s str true =
      { s with
          buf := [Seg.mk g.sid (setSlice g.block s.wp (le64 str.length)) (s.wp + 8),
            Seg.mk s.nextId (setSlice nb 0 str) str.length]
          freeList := fl2
          wp := str.length
          wposId := s.nextId
          nextId := s.nextId + 1 } := by
    rw [hw2]
    simp [Nat.zero_add]
  rw [hw2c]
  set blkA := setSlice g.block s.wp (le64 str.length) with hblkA
  set blkB := setSlice nb 0 str with hblkB
  set sF : St := { s with
    buf := [Seg.mk g.sid blkA (s.wp + 8), Seg.mk s.nextId blkB str.length]
    freeList := fl2
    wp := str.length
    wposId := s.nextId
    nextId := s.nextId + 1 } with hsF
  have hsFbuf : sF.buf = [Seg.mk g.sid blkA (s.wp + 8), Seg.mk s.nextId blkB str.length] := by
    rw [hsF]
  have hch : check_one_block_left sF = false := by
    rw [check_cons sF (Seg.mk g.sid blkA (s.wp + 8)) [Seg.mk s.nextId blkB str.length] hsFbuf]
    show (g.sid == sF.wposId) = false
    have : sF.wposId = s.nextId := by rw [hsF]
    rw [this]
    exact beq_false_of_ne (by omega)
  have hobF : sF.obl = true := hobl
  have hrposF : sF.rpos = s.wp := hrpos
  have hfeF : frontEnd sF = s.wp + 8 :=
    frontEnd_cons sF (Seg.mk g.sid blkA (s.wp + 8)) [Seg.mk s.nextId blkB str.length] hsFbuf
  have hpop1 : pop_block_if_needed sF 8 = sF := by
    apply pop_if_needed_noop_avail
    rw [hfeF, hrposF, sub64_of_le (by omega) (by omega)]
    omega
  have hfb : frontBlock sF = blkA :=
    frontBlock_cons sF (Seg.mk g.sid blkA (s.wp + 8)) [Seg.mk s.nextId blkB str.length] hsFbuf
  have hpre : getSlice blkA s.wp 8 = le64 str.length := by
    rw [hblkA]
    rw [show (8 : Nat) = (le64 str.length).length from hp8len.symm]
    exact getSlice_setSlice_self (by rw [hp8len, hglen]; omega)
  have hread : read_bytes sF 8 = ({ sF with rpos := sF.rpos + 8 }, le64 str.length) := by
    rw [read_bytes_eval_noop sF 8 hpop1, hfb, hrposF, hpre]
  rw [get_string_snd, hread]
  rw [de64_le64 hstr]
  set t1 : St := { sF with rpos := sF.rpos + 8 } with ht1
  have ht1buf : t1.buf = [Seg.mk g.sid blkA (s.wp + 8), Seg.mk s.nextId blkB str.length] :=
    hsFbuf
  have hch1 : check_one_block_left t1 = false := hch
  have hfe1 : frontEnd t1 = s.wp + 8 := hfeF
  have ht1rpos : t1.rpos = s.wp + 8 := by
    rw [ht1]
    show sF.rpos + 8 = s.wp + 8
    rw [hrposF]
  have hpop2 : pop_block_if_needed t1 str.length = pop_block t1 := by
    apply pop_if_needed_pop t1 str.length hch1
    rw [hfe1, ht1rpos, sub64_of_le (by omega) (by omega)]
    omega
  have hpopt1 : pop_block t1 =
      { t1 with
          buf := [Seg.mk s.nextId blkB str.length]
          preserved := t1.preserved ++ [Seg.mk g.sid blkA (s.wp + 8)]
          rpos := 0
          obl := check_one_block_left { t1 with
            buf := [Seg.mk s.nextId blkB str.length]
            preserved := t1.preserved ++ [Seg.mk g.sid blkA (s.wp + 8)]
            rpos := 0 } } :=
    pop_block_cons t1 (Seg.mk g.sid blkA (s.wp + 8)) [Seg.mk s.nextId blkB str.length] ht1buf
  rw [hpop2, hpopt1]
  have hfb2 : frontBlock { t1 with
      buf := [Seg.mk s.nextId blkB str.length]
      preserved := t1.preserved ++ [Seg.mk g.sid blkA (s.wp + 8)]
      rpos := 0
      obl := check_one_block_left { t1 with
        buf := [Seg.mk s.nextId blkB str.length]
        preserved := t1.preserved ++ [Seg.mk g.sid blkA (s.wp + 8)]
        rpos := 0 } } = blkB := by
    apply frontBlock_cons _ (Seg.mk s.nextId blkB str.length) []
    rfl
  rw [hfb2]
  show getSlice blkB 0 str.length = str
  rw [hblkB]
  have hnb2 : nb.length = s.bs := hnb
  exact getSlice_setSlice_self (by rw [hnb2]; omega)

theorem c1_B_zero (s : St) (g : Seg)
    (hbuf : s.buf = [g]) (hsid : g.sid = s.wposId)
    (hobl : s.obl = true) (hrpos : s.rpos = s.wp) (hbslt : s.bs < 2 ^ 64)
    (hfree : ∀ b ∈ s.freeList, b.length = s.bs)
    (hlt : g.sid < s.nextId)
    (hwp : s.wp = s.bs) (h8 : 8 ≤ s.bs) :
    (get_string (write_string s [] true)).2 = [] := by
  have hp8ne : le64 0 ≠ [] := by simp [le64]
  have hp8len : (le64 0).length = 8 := le64_length 0
  obtain ⟨nb, fl2, hnb, habs⟩ := add_block_single s g hbuf hsid hfree
  have hw1 : write_size_t s 0 false =
      { s with
          buf := [Seg.mk g.sid g.block s.wp, Seg.mk s.nextId (setSlice nb 0 (le64 0)) 0]
          freeList := fl2
          wp := 0 + 8
          wposId := s.nextId
          nextId := s.nextId + 1 } := by
    unfold write_size_t write
    dsimp only
    rw [writeLoop_add' s (le64 0) (le64 0).length hwp (by omega) hp8ne (by rw [hp8len]; omega)]
    rw [habs]
    rw [writeLoop_fits _ (le64 0) (le64 0).length hp8ne (by show (0 : Nat) < s.bs; omega)
      (by show s.bs < 2 ^ 64; exact hbslt)
      (by show 0 + (le64 0).length ≤ s.bs; rw [hp8len]; omega)
      (by rw [hp8len]; omega)]
    rfl
  have hw2 : write_string s [] true =
      { s with
          buf := [Seg.mk g.sid g.block s.wp, Seg.mk s.nextId (setSlice nb 0 (le64 0)) (0 + 8)]
          freeList := fl2
          wp := 0 + 8
          wposId := s.nextId
          nextId := s.nextId + 1 } := by
    unfold write_string
    rw [List.length_nil, hw1]
    unfold write
    dsimp only
    rw [writeLoop_nil]
    rw [if_pos rfl]
    have hnote : notify { s with
        buf := [Seg.mk g.sid g.block s.wp, Seg.mk s.nextId (setSlice nb 0 (le64 0)) 0]
        freeList := fl2
        wp := 0 + 8
        wposId := s.nextId
        nextId := s.nextId + 1 } =
      { s with
          buf := [Seg.mk g.sid g.block s.wp, Seg.mk s.nextId (setSlice nb 0 (le64 0)) (0 + 8)]
          freeList := fl2
          wp := 0 + 8
          wposId := s.nextId
          nextId := s.nextId + 1 } := by
      rw [notify_pair { s with
          buf := [Seg.mk g.sid g.block s.wp, Seg.mk s.nextId (setSlice nb 0 (le64 0)) 0]
          freeList := fl2
          wp := 0 + 8
          wposId := s.nextId
          nextId := s.nextId + 1 }
        (Seg.mk g.sid g.block s.wp)
        (Seg.mk s.nextId (setSlice nb 0 (le64 0)) 0)
        rfl rfl (by show g.sid ≠ s.nextId; omega)]
    exact hnote
  have hw2c : write_string s [] true =
      { s with
          buf := [Seg.mk g.sid g.block s.wp, Seg.mk s.nextId (setSlice nb 0 (le64 0)) 8]
          freeList := fl2
          wp := 8
          wposId := s.nextId
          nextId := s.nextId + 1 } := by
    rw [hw2]
  rw [hw2c]
  set pblk := setSlice nb 0 (le64 0) with hpblk
  set sF : St := { s with
    buf := [Seg.mk g.sid g.block s.wp, Seg.mk s.nextId pblk 8]
    freeList := fl2
    wp := 8
    wposId := s.nextId
    nextId := s.nextId + 1 } with hsF
  have hsFbuf : sF.buf = [Seg.mk g.sid g.block s.wp, Seg.mk s.nextId pblk 8] := by
    rw [hsF]
  have hch : check_one_block_left sF = false := by
    rw [check_cons sF (Seg.mk g.sid g.block s.wp) [Seg.mk s.nextId pblk 8] hsFbuf]
    show (g.sid == sF.wposId) = false
    have hwid : sF.wposId = s.nextId := by rw [hsF]
    rw [hwid]
    exact beq_false_of_ne (by omega)
  have hrposF : sF.rpos = s.wp := hrpos
  have hfeF : frontEnd sF = s.wp :=
    frontEnd_cons sF (Seg.mk g.sid g.block s.wp) [Seg.mk s.nextId pblk 8] hsFbuf
  have hpop1 : pop_block_if_needed sF 8 = pop_block sF := by
    apply pop_if_needed_pop sF 8 hch
    rw [hfeF, hrposF, sub64_of_le (le_refl s.wp) (by omega)]
    omega
  have hoblv : check_one_block_left { sF with
      buf := [Seg.mk s.nextId pblk 8]
      preserved := sF.preserved ++ [Seg.mk g.sid g.block s.wp]
      rpos := 0 } = true := by
    rw [check_cons _ (Seg.mk s.nextId pblk 8) [] rfl]
    show (s.nextId == s.nextId) = true
    simp
  have hpopsF : pop_block sF =
      { sF with
          buf := [Seg.mk s.nextId pblk 8]
          preserved := sF.preserved ++ [Seg.mk g.sid g.block s.wp]
          rpos := 0
          obl := true } := by
    rw [pop_block_cons sF (Seg.mk g.sid g.block s.wp) [Seg.mk s.nextId pblk 8] hsFbuf, hoblv]
  set tE : St := { sF with
    buf := [Seg.mk s.nextId pblk 8]
    preserved := sF.preserved ++ [Seg.mk g.sid g.block s.wp]
    rpos := 0
    obl := true } with htE
  have hg8 : getSlice pblk 0 8 = le64 0 := by
    rw [hpblk]
    rw [show (8 : Nat) = (le64 0).length from hp8len.symm]
    exact getSlice_setSlice_self (by rw [hp8len, hnb]; omega)
  have hread : read_bytes sF 8 = ({ tE with rpos := tE.rpos + 8 }, le64 0) := by
    rw [read_bytes_eval_pop sF 8 hpop1, hpopsF]
    show ({ tE with rpos := tE.rpos + 8 }, getSlice pblk 0 8) =
      ({ tE with rpos := tE.rpos + 8 }, le64 0)
    rw [hg8]
  rw [get_string_snd, hread]
  rw [de64_le64 (by norm_num)]
  set t1 : St := { tE with rpos := tE.rpos + 8 } with ht1
  have hch1 : check_one_block_left t1 = true := by
    rw [check_cons t1 (Seg.mk s.nextId pblk 8) [] rfl]
    show (s.nextId == s.nextId) = true
    simp
  have hoblt1 : t1.obl = true := rfl
  have hpop2 : pop_block_if_needed t1 0 = t1 :=
    pop_if_needed_noop_checked t1 0 hoblt1 hch1
  rw [hpop2]
  rfl

theorem c1_B_fit (s : St) (g : Seg) (str : List Nat)
    (hbuf : s.buf = [g]) (hsid : g.sid = s.wposId)
    (hobl : s.obl = true) (hrpos : s.rpos = s.wp) (hbslt : s.bs < 2 ^ 64)
    (hstr : str.length < 2 ^ 64) (hne : str ≠ [])
    (hfree : ∀ b ∈ s.freeList, b.length = s.bs)
    (hlt : g.sid < s.nextId)
    (hwp : s.wp = s.bs) (hfit : 8 + str.length ≤ s.bs) :
    (get_string (write_string s str true)).2 = str := by
  have hLpos : 0 < str.length := List.length_pos.mpr hne
  have hp8ne : le64 str.length ≠ [] := by simp [le64]
  have hp8len : (le64 str.length).length = 8 := le64_length _
  obtain ⟨nb, fl2, hnb, habs⟩ := add_block_single s g hbuf hsid hfree
  have hw1 : write_size_t s str.length false =
      { s with
          buf := [Seg.mk g.sid g.block s.wp,
            Seg.mk s.nextId (setSlice nb 0 (le64 str.length)) 0]
          freeList := fl2
          wp := 0 + 8
          wposId := s.nextId
          nextId := s.nextId + 1 } := by
    unfold write_size_t write
    dsimp only
    rw [writeLoop_add' s (le64 str.length) (le64 str.length).length hwp (by omega) hp8ne
      (by rw [hp8len]; omega)]
    rw [habs]
    rw [writeLoop_fits _ (le64 str.length) (le64 str.length).length hp8ne
      (by show (0 : Nat) < s.bs; omega)
      (by show s.bs < 2 ^ 64; exact hbslt)
      (by show 0 + (le64 str.length).length ≤ s.bs; rw [hp8len]; omega)
      (by rw [hp8len]; omega)]
    rfl
  have hw2 : write_string s str true =
      { s with
          buf := [Seg.mk g.sid g.block s.wp,
            Seg.mk s.nextId (setSlice (setSlice nb 0 (le64 str.length)) (0 + 8) str)
              (0 + 8 + str.length)]
          freeList := fl2
          wp := 0 + 8 + str.length
          wposId := s.nextId
          nextId := s.nextId + 1 } := by
    unfold write_string
    rw [hw1]
    unfold write
    dsimp only
    rw [writeLoop_fits _ str str.length hne (by show 0 + 8 < s.bs; omega)
      (by show s.bs < 2 ^ 64; exact hbslt) (by show 0 + 8 + str.length ≤ s.bs; omega)
      (by omega)]
    rw [if_pos rfl]
    have hnote : notify { s with
        buf := [Seg.mk g.sid g.block s.wp,
          Seg.mk s.nextId (setSlice (setSlice nb 0 (le64 str.length)) (0 + 8) str) 0]
        freeList := fl2
        wp := 0 + 8 + str.length
        wposId := s.nextId
        nextId := s.nextId + 1 } =
      { s with
          buf := [Seg.mk g.sid g.block s.wp,
            Seg.mk s.nextId (setSlice (setSlice nb 0 (le64 str.length)) (0 + 8) str)
              (0 + 8 + str.length)]
          freeList := fl2
          wp := 0 + 8 + str.length
          wposId := s.nextId
          nextId := s.nextId + 1 } := by
      rw [notify_pair { s with
          buf := [Seg.mk g.sid g.block s.wp,
            Seg.mk s.nextId (setSlice (setSlice nb 0 (le64 str.length)) (0 + 8) str) 0]
          freeList := fl2
          wp := 0 + 8 + str.length
          wposId := s.nextId
          nextId := s.nextId + 1 }
        (Seg.mk g.sid g.block s.wp)
        (Seg.mk s.nextId (setSlice (setSlice nb 0 (le64 str.length)) (0 + 8) str) 0)
        rfl rfl (by show g.sid ≠ s.nextId; omega)]
    exact hnote
  have hw2c : write_string s str true =
      { s with
          buf := [Seg.mk g.sid g.block s.wp,
            Seg.mk s.nextId (setSlice (setSlice nb 0 (le64 str.length)) 8 str)
              (8 + str.length)]
          freeList := fl2
          wp := 8 + str.length
          wposId := s.nextId
          nextId := s.nextId + 1 } := by
    rw [hw2]
  rw [hw2c]
  set pblk := setSlice nb 0 (le64 str.length) with hpblk
  set blk2 := setSlice pblk 8 str with hblk2
  set sF : St := { s with
    buf := [Seg.mk g.sid g.block s.wp, Seg.mk s.nextId blk2 (8 + str.length)]
    freeList := fl2
    wp := 8 + str.length
    wposId := s.nextId
    nextId := s.nextId + 1 } with hsF
  have hsFbuf : sF.buf = [Seg.mk g.sid g.block s.wp, Seg.mk s.nextId blk2 (8 + str.length)] := by
    rw [hsF]
  have hch : check_one_block_left sF = false := by
    rw [check_cons sF (Seg.mk g.sid g.block s.wp) [Seg.mk s.nextId blk2 (8 + str.length)] hsFbuf]
    show (g.sid == sF.wposId) = false
    have hwid : sF.wposId = s.nextId := by rw [hsF]
    rw [hwid]
    exact beq_false_of_ne (by omega)
  have hrposF : sF.rpos = s.wp := hrpos
  have hfeF : frontEnd sF = s.wp :=
    frontEnd_cons sF (Seg.mk g.sid g.block s.wp) [Seg.mk s.nextId blk2 (8 + str.length)] hsFbuf
  have hpop1 : pop_block_if_needed sF 8 = pop_block sF := by
    apply pop_if_needed_pop sF 8 hch
    rw [hfeF, hrposF, sub64_of_le (le_refl s.wp) (by omega)]
    omega
  have hoblv : check_one_block_left { sF with
      buf := [Seg.mk s.nextId blk2 (8 + str.length)]
      preserved := sF.preserved ++ [Seg.mk g.sid g.block s.wp]
      rpos := 0 } = true := by
    rw [check_cons _ (Seg.mk s.nextId blk2 (8 + str.length)) [] rfl]
    show (s.nextId == s.nextId) = true
    simp
  have hpopsF : pop_block sF =
      { sF with
          buf := [Seg.mk s.nextId blk2 (8 + str.length)]
          preserved := sF.preserved ++ [Seg.mk g.sid g.block s.wp]
          rpos := 0
          obl := true } := by
    rw [pop_block_cons sF (Seg.mk g.sid g.block s.wp)
      [Seg.mk s.nextId blk2 (8 + str.length)] hsFbuf, hoblv]
  set tE : St := { sF with
    buf := [Seg.mk s.nextId blk2 (8 + str.length)]
    preserved := sF.preserved ++ [Seg.mk g.sid g.block s.wp]
    rpos := 0
    obl := true } with htE
  have hplen : pblk.length = s.bs := by
    rw [hpblk]
    rw [setSlice_length (by rw [hp8len, hnb]; omega)]
    exact hnb
  have hg8 : getSlice blk2 0 8 = le64 str.length := by
    rw [hblk2]
    rw [getSlice_setSlice_before (by omega) (by rw [hplen]; omega)]
    rw [hpblk]
    rw [show (8 : Nat) = (le64 str.length).length from hp8len.symm]
    exact getSlice_setSlice_self (by rw [hp8len, hnb]; omega)
  have hread : read_bytes sF 8 = ({ tE with rpos := tE.rpos + 8 }, le64 str.length) := by
    rw [read_bytes_eval_pop sF 8 hpop1, hpopsF]
    show ({ tE with rpos := tE.rpos + 8 }, getSlice blk2 0 8) =
      ({ tE with rpos := tE.rpos + 8 }, le64 str.length)
    rw [hg8]
  rw [get_string_snd, hread]
  rw [de64_le64 hstr]
  set t1 : St := { tE with rpos := tE.rpos + 8 } with ht1
  have hch1 : check_one_block_left t1 = true := by
    rw [check_cons t1 (Seg.mk s.nextId blk2 (8 + str.length)) [] rfl]
    show (s.nextId == s.nextId) = true
    simp
  have hoblt1 : t1.obl = true := rfl
  have hpop2 : pop_block_if_needed t1 str.length = t1 :=
    pop_if_needed_noop_checked t1 str.length hoblt1 hch1
  rw [hpop2]
  have hfb2 : frontBlock t1 = blk2 :=
    frontBlock_cons t1 (Seg.mk s.nextId blk2 (8 + str.length)) [] rfl
  rw [hfb2]
  show getSlice blk2 (0 + 8) str.length = str
  rw [hblk2]
  show getSlice (setSlice pblk 8 str) 8 str.length = str
  exact getSlice_setSlice_self (by rw [hplen]; omega)

theorem add_block_single_fl (s' : St) (g' : Seg) (hbuf' : s'.buf = [g'])
    (hsid' : g'.sid = s'.wposId) (hfl : ∀ b ∈ s'.freeList, b.length = s'.bs) :
    ∃ nb fl2, nb.length = s'.bs ∧ (∀ x ∈ fl2, x.length = s'.bs) ∧
      add_block s' = { s' with
        buf := [⟨g'.sid, g'.block, s'.wp⟩, ⟨s'.nextId, nb, 0⟩]
        freeList := fl2
        wp := 0
        wposId := s'.nextId
        nextId := s'.nextId + 1 } := by
  have hsw : storeWpos s' = { s' with buf := [⟨g'.sid, g'.block, s'.wp⟩] } := by
    unfold storeWpos
    rw [hbuf']
    simp [hsid']
  rw [add_block_eq, hsw]
  cases hfl2 : s'.freeList with
  | nil =>
    exact ⟨List.replicate s'.bs 0, [], by simp, by simp, rfl⟩
  | cons b rest =>
    exact ⟨b, rest, hfl b (by rw [hfl2]; simp),
      fun x hx => hfl x (by rw [hfl2]; exact List.mem_cons_of_mem b hx), rfl⟩

theorem c1_B_boundary (s : St) (g : Seg) (str : List Nat)
    (hbuf : s.buf = [g]) (hsid : g.sid = s.wposId)
    (hobl : s.obl = true) (hrpos : s.rpos = s.wp) (hbslt : s.bs < 2 ^ 64)
    (hstr : str.length < 2 ^ 64) (hne : str ≠ [])
    (hfree : ∀ b ∈ s.freeList, b.length = s.bs)
    (hlt : g.sid < s.nextId)
    (hwp : s.wp = s.bs) (hbs8 : s.bs = 8) (hlen : str.length ≤ s.bs) :
    (get_string (write_string s str true)).2 = str := by
  have hLpos : 0 < str.length := List.length_pos.mpr hne
  have hp8ne : le64 str.length ≠ [] := by simp [le64]
  have hp8len : (le64 str.length).length = 8 := le64_length _
  obtain ⟨nb, fl2, hnb, hfl2, habs⟩ := add_block_single_fl s g hbuf hsid hfree
  have hw1 : write_size_t s str.length false =
      { s with
          buf := [Seg.mk g.sid g.block s.wp,
            Seg.mk s.nextId (setSlice nb 0 (le64 str.length)) 0]
          freeList := fl2
          wp := 8
          wposId := s.nextId
          nextId := s.nextId + 1 } := by
    unfold write_size_t write
    dsimp only
    rw [writeLoop_add' s (le64 str.length) (le64 str.length).length hwp (by omega) hp8ne
      (by rw [hp8len]; omega)]
    rw [habs]
    rw [writeLoop_fits _ (le64 str.length) (le64 str.length).length hp8ne
      (by show (0 : Nat) < s.bs; omega)
      (by show s.bs < 2 ^ 64; exact hbslt)
      (by show 0 + (le64 str.length).length ≤ s.bs; rw [hp8len]; omega)
      (by rw [hp8len]; omega)]
    rfl
  obtain ⟨nb2, fl3, hnb2, habs2⟩ := add_block_pair
    { s with
        buf := [Seg.mk g.sid g.block s.wp,
          Seg.mk s.nextId (setSlice nb 0 (le64 str.length)) 0]
        freeList := fl2
        wp := 8
        wposId := s.nextId
        nextId := s.nextId + 1 }
    (Seg.mk g.sid g.block s.wp)
    (Seg.mk s.nextId (setSlice nb 0 (le64 str.length)) 0)
    rfl rfl (by show g.sid ≠ s.nextId; omega)
    (by show ∀ x ∈ fl2, x.length = s.bs; exact hfl2)
  have hw2 : write_string s str true =
      { s with
          buf := [Seg.mk g.sid g.block s.wp,
            Seg.mk s.nextId (setSlice nb 0 (le64 str.length)) 8,
            Seg.mk (s.nextId + 1) (setSlice nb2 0 str) (0 + str.length)]
          freeList := fl3
          wp := 0 + str.length
          wposId := s.nextId + 1
          nextId := s.nextId + 1 + 1 } := by
    unfold write_string
    rw [hw1]
    unfold write
    dsimp only
    rw [writeLoop_add' _ str str.length (by show (8 : Nat) = s.bs; omega)
      (by show 0 < s.bs; omega) hne (by omega)]
    rw [habs2]
    rw [writeLoop_fits _ str str.length hne (by show (0 : Nat) < s.bs; omega)
      (by show s.bs < 2 ^ 64; exact hbslt) (by show 0 + str.length ≤ s.bs; omega)
      (by omega)]
    rw [if_pos rfl]
    have hnote : notify { s with
        buf := [Seg.mk g.sid g.block s.wp,
          Seg.mk s.nextId (setSlice nb 0 (le64 str.length)) 8,
          Seg.mk (s.nextId + 1) (setSlice nb2 0 str) 0]
        freeList := fl3
        wp := 0 + str.length
        wposId := s.nextId + 1
        nextId := s.nextId + 1 + 1 } =
      { s with
          buf := [Seg.mk g.sid g.block s.wp,
            Seg.mk s.nextId (setSlice nb 0 (le64 str.length)) 8,
            Seg.mk (s.nextId + 1) (setSlice nb2 0 str) (0 + str.length)]
          freeList := fl3
          wp := 0 + str.length
          wposId := s.nextId + 1
          nextId := s.nextId + 1 + 1 } := by
      rw [notify_triple { s with
          buf := [Seg.mk g.sid g.block s.wp,
            Seg.mk s.nextId (setSlice nb 0 (le64 str.length)) 8,
            Seg.mk (s.nextId + 1) (setSlice nb2 0 str) 0]
          freeList := fl3
          wp := 0 + str.length
          wposId := s.nextId + 1
          nextId := s.nextId + 1 + 1 }
        (Seg.mk g.sid g.block s.wp)
        (Seg.mk s.nextId (setSlice nb 0 (le64 str.length)) 8)
        (Seg.mk (s.nextId + 1) (setSlice nb2 0 str) 0)
        rfl rfl (by show g.sid ≠ s.nextId + 1; omega)
        (by show s.nextId ≠ s.nextId + 1; omega)]
    exact hnote
  have hw2c : write_string s str true =
      { s with
          buf := [Seg.mk g.sid g.block s.wp,
            Seg.mk s.nextId (setSlice nb 0 (le64 str.length)) 8,
            Seg.mk (s.nextId + 1) (setSlice nb2 0 str) str.length]
          freeList := fl3
          wp := str.length
          wposId := s.nextId + 1
          nextId := s.nextId + 1 + 1 } := by
    rw [hw2]
    simp [Nat.zero_add]
  rw [hw2c]
  set pblk := setSlice nb 0 (le64 str.length) with hpblk
  set blk3 := setSlice nb2 0 str with hblk3
  set sF : St := { s with
    buf := [Seg.mk g.sid g.block s.wp, Seg.mk s.nextId pblk 8,
      Seg.mk (s.nextId + 1) blk3 str.length]
    freeList := fl3
    wp := str.length
    wposId := s.nextId + 1
    nextId := s.nextId + 1 + 1 } with hsF
  have hsFbuf : sF.buf = [Seg.mk g.sid g.block s.wp, Seg.mk s.nextId pblk 8,
      Seg.mk (s.nextId + 1) blk3 str.length] := by
    rw [hsF]
  have hch : check_one_block_left sF = false := by
    rw [check_cons sF (Seg.mk g.sid g.block s.wp)
      [Seg.mk s.nextId pblk 8, Seg.mk (s.nextId + 1) blk3 str.length] hsFbuf]
    show (g.sid == sF.wposId) = false
    have hwid : sF.wposId = s.nextId + 1 := by rw [hsF]
    rw [hwid]
    exact beq_false_of_ne (by omega)
  have hrposF : sF.rpos = s.wp := hrpos
  have hfeF : frontEnd sF = s.wp :=
    frontEnd_cons sF (Seg.mk g.sid g.block s.wp)
      [Seg.mk s.nextId pblk 8, Seg.mk (s.nextId + 1) blk3 str.length] hsFbuf
  have hpop1 : pop_block_if_needed sF 8 = pop_block sF := by
    apply pop_if_needed_pop sF 8 hch
    rw [hfeF, hrposF, sub64_of_le (le_refl s.wp) (by omega)]
    omega
  have hoblv : check_one_block_left { sF with
      buf := [Seg.mk s.nextId pblk 8, Seg.mk (s.nextId + 1) blk3 str.length]
      preserved := sF.preserved ++ [Seg.mk g.sid g.block s.wp]
      rpos := 0 } = false := by
    rw [check_cons _ (Seg.mk s.nextId pblk 8) [Seg.mk (s.nextId + 1) blk3 str.length] rfl]
    show (s.nextId == sF.wposId) = false
    have hwid : sF.wposId = s.nextId + 1 := by rw [hsF]
    rw [hwid]
    exact beq_false_of_ne (by omega)
  have hpopsF : pop_block sF =
      { sF with
          buf := [Seg.mk s.nextId pblk 8, Seg.mk (s.nextId + 1) blk3 str.length]
          preserved := sF.preserved ++ [Seg.mk g.sid g.block s.wp]
          rpos := 0
          obl := false } := by
    rw [pop_block_cons sF (Seg.mk g.sid g.block s.wp)
      [Seg.mk s.nextId pblk 8, Seg.mk (s.nextId + 1) blk3 str.length] hsFbuf, hoblv]
  set tE : St := { sF with
    buf := [Seg.mk s.nextId pblk 8, Seg.mk (s.nextId + 1) blk3 str.length]
    preserved := sF.preserved ++ [Seg.mk g.sid g.block s.wp]
    rpos := 0
    obl := false } with htE
  have hg8 : getSlice pblk 0 8 = le64 str.length := by
    rw [hpblk]
    rw [show (8 : Nat) = (le64 str.length).length from hp8len.symm]
    exact getSlice_setSlice_self (by rw [hp8len, hnb]; omega)
  have hread : read_bytes sF 8 = ({ tE with rpos := tE.rpos + 8 }, le64 str.length) := by
    rw [read_bytes_eval_pop sF 8 hpop1, hpopsF]
    show ({ tE with rpos := tE.rpos + 8 }, getSlice pblk 0 8) =
      ({ tE with rpos := tE.rpos + 8 }, le64 str.length)
    rw [hg8]
  rw [get_string_snd, hread]
  rw [de64_le64 hstr]
  set t1 : St := { tE with rpos := tE.rpos + 8 } with ht1
  have hch1 : check_one_block_left t1 = false := by
    rw [check_cons t1 (Seg.mk s.nextId pblk 8) [Seg.mk (s.nextId + 1) blk3 str.length] rfl]
    show (s.nextId == s.nextId + 1) = false
    exact beq_false_of_ne (by omega)
  have hfe1 : frontEnd t1 = 8 :=
    frontEnd_cons t1 (Seg.mk s.nextId pblk 8) [Seg.mk (s.nextId + 1) blk3 str.length] rfl
  have ht1rpos : t1.rpos = 8 := rfl
  have hpop2 : pop_block_if_needed t1 str.length = pop_block t1 := by
    apply pop_if_needed_pop t1 str.length hch1
    rw [hfe1, ht1rpos, sub64_of_le (le_refl 8) (by norm_num)]
    omega
  have hoblv2 : check_one_block_left { t1 with
      buf := [Seg.mk (s.nextId + 1) blk3 str.length]
      preserved := t1.preserved ++ [Seg.mk s.nextId pblk 8]
      rpos := 0 } = true := by
    rw [check_cons _ (Seg.mk (s.nextId + 1) blk3 str.length) [] rfl]
    show ((s.nextId + 1 : Nat) == s.nextId + 1) = true
    simp
  have hpopt1 : pop_block t1 =
      { t1 with
          buf := [Seg.mk (s.nextId + 1) blk3 str.length]
          preserved := t1.preserved ++ [Seg.mk s.nextId pblk 8]
          rpos := 0
          obl := true } := by
    rw [pop_block_cons t1 (Seg.mk s.nextId pblk 8)
      [Seg.mk (s.nextId + 1) blk3 str.length] rfl, hoblv2]
  rw [hpop2, hpopt1]
  have hfb2 : frontBlock { t1 with
      buf := [Seg.mk (s.nextId + 1) blk3 str.length]
      preserved := t1.preserved ++ [Seg.mk s.nextId pblk 8]
      rpos := 0
      obl := true } = blk3 :=
    frontBlock_cons _ (Seg.mk (s.nextId + 1) blk3 str.length) [] rfl
  rw [hfb2]
  show getSlice blk3 0 str.length = str
  rw [hblk3]
  have hnb2c : nb2.length = s.bs := hnb2
  exact getSlice_setSlice_self (by rw [hnb2c]; omega)

end SB

/-- C1 (amended): `write(s)` (length prefix, then payload) followed by
`get_string()` returns `s`, for every invariant-satisfying drained
single-segment state, provided neither the 8-byte length prefix nor the
payload straddles a segment boundary: each of the two writes either fits
in the space left in the current tail segment or starts exactly at a
fresh segment.  (The unconditional round-trip of the original claim
fails when a write is split across two segments, because `get_string`
reads the payload contiguously from one segment.) -/
theorem C1_theorem (s : SB.St) (str : List Nat) (h : SB.Inv s)
    (hone : s.buf.length = 1) (hobl : s.obl = true) (hdrained : s.rpos = s.wp)
    (hstr : str.length < 2 ^ 64)
    (hpfx : s.wp + 8 ≤ s.bs ∨ (s.wp = s.bs ∧ 8 ≤ s.bs))
    (hpayload : str = [] ∨
      (if s.wp = s.bs then 0 else s.wp) + 8 + str.length ≤ s.bs ∨
      ((if s.wp = s.bs then 0 else s.wp) + 8 = s.bs ∧ str.length ≤ s.bs)) :
    (SB.get_string (SB.write_string s str true)).2 = str := by
  obtain ⟨g, hbuf⟩ : ∃ g, s.buf = [g] := by
    cases hb : s.buf with
    | nil => rw [hb] at hone; simp at hone
    | cons a t =>
      cases t with
      | nil => exact ⟨a, rfl⟩
      | cons b u => rw [hb] at hone; simp at hone
  obtain ⟨h1, h2, h3, h4, h5, h6, h7, h8, h9, h10, h11⟩ := h
  have hsid : g.sid = s.wposId := by
    rw [hbuf] at h2
    simp at h2
    exact h2
  have hglen : g.block.length = s.bs := h8 g (by rw [hbuf]; simp)
  have hlt : g.sid < s.nextId := h4 g (by rw [hbuf]; simp)
  by_cases hwpbs : s.wp = s.bs
  · have h8bs : 8 ≤ s.bs := by
      rcases hpfx with hp | ⟨hp1, hp2⟩
      · omega
      · omega
    by_cases hnil : str = []
    · rw [hnil]
      exact SB.c1_B_zero s g hbuf hsid hobl hdrained h7 h10 hlt hwpbs h8bs
    · rcases hpayload with h0 | hfit | ⟨hb8, hl⟩
      · exact absurd h0 hnil
      · rw [if_pos hwpbs] at hfit
        exact SB.c1_B_fit s g str hbuf hsid hobl hdrained h7 hstr hnil h10 hlt hwpbs
          (by omega)
      · rw [if_pos hwpbs] at hb8
        exact SB.c1_B_boundary s g str hbuf hsid hobl hdrained h7 hstr hnil h10 hlt hwpbs
          (by omega) hl
  · have hpre : s.wp + 8 ≤ s.bs := by
      rcases hpfx with hp | ⟨hp1, hp2⟩
      · exact hp
      · exact absurd hp1 hwpbs
    by_cases hnil : str = []
    · rw [hnil]
      exact SB.c1_A_zero s g hbuf hsid hglen hobl hdrained h7 hpre
    · rcases hpayload with h0 | hfit | ⟨hbnd, hl⟩
      · exact absurd h0 hnil
      · rw [if_neg hwpbs] at hfit
        exact SB.c1_A_fit s g str hbuf hsid hglen hobl hdrained h7 hstr hnil hfit
      · rw [if_neg hwpbs] at hbnd
        exact SB.c1_A_boundary s g str hbuf hsid hglen hobl hdrained h7 hstr hnil h10 hlt
          hbnd hl

/-- Witness for the amended C1 theorem: a fresh 16-byte-block buffer and
the 3-byte string `[1, 2, 3]`, whose prefix and payload both fit in the
first segment. -/
theorem C1_theorem_witness :
    (SB.get_string (SB.write_string (SB.init 16) [1, 2, 3] true)).2 = [1, 2, 3] :=
  C1_theorem (SB.init 16) [1, 2, 3] (by decide) (by decide) (by decide) (by decide)
    (by decide) (by decide) (by decide)

namespace SQ

theorem qget_set_self {store : List (QNode α)} {i : Nat} {v : QNode α}
    (h : i < store.length) : qget (store.set i v) i = v := by
  simp [qget, List.getElem?_set_self, h]

theorem qget_set_ne {store : List (QNode α)} {i j : Nat} {v : QNode α}
    (h : i ≠ j) : qget (store.set i v) j = qget store j := by
  simp [qget, List.getElem?_set_ne h]

theorem qget_append_self {store : List (QNode α)} {v : QNode α} :
    qget (store ++ [v]) store.length = v := by
  simp [qget, List.getElem?_concat_length]

theorem qget_append_lt {store : List (QNode α)} {v : QNode α} {j : Nat}
    (h : j < store.length) : qget (store ++ [v]) j = qget store j := by
  simp [qget, List.getElem?_append_left h]

theorem linked_cons_cons {store : List (QNode α)} {i j : Nat} {rest : List Nat} :
    linked store (i :: j :: rest) = true ↔
      (qget store i).next = some j ∧ linked store (j :: rest) = true := by
  simp [linked]

theorem linked_tail {store : List (QNode α)} {i : Nat} {l : List Nat}
    (h : linked store (i :: l) = true) : linked store l = true := by
  cases l with
  | nil => rfl
  | cons j rest => exact (linked_cons_cons.mp h).2

theorem linked_of_agree {store store' : List (QNode α)} :
    ∀ {l : List Nat},
      (∀ i ∈ l, (qget store' i).next = (qget store i).next) →
      linked store l = true → linked store' l = true
  | [], _, _ => rfl
  | [_], _, _ => rfl
  | i :: j :: rest, hagree, h => by
    obtain ⟨h1, h2⟩ := linked_cons_cons.mp h
    refine linked_cons_cons.mpr ⟨?_, ?_⟩
    · rw [hagree i (by simp), h1]
    · exact linked_of_agree (fun k hk => hagree k (by simp [hk])) h2

theorem linked_append_last {store store' : List (QNode α)} :
    ∀ {l : List Nat} {t j : Nat},
      l.getLast? = some t → l.Nodup →
      (∀ i ∈ l, i ≠ t → (qget store' i).next = (qget store i).next) →
      (qget store' t).next = some j →
      linked store l = true → linked store' (l ++ [j]) = true
  | [], t, j, hlast, _, _, _, _ => by simp at hlast
  | [a], t, j, hlast, _, _, ht, _ => by
    simp at hlast
    subst hlast
    exact linked_cons_cons.mpr ⟨ht, rfl⟩
  | a :: b :: rest, t, j, hlast, hnd, hagree, ht, h => by
    obtain ⟨h1, h2⟩ := linked_cons_cons.mp h
    have hlast2 : (b :: rest).getLast? = some t := by
      rwa [List.getLast?_cons_cons] at hlast
    have htmem : t ∈ b :: rest := by
      have := List.mem_getLast?_eq_getLast hlast2
      obtain ⟨hne, hl⟩ := this
      rw [hl]
      exact List.getLast_mem hne
    have hane : a ≠ t := by
      intro hcontra
      subst hcontra
      exact (List.nodup_cons.mp hnd).1 htmem
    refine linked_cons_cons.mpr ⟨?_, ?_⟩
    · rw [hagree a (by simp) hane, h1]
    · exact linked_append_last hlast2 (List.nodup_cons.mp hnd).2
        (fun k hk hkt => hagree k (by simp [hk]) hkt) ht h2

theorem initQ_rep (α : Type) : QRep (initQ α) [0] [] [1] := by
  refine ⟨rfl, rfl, rfl, rfl, rfl, rfl, rfl, rfl, rfl, ?_, ?_, rfl⟩
  · simp
  · intro i hi
    simp at hi
    rcases hi with h | h <;> simp [h, initQ]

theorem front_rep {α : Type} {q : St α} {hs fs : List Nat} {x : α} {xs : List α}
    (h : QRep q hs (x :: xs) fs) : front q = some x := by
  obtain ⟨hh, ht, _, _, hlink, _, _, _, hobjs, _, _, hlen⟩ := h
  cases hs with
  | nil => simp at hh
  | cons h0 hs' =>
    cases hs' with
    | nil => simp only [List.length_cons, List.length_nil] at hlen; omega
    | cons h1 rest =>
      have hh0 : h0 = q.head := by simpa using hh
      obtain ⟨hn, _⟩ := linked_cons_cons.mp hlink
      have hobj1 : (qget q.store h1).obj = some x := by
        simp at hobjs
        exact hobjs.1
      unfold front
      rw [← hh0, hn]
      exact hobj1

theorem empty_iff_rep {α : Type} {q : St α} {hs fs : List Nat} {zs : List α}
    (h : QRep q hs zs fs) : empty q = true ↔ zs = [] := by
  obtain ⟨hh, ht, _, _, _, _, _, _, _, hnd, _, hlen⟩ := h
  constructor
  · intro he
    have heq : q.head = q.tail := by simpa [empty] using he
    cases zs with
    | nil => rfl
    | cons x xs =>
      exfalso
      cases hs with
      | nil => simp at hh
      | cons h0 hs' =>
        cases hs' with
        | nil => simp only [List.length_cons, List.length_nil] at hlen; omega
        | cons h1 rest =>
          have hh0 : h0 = q.head := by simpa using hh
          have htmem : q.tail ∈ h1 :: rest := by
            have hlast2 : (h1 :: rest).getLast? = some q.tail := by
              rwa [List.getLast?_cons_cons] at ht
            rcases List.mem_getLast?_eq_getLast
              (show q.tail ∈ (h1 :: rest).getLast? from hlast2) with ⟨hne, hgl⟩
            exact hgl ▸ List.getLast_mem hne
          have hhs : (h0 :: h1 :: rest).Nodup := hnd.of_append_left
          exact (List.nodup_cons.mp hhs).1 (by rw [hh0, heq]; exact htmem)
  · intro hz
    subst hz
    cases hs with
    | nil => simp at hh
    | cons h0 hs' =>
      cases hs' with
      | cons h1 rest => simp only [List.length_cons, List.length_nil] at hlen; omega
      | nil =>
        have hh0 : h0 = q.head := by simpa using hh
        have ht0 : h0 = q.tail := by simpa using ht
        simp [empty, ← hh0, ← ht0]

theorem back_rep {α : Type} {q : St α} {hs fs : List Nat} {zs : List α}
    (h : QRep q hs zs fs) (hz : zs ≠ []) : backObj q = zs.getLast? := by
  obtain ⟨hh, ht, _, _, _, _, _, _, hobjs, _, _, hlen⟩ := h
  cases hs with
  | nil => simp at hh
  | cons h0 hs' =>
    cases hs' with
    | nil =>
      exfalso
      cases zs with
      | nil => exact hz rfl
      | cons x xs => simp only [List.length_cons, List.length_nil] at hlen; omega
    | cons h1 rest =>
      have hlast2 : (h1 :: rest).getLast? = some q.tail := by
        rwa [List.getLast?_cons_cons] at ht
      have hobjs2 : (h1 :: rest).map (fun i => (qget q.store i).obj) = zs.map some := by
        simpa using hobjs
      have hgl := congrArg List.getLast? hobjs2
      rw [List.getLast?_map, List.getLast?_map] at hgl
      rw [hlast2] at hgl
      obtain ⟨l, hl⟩ : ∃ l, zs.getLast? = some l := by
        cases hzl : zs.getLast? with
        | none => exact absurd (List.getLast?_eq_none_iff.mp hzl) hz
        | some l => exact ⟨l, rfl⟩
      rw [hl] at hgl
      simp at hgl
      rw [backObj, hgl, hl]

theorem pop_rep {α : Type} {q : St α} {hs fs : List Nat} {x : α} {xs : List α}
    (h : QRep q hs (x :: xs) fs) :
    QRep (pop q) (hs.drop 1) xs (fs ++ [q.head]) ∧
    (qget q.store q.head).next = some (pop q).head ∧
    (qget (pop q).store q.head).obj = none ∧
    (pop q).freeTail = q.head ∧
    (qget (pop q).store q.freeTail).next = some q.head := by
  obtain ⟨hh, ht, hfh, hftl, hlinkh, hlinkf, htn, hftn, hobjs, hnd, hbound, hlen⟩ := h
  cases hs with
  | nil => simp at hh
  | cons h0 hs' =>
  cases hs' with
  | nil => simp only [List.length_cons, List.length_nil] at hlen; omega
  | cons h1 rest =>
  have hh0 : h0 = q.head := by simpa using hh
  subst hh0
  have hdisj : List.Disjoint (q.head :: h1 :: rest) fs := List.disjoint_of_nodup_append hnd
  have hhsnd : (q.head :: h1 :: rest).Nodup := hnd.of_append_left
  have hfsnd : fs.Nodup := hnd.of_append_right
  have hftmem : q.freeTail ∈ fs := by
    rcases List.mem_getLast?_eq_getLast (show q.freeTail ∈ fs.getLast? from hftl) with
      ⟨hne, hgl⟩
    exact hgl ▸ List.getLast_mem hne
  have htailmem : q.tail ∈ h1 :: rest := by
    have hlast2 : (h1 :: rest).getLast? = some q.tail := by
      rwa [List.getLast?_cons_cons] at ht
    rcases List.mem_getLast?_eq_getLast (show q.tail ∈ (h1 :: rest).getLast? from hlast2) with
      ⟨hne, hgl⟩
    exact hgl ▸ List.getLast_mem hne
  have hhne_ft : q.head ≠ q.freeTail := fun hc => hdisj (by simp) (hc ▸ hftmem)
  have hbh : q.head < q.store.length := hbound q.head (by simp)
  have hbft : q.freeTail < q.store.length :=
    hbound q.freeTail (List.mem_append.mpr (Or.inr hftmem))
  obtain ⟨hn, hlink2⟩ := linked_cons_cons.mp hlinkh
  have hst : (pop q).store =
      (q.store.set q.freeTail { qget q.store q.freeTail with next := some q.head }).set q.head
        ⟨none, none⟩ := rfl
  have hhd : (pop q).head = h1 := by
    show ((qget (q.store.set q.freeTail
        { qget q.store q.freeTail with next := some q.head }) q.head).next).getD 0 = h1
    rw [qget_set_ne (Ne.symm hhne_ft), hn]
    rfl
  have hftr : (pop q).freeTail = q.head := rfl
  have htlr : (pop q).tail = q.tail := rfl
  have hfhr : (pop q).freeHead = q.freeHead := rfl
  have hlenst : (pop q).store.length = q.store.length := by
    rw [hst]
    simp
  have hqhead : qget (pop q).store q.head = ⟨none, none⟩ := by
    rw [hst]
    exact qget_set_self (by rw [List.length_set]; exact hbh)
  have hqft : qget (pop q).store q.freeTail =
      { qget q.store q.freeTail with next := some q.head } := by
    rw [hst, qget_set_ne hhne_ft]
    exact qget_set_self hbft
  have hqother : ∀ i, i ≠ q.head → i ≠ q.freeTail →
      qget (pop q).store i = qget q.store i := by
    intro i hi1 hi2
    rw [hst, qget_set_ne (Ne.symm hi1), qget_set_ne (Ne.symm hi2)]
  have hobjs2 : (h1 :: rest).map (fun i => (qget q.store i).obj) = (x :: xs).map some := by
    simpa using hobjs
  refine ⟨⟨?_, ?_, ?_, ?_, ?_, ?_, ?_, ?_, ?_, ?_, ?_, ?_⟩, ?_, ?_, hftr, ?_⟩
  · show (h1 :: rest).head? = some (pop q).head
    rw [hhd]
    rfl
  · show (h1 :: rest).getLast? = some (pop q).tail
    rw [htlr]
    rwa [List.getLast?_cons_cons] at ht
  · show (fs ++ [q.head]).head? = some (pop q).freeHead
    rw [hfhr]
    cases fs with
    | nil => simp at hfh
    | cons f0 fs' => simpa using hfh
  · show (fs ++ [q.head]).getLast? = some (pop q).freeTail
    rw [hftr]
    exact List.getLast?_concat _
  · show linked (pop q).store (h1 :: rest) = true
    apply linked_of_agree _ hlink2
    intro i hi
    have hi1 : i ≠ q.head := fun hc => (List.nodup_cons.mp hhsnd).1 (hc ▸ hi)
    have hi2 : i ≠ q.freeTail := fun hc => hdisj (List.mem_cons_of_mem _ hi) (hc ▸ hftmem)
    rw [hqother i hi1 hi2]
  · show linked (pop q).store (fs ++ [q.head]) = true
    apply linked_append_last hftl hfsnd _ _ hlinkf
    · intro i hi hit
      have hi1 : i ≠ q.head := fun hc => hdisj (by simp) (hc ▸ hi)
      rw [hqother i hi1 hit]
    · rw [hqft]
  · show (qget (pop q).store (pop q).tail).next = none
    rw [htlr]
    have ht1 : q.tail ≠ q.head := fun hc => (List.nodup_cons.mp hhsnd).1 (hc ▸ htailmem)
    have ht2 : q.tail ≠ q.freeTail :=
      fun hc => hdisj (List.mem_cons_of_mem _ htailmem) (hc ▸ hftmem)
    rw [hqother q.tail ht1 ht2]
    exact htn
  · show (qget (pop q).store (pop q).freeTail).next = none
    rw [hftr, hqhead]
  · show rest.map (fun i => (qget (pop q).store i).obj) = xs.map some
    have hrest : rest.map (fun i => (qget q.store i).obj) = xs.map some := by
      simp at hobjs2
      exact hobjs2.2
    rw [List.map_congr_left, hrest]
    intro i hi
    have hi1 : i ≠ q.head :=
      fun hc => (List.nodup_cons.mp hhsnd).1 (hc ▸ List.mem_cons_of_mem _ hi)
    have hi2 : i ≠ q.freeTail := fun hc =>
      hdisj (List.mem_cons_of_mem _ (List.mem_cons_of_mem _ hi)) (hc ▸ hftmem)
    rw [hqother i hi1 hi2]
  · show ((h1 :: rest) ++ (fs ++ [q.head])).Nodup
    have hperm : ((h1 :: rest) ++ (fs ++ [q.head])).Perm ((q.head :: h1 :: rest) ++ fs) := by
      rw [← List.append_assoc]
      exact List.perm_append_singleton _ _
    exact hperm.nodup_iff.mpr hnd
  · intro i hi
    rw [hlenst]
    rcases List.mem_append.mp hi with hm | hm
    · exact hbound i (List.mem_append.mpr (Or.inl (List.mem_cons_of_mem _ hm)))
    · rcases List.mem_append.mp hm with hm2 | hm2
      · exact hbound i (List.mem_append.mpr (Or.inr hm2))
      · have : i = q.head := by simpa using hm2
        rw [this]
        exact hbh
  · show (h1 :: rest).length = xs.length + 1
    simp only [List.length_cons] at hlen ⊢
    omega
  · rw [hhd]
    exact hn
  · rw [hqhead]
  · rw [hqft]

theorem push_rep {α : Type} {q : St α} {hs fs : List Nat} {xs : List α}
    (h : QRep q hs xs fs) (x : α) :
    ∃ hs2 fs2, QRep (push q x) hs2 (xs ++ [x]) fs2 := by
  obtain ⟨hh, ht, hfh, hftl, hlinkh, hlinkf, htn, hftn, hobjs, hnd, hbound, hlen⟩ := h
  cases hs with
  | nil => simp at hh
  | cons h0 hs'' =>
  have hh0 : h0 = q.head := by simpa using hh
  subst hh0
  have hdisj : List.Disjoint (q.head :: hs'') fs := List.disjoint_of_nodup_append hnd
  have hhsnd : (q.head :: hs'').Nodup := hnd.of_append_left
  have hfsnd : fs.Nodup := hnd.of_append_right
  have htailmem : q.tail ∈ q.head :: hs'' := by
    rcases List.mem_getLast?_eq_getLast
      (show q.tail ∈ (q.head :: hs'').getLast? from ht) with ⟨hne, hgl⟩
    exact hgl ▸ List.getLast_mem hne
  have hbt : q.tail < q.store.length := hbound q.tail (List.mem_append.mpr (Or.inl htailmem))
  have hobjs1 : hs''.map (fun i => (qget q.store i).obj) = xs.map some := by
    simpa using hobjs
  by_cases hfe : free_list_empty q = true
  · -- freelist empty: a fresh node is allocated at the end of the store
    have hA : push q x =
        { q with
            store := (q.store ++ [QNode.mk (some x) none]).set q.tail
              { qget (q.store ++ [QNode.mk (some x) none]) q.tail with next := some q.store.length }
            tail := q.store.length } := by
      unfold push
      rw [if_pos hfe]
    have hhd' : (push q x).head = q.head := by rw [hA]
    have htl' : (push q x).tail = q.store.length := by rw [hA]
    have hfh' : (push q x).freeHead = q.freeHead := by rw [hA]
    have hft' : (push q x).freeTail = q.freeTail := by rw [hA]
    have hst' : (push q x).store = (q.store ++ [QNode.mk (some x) none]).set q.tail
        { qget (q.store ++ [QNode.mk (some x) none]) q.tail with next := some q.store.length } := by
      rw [hA]
    have hlenst : (push q x).store.length = q.store.length + 1 := by
      rw [hst']
      simp
    have hq_n : qget (push q x).store q.store.length = QNode.mk (some x) none := by
      rw [hst', qget_set_ne (by omega), qget_append_self]
    have hq_tail : qget (push q x).store q.tail =
        { qget q.store q.tail with next := some q.store.length } := by
      rw [hst']
      rw [qget_set_self (by simp; omega)]
      rw [qget_append_lt hbt]
    have hq_other : ∀ i, i ≠ q.tail → i < q.store.length →
        qget (push q x).store i = qget q.store i := by
      intro i hi1 hi2
      rw [hst', qget_set_ne (fun hc => hi1 hc.symm), qget_append_lt hi2]
    have hq_obj : ∀ i ∈ q.head :: hs'', (qget (push q x).store i).obj = (qget q.store i).obj := by
      intro i hi
      by_cases hit : i = q.tail
      · rw [hit, hq_tail]
      · rw [hq_other i hit (hbound i (List.mem_append.mpr (Or.inl hi)))]
    have hn_nm : q.store.length ∉ (q.head :: hs'') ++ fs := by
      intro hc
      exact absurd (hbound _ hc) (by omega)
    refine ⟨(q.head :: hs'') ++ [q.store.length], fs,
      ?_, ?_, ?_, ?_, ?_, ?_, ?_, ?_, ?_, ?_, ?_, ?_⟩
    · rw [hhd']
      rfl
    · rw [htl']
      exact List.getLast?_concat _
    · rw [hfh']
      exact hfh
    · rw [hft']
      exact hftl
    · apply linked_append_last ht hhsnd _ _ hlinkh
      · intro i hi hit
        rw [hq_other i hit (hbound i (List.mem_append.mpr (Or.inl hi)))]
      · rw [hq_tail]
    · apply linked_of_agree _ hlinkf
      intro i hi
      have hit : i ≠ q.tail := fun hc => hdisj (hc ▸ htailmem) hi
      rw [hq_other i hit (hbound i (List.mem_append.mpr (Or.inr hi)))]
    · rw [htl', hq_n]
    · rw [hft']
      have hftmem : q.freeTail ∈ fs := by
        rcases List.mem_getLast?_eq_getLast
          (show q.freeTail ∈ fs.getLast? from hftl) with ⟨hne, hgl⟩
        exact hgl ▸ List.getLast_mem hne
      have hit : q.freeTail ≠ q.tail := fun hc => hdisj (hc ▸ htailmem) hftmem
      rw [hq_other q.freeTail hit (hbound _ (List.mem_append.mpr (Or.inr hftmem)))]
      exact hftn
    · show (hs'' ++ [q.store.length]).map (fun i => (qget (push q x).store i).obj) =
        (xs ++ [x]).map some
      rw [List.map_append, List.map_append]
      have h1 : hs''.map (fun i => (qget (push q x).store i).obj) = xs.map some := by
        rw [List.map_congr_left (fun i hi => hq_obj i (List.mem_cons_of_mem _ hi))]
        exact hobjs1
      rw [h1]
      show xs.map some ++ [(qget (push q x).store q.store.length).obj] =
        xs.map some ++ [some x]
      rw [hq_n]
    · have h1 : (q.store.length :: ((q.head :: hs'') ++ fs)).Nodup :=
        List.nodup_cons.mpr ⟨hn_nm, hnd⟩
      have hperm : (q.store.length :: ((q.head :: hs'') ++ fs)).Perm
          (((q.head :: hs'') ++ [q.store.length]) ++ fs) := by
        rw [List.append_assoc]
        exact List.perm_middle.symm
      exact hperm.nodup_iff.mp h1
    · intro i hi
      rw [hlenst]
      rcases List.mem_append.mp hi with hm | hm
      · rcases List.mem_append.mp hm with hm2 | hm2
        · have := hbound i (List.mem_append.mpr (Or.inl hm2))
          omega
        · have : i = q.store.length := by simpa using hm2
          omega
      · have := hbound i (List.mem_append.mpr (Or.inr hm))
        omega
    · simp only [List.length_append, List.length_cons] at hlen ⊢
      simp
      omega
  · -- freelist nonempty: the freelist's dummy head is reused
    have hne : q.freeHead ≠ q.freeTail := by
      simpa [free_list_empty] using hfe
    cases fs with
    | nil => simp at hfh
    | cons f0 fs' =>
    have hf0 : f0 = q.freeHead := by simpa using hfh
    subst hf0
    cases fs' with
    | nil =>
      exfalso
      apply hne
      simpa using hftl
    | cons f1 rest' =>
    obtain ⟨hfn, hlinkf2⟩ := linked_cons_cons.mp hlinkf
    have hB : push q x =
        { q with
            store := (q.store.set q.tail
                { qget q.store q.tail with next := some q.freeHead }).set q.freeHead
              (QNode.mk (some x) none)
            tail := q.freeHead
            freeHead := ((qget q.store q.freeHead).next).getD 0 } := by
      unfold push
      rw [if_neg (by simp [hfe])]
    have hhd' : (push q x).head = q.head := by rw [hB]
    have htl' : (push q x).tail = q.freeHead := by rw [hB]
    have hfh' : (push q x).freeHead = f1 := by
      rw [hB]
      show ((qget q.store q.freeHead).next).getD 0 = f1
      rw [hfn]
      rfl
    have hft' : (push q x).freeTail = q.freeTail := by rw [hB]
    have hst' : (push q x).store = (q.store.set q.tail
        { qget q.store q.tail with next := some q.freeHead }).set q.freeHead
          (QNode.mk (some x) none) := by
      rw [hB]
    have hfhmem : q.freeHead ∈ q.freeHead :: f1 :: rest' := by simp
    have hbfh : q.freeHead < q.store.length :=
      hbound q.freeHead (List.mem_append.mpr (Or.inr hfhmem))
    have htail_ne_fh : q.tail ≠ q.freeHead := fun hc => hdisj htailmem (hc ▸ hfhmem)
    have hlenst : (push q x).store.length = q.store.length := by
      rw [hst']
      simp
    have hq_fh : qget (push q x).store q.freeHead = QNode.mk (some x) none := by
      rw [hst']
      exact qget_set_self (by rw [List.length_set]; exact hbfh)
    have hq_tail : qget (push q x).store q.tail =
        { qget q.store q.tail with next := some q.freeHead } := by
      rw [hst', qget_set_ne (Ne.symm htail_ne_fh)]
      exact qget_set_self hbt
    have hq_other : ∀ i, i ≠ q.tail → i ≠ q.freeHead →
        qget (push q x).store i = qget q.store i := by
      intro i hi1 hi2
      rw [hst', qget_set_ne (Ne.symm hi2), qget_set_ne (Ne.symm hi1)]
    have hq_obj : ∀ i ∈ q.head :: hs'', (qget (push q x).store i).obj = (qget q.store i).obj := by
      intro i hi
      by_cases hit : i = q.tail
      · rw [hit, hq_tail]
      · have hif : i ≠ q.freeHead := fun hc => hdisj hi (hc ▸ hfhmem)
        rw [hq_other i hit hif]
    have hfhnm : q.freeHead ∉ f1 :: rest' := (List.nodup_cons.mp hfsnd).1
    refine ⟨(q.head :: hs'') ++ [q.freeHead], f1 :: rest',
      ?_, ?_, ?_, ?_, ?_, ?_, ?_, ?_, ?_, ?_, ?_, ?_⟩
    · rw [hhd']
      rfl
    · rw [htl']
      exact List.getLast?_concat _
    · rw [hfh']
      rfl
    · rw [hft']
      rwa [List.getLast?_cons_cons] at hftl
    · apply linked_append_last ht hhsnd _ _ hlinkh
      · intro i hi hit
        have hif : i ≠ q.freeHead := fun hc => hdisj hi (hc ▸ hfhmem)
        rw [hq_other i hit hif]
      · rw [hq_tail]
    · apply linked_of_agree _ hlinkf2
      intro i hi
      have hit : i ≠ q.tail := fun hc => hdisj (hc ▸ htailmem) (List.mem_cons_of_mem _ hi)
      have hif : i ≠ q.freeHead := fun hc => hfhnm (hc ▸ hi)
      rw [hq_other i hit hif]
    · rw [htl', hq_fh]
    · rw [hft']
      have hftmem : q.freeTail ∈ f1 :: rest' := by
        have hlast2 : (f1 :: rest').getLast? = some q.freeTail := by
          rwa [List.getLast?_cons_cons] at hftl
        rcases List.mem_getLast?_eq_getLast
          (show q.freeTail ∈ (f1 :: rest').getLast? from hlast2) with ⟨hne2, hgl⟩
        exact hgl ▸ List.getLast_mem hne2
      have hit : q.freeTail ≠ q.tail :=
        fun hc => hdisj (hc ▸ htailmem) (List.mem_cons_of_mem _ hftmem)
      rw [hq_other q.freeTail hit (Ne.symm hne)]
      exact hftn
    · show (hs'' ++ [q.freeHead]).map (fun i => (qget (push q x).store i).obj) =
        (xs ++ [x]).map some
      rw [List.map_append, List.map_append]
      have h1 : hs''.map (fun i => (qget (push q x).store i).obj) = xs.map some := by
        rw [List.map_congr_left (fun i hi => hq_obj i (List.mem_cons_of_mem _ hi))]
        exact hobjs1
      rw [h1]
      show xs.map some ++ [(qget (push q x).store q.freeHead).obj] =
        xs.map some ++ [some x]
      rw [hq_fh]
    · show (((q.head :: hs'') ++ [q.freeHead]) ++ (f1 :: rest')).Nodup
      rw [List.append_assoc]
      exact hnd
    · intro i hi
      rw [hlenst]
      apply hbound
      rcases List.mem_append.mp hi with hm | hm
      · rcases List.mem_append.mp hm with hm2 | hm2
        · exact List.mem_append.mpr (Or.inl hm2)
        · have : i = q.freeHead := by simpa using hm2
          rw [this]
          exact List.mem_append.mpr (Or.inr hfhmem)
      · exact List.mem_append.mpr (Or.inr (List.mem_cons_of_mem _ hm))
    · simp only [List.length_append, List.length_cons] at hlen ⊢
      simp
      omega

theorem pushAll_rep {α : Type} :
    ∀ (ys : List α) (q : St α) (hs fs : List Nat) (xs : List α),
      QRep q hs xs fs → ∃ hs2 fs2, QRep (pushAll q ys) hs2 (xs ++ ys) fs2
  | [], q, hs, fs, xs, h => ⟨hs, fs, by simpa using h⟩
  | y :: rest, q, hs, fs, xs, h => by
    obtain ⟨hs2, fs2, h2⟩ := push_rep h y
    obtain ⟨hs3, fs3, h3⟩ := pushAll_rep rest (push q y) hs2 fs2 (xs ++ [y]) h2
    exact ⟨hs3, fs3, by simpa [List.append_assoc] using h3⟩

theorem drain_rep {α : Type} :
    ∀ (zs : List α) (q : St α) (hs fs : List Nat),
      QRep q hs zs fs → drainFronts q zs.length = zs.map some
  | [], _, _, _, _ => rfl
  | z :: rest, q, hs, fs, h => by
    have hf := front_rep h
    obtain ⟨hrep2, _, _, _, _⟩ := pop_rep h
    show front q :: drainFronts (pop q) rest.length = some z :: rest.map some
    rw [hf, drain_rep rest (pop q) (hs.drop 1) (fs ++ [q.head]) hrep2]

theorem front_none_rep {α : Type} {q : St α} {hs fs : List Nat}
    (h : QRep q hs [] fs) : front q = none := by
  obtain ⟨hh, ht, _, _, _, _, htn, _, _, _, _, hlen⟩ := h
  cases hs with
  | nil => simp at hh
  | cons h0 hs' =>
    cases hs' with
    | cons h1 rest => simp only [List.length_cons, List.length_nil] at hlen; omega
    | nil =>
      have hh0 : h0 = q.head := by simpa using hh
      have ht0 : h0 = q.tail := by simpa using ht
      unfold front
      rw [← hh0, ht0, htn]

end SQ

/-- C7: the dummy-head SPSC queue is FIFO.  For every state representing
elements `zs` (invariant `SQ.QRep`): emptiness coincides with
`head_ == tail_` and with `zs = []`; `head_->next` addresses the logical
front and `tail_` the logical back; after `push(x1) ... push(xn)` on an
empty queue, `n` successive `front()`/`pop()` pairs yield `x1, ..., xn`
in order; and every `pop` advances `head_` exactly one step along the
`next` chain, destroys the payload of the detached old head node, and
appends exactly that node to the freelist (linked after the old
`free_tail_`, becoming the new `free_tail_`). -/
theorem C7_theorem (α : Type) (xs : List α) (q : SQ.St α) (hs fs : List Nat)
    (zs : List α) (hrep : SQ.QRep q hs zs fs) :
    (SQ.empty q = true ↔ q.head = q.tail) ∧
    (SQ.empty q = true ↔ zs = []) ∧
    SQ.front q = zs.head? ∧
    (zs ≠ [] → SQ.backObj q = zs.getLast?) ∧
    SQ.drainFronts (SQ.pushAll (SQ.initQ α) xs) xs.length = xs.map some ∧
    (zs ≠ [] →
      (SQ.qget q.store q.head).next = some (SQ.pop q).head ∧
      (SQ.qget (SQ.pop q).store q.head).obj = none ∧
      (SQ.pop q).freeTail = q.head ∧
      (SQ.qget (SQ.pop q).store q.freeTail).next = some q.head) := by
  refine ⟨by simp [SQ.empty], SQ.empty_iff_rep hrep, ?_, fun hz => SQ.back_rep hrep hz,
    ?_, ?_⟩
  · cases zs with
    | nil => exact SQ.front_none_rep hrep
    | cons z rest => exact SQ.front_rep hrep
  · obtain ⟨hs2, fs2, hrep2⟩ :=
      SQ.pushAll_rep xs (SQ.initQ α) [0] [1] [] (SQ.initQ_rep α)
    exact SQ.drain_rep xs (SQ.pushAll (SQ.initQ α) xs) hs2 fs2 hrep2
  · intro hz
    cases zs with
    | nil => exact absurd rfl hz
    | cons z rest =>
      obtain ⟨_, h2, h3, h4, h5⟩ := SQ.pop_rep hrep
      exact ⟨h2, h3, h4, h5⟩

/-- Witness for C7: the queue holding `[5, 6]` (reached by two pushes
from a fresh queue: node store `[dummy, free-dummy, 5, 6]`, main chain
`[0, 2, 3]`, freelist `[1]`), checked against the theorem's emptiness,
front and drain conclusions. -/
theorem C7_theorem_witness :
    SQ.QRep (SQ.pushAll (SQ.initQ Nat) [5, 6]) [0, 2, 3] [5, 6] [1] ∧
    (SQ.empty (SQ.pushAll (SQ.initQ Nat) [5, 6]) = true ↔ ([5, 6] : List Nat) = []) ∧
    SQ.front (SQ.pushAll (SQ.initQ Nat) [5, 6]) = some 5 ∧
    SQ.drainFronts (SQ.pushAll (SQ.initQ Nat) [7, 8]) 2 = [some 7, some 8] :=
  have h := C7_theorem Nat [7, 8] (SQ.pushAll (SQ.initQ Nat) [5, 6]) [0, 2, 3] [1] [5, 6]
    (by decide)
  ⟨by decide, h.2.1, h.2.2.1, h.2.2.2.2.1⟩

theorem corrSegs_single {wp : Nat} {g : SB.Seg} {b : BB.BSeg} :
    corrSegs wp [g] [b] = true ↔
      b.bEnd = BB.SENTINEL ∧ b.block.take wp = g.block.take wp ∧
        b.block.length = g.block.length := by
  simp [corrSegs, and_assoc]

theorem corrSegs_cons_cons {wp : Nat} {g g2 : SB.Seg} {gs : List SB.Seg}
    {b b2 : BB.BSeg} {bs : List BB.BSeg} :
    corrSegs wp (g :: g2 :: gs) (b :: b2 :: bs) = true ↔
      b.bEnd = g.segEnd ∧ b.block.take g.segEnd = g.block.take g.segEnd ∧
        b.block.length = g.block.length ∧ corrSegs wp (g2 :: gs) (b2 :: bs) = true := by
  simp [corrSegs, and_assoc]

theorem corrSegs_length : ∀ (wp : Nat) (gs : List SB.Seg) (bs : List BB.BSeg),
    corrSegs wp gs bs = true → gs.length = bs.length
  | _, [_], [_], _ => rfl
  | wp, g :: g2 :: gs, b :: b2 :: bs, h => by
    have h2 := (corrSegs_cons_cons.mp h).2.2.2
    have := corrSegs_length wp (g2 :: gs) (b2 :: bs) h2
    simpa using this
  | _, [], [], h => by simp [corrSegs] at h
  | _, [], _ :: _, h => by simp [corrSegs] at h
  | _, _ :: _, [], h => by simp [corrSegs] at h
  | _, [_], _ :: _ :: _, h => by simp [corrSegs] at h
  | _, _ :: _ :: _, [_], h => by simp [corrSegs] at h

theorem corrSegs_write (data : List Nat) :
    ∀ (wp : Nat) (gs : List SB.Seg) (bs : List BB.BSeg),
      corrSegs wp gs bs = true →
      (∀ g ∈ gs, wp + data.length ≤ g.block.length) →
      (∀ b ∈ bs, wp + data.length ≤ b.block.length) →
      corrSegs (wp + data.length)
        (SB.modLast gs fun g => { g with block := setSlice g.block wp data })
        (BB.modLast bs fun b => { b with block := setSlice b.block wp data }) = true
  | wp, [g], [b], h, hg, hb => by
    obtain ⟨h1, h2, h3⟩ := corrSegs_single.mp h
    show corrSegs (wp + data.length) [{ g with block := setSlice g.block wp data }]
      [{ b with block := setSlice b.block wp data }] = true
    refine corrSegs_single.mpr ⟨h1, ?_, ?_⟩
    · exact take_setSlice_eq h2 (hb b (by simp)) (hg g (by simp))
    · rw [setSlice_length (hb b (by simp)), setSlice_length (hg g (by simp)), h3]
  | wp, g :: g2 :: gs, b :: b2 :: bs, h, hg, hb => by
    obtain ⟨h1, h2, h3, h4⟩ := corrSegs_cons_cons.mp h
    show corrSegs (wp + data.length)
      (g :: SB.modLast (g2 :: gs) fun g => { g with block := setSlice g.block wp data })
      (b :: BB.modLast (b2 :: bs) fun b => { b with block := setSlice b.block wp data }) = true
    have hrec := corrSegs_write data wp (g2 :: gs) (b2 :: bs) h4
      (fun x hx => hg x (by simp [hx])) (fun x hx => hb x (by simp [hx]))
    cases hgs : SB.modLast (g2 :: gs) fun g => { g with block := setSlice g.block wp data } with
    | nil => rw [hgs] at hrec; simp [corrSegs] at hrec
    | cons g2' gs' =>
      cases hbs : BB.modLast (b2 :: bs) fun b => { b with block := setSlice b.block wp data } with
      | nil => rw [hgs, hbs] at hrec; simp [corrSegs] at hrec
      | cons b2' bs' =>
        rw [hgs, hbs] at hrec
        exact corrSegs_cons_cons.mpr ⟨h1, h2, h3, hrec⟩
  | _, [], [], h, _, _ => by simp [corrSegs] at h
  | _, [], _ :: _, h, _, _ => by simp [corrSegs] at h
  | _, _ :: _, [], h, _, _ => by simp [corrSegs] at h
  | _, [_], _ :: _ :: _, h, _, _ => by simp [corrSegs] at h
  | _, _ :: _ :: _, [_], h, _, _ => by simp [corrSegs] at h

theorem corrSegs_notify (e : Nat) :
    ∀ (wp : Nat) (gs : List SB.Seg) (bs : List BB.BSeg),
      corrSegs wp gs bs = true →
      corrSegs wp (SB.modLast gs fun g => { g with segEnd := e }) bs = true
  | wp, [g], [b], h => by
    obtain ⟨h1, h2, h3⟩ := corrSegs_single.mp h
    exact corrSegs_single.mpr ⟨h1, h2, h3⟩
  | wp, g :: g2 :: gs, b :: b2 :: bs, h => by
    obtain ⟨h1, h2, h3, h4⟩ := corrSegs_cons_cons.mp h
    have hrec := corrSegs_notify e wp (g2 :: gs) (b2 :: bs) h4
    show corrSegs wp (g :: SB.modLast (g2 :: gs) fun g => { g with segEnd := e })
      (b :: b2 :: bs) = true
    cases hgs : SB.modLast (g2 :: gs) fun g => { g with segEnd := e } with
    | nil => rw [hgs] at hrec; simp [corrSegs] at hrec
    | cons g2p gsp =>
      rw [hgs] at hrec
      exact corrSegs_cons_cons.mpr ⟨h1, h2, h3, hrec⟩
  | _, [], [], h => by simp [corrSegs] at h
  | _, [], _ :: _, h => by simp [corrSegs] at h
  | _, _ :: _, [], h => by simp [corrSegs] at h
  | _, [_], _ :: _ :: _, h => by simp [corrSegs] at h
  | _, _ :: _ :: _, [_], h => by simp [corrSegs] at h

theorem corrSegs_add (nid : Nat) (nb1 nb2 : List Nat) (hlen : nb2.length = nb1.length) :
    ∀ (wp : Nat) (gs : List SB.Seg) (bs : List BB.BSeg),
      corrSegs wp gs bs = true →
      corrSegs 0 ((SB.modLast gs fun g => { g with segEnd := wp }) ++ [SB.Seg.mk nid nb1 0])
        ((BB.modLast bs fun b => { b with bEnd := wp }) ++
          [BB.BSeg.mk nb2 BB.SENTINEL]) = true
  | wp, [g], [b], h => by
    obtain ⟨h1, h2, h3⟩ := corrSegs_single.mp h
    show corrSegs 0 [{ g with segEnd := wp }, SB.Seg.mk nid nb1 0]
      [{ b with bEnd := wp }, BB.BSeg.mk nb2 BB.SENTINEL] = true
    refine corrSegs_cons_cons.mpr ⟨rfl, h2, h3, ?_⟩
    exact corrSegs_single.mpr ⟨rfl, by simp, hlen⟩
  | wp, g :: g2 :: gs, b :: b2 :: bs, h => by
    obtain ⟨h1, h2, h3, h4⟩ := corrSegs_cons_cons.mp h
    have hrec := corrSegs_add nid nb1 nb2 hlen wp (g2 :: gs) (b2 :: bs) h4
    show corrSegs 0
      (g :: ((SB.modLast (g2 :: gs) fun g => { g with segEnd := wp }) ++ [SB.Seg.mk nid nb1 0]))
      (b :: ((BB.modLast (b2 :: bs) fun b => { b with bEnd := wp }) ++
        [BB.BSeg.mk nb2 BB.SENTINEL])) = true
    cases hgs : (SB.modLast (g2 :: gs) fun g => { g with segEnd := wp }) ++
        [SB.Seg.mk nid nb1 0] with
    | nil => rw [hgs] at hrec; simp [corrSegs] at hrec
    | cons g2p gsp =>
      cases hbs2 : (BB.modLast (b2 :: bs) fun b => { b with bEnd := wp }) ++
          [BB.BSeg.mk nb2 BB.SENTINEL] with
      | nil => rw [hgs, hbs2] at hrec; simp [corrSegs] at hrec
      | cons b2p bsp =>
        rw [hgs, hbs2] at hrec
        exact corrSegs_cons_cons.mpr ⟨h1, h2, h3, hrec⟩
  | _, [], [], h => by simp [corrSegs] at h
  | _, [], _ :: _, h => by simp [corrSegs] at h
  | _, _ :: _, [], h => by simp [corrSegs] at h
  | _, [_], _ :: _ :: _, h => by simp [corrSegs] at h
  | _, _ :: _ :: _, [_], h => by simp [corrSegs] at h

theorem notify_sim (s : SB.St) (t : BB.St) (h : SB.Inv s) (hc : corr s t) :
    corr (SB.notify s) t := by
  obtain ⟨hbs, hr, hw, hsen, hcs, hfl⟩ := hc
  obtain ⟨h1, h2, h3, _⟩ := h
  unfold SB.notify
  rw [SB.storeWpos_eq s h3 h2]
  exact ⟨hbs, hr, hw, hsen, corrSegs_notify s.wp s.wp s.buf t.buf hcs, hfl⟩

theorem add_block_sim (s : SB.St) (t : BB.St) (h : SB.Inv s) (hc : corr s t) :
    corr (SB.add_block s) (BB.add_block t) := by
  obtain ⟨hbs, hr, hw, hsen, hcs, hfl⟩ := hc
  obtain ⟨h1, h2, h3, h4, h5, h6, h7, h8, h9, h10, h11⟩ := h
  obtain ⟨nb1, fl1, hnb1, hfl1, hSB⟩ : ∃ nb1 fl1, nb1.length = s.bs ∧
      (∀ b ∈ fl1, b.length = s.bs) ∧
      SB.add_block s = { s with
        buf := (SB.modLast s.buf fun g => { g with segEnd := s.wp }) ++
          [SB.Seg.mk s.nextId nb1 0]
        freeList := fl1
        wp := 0
        wposId := s.nextId
        nextId := s.nextId + 1 } := by
    rw [SB.add_block_eq, SB.storeWpos_eq s h3 h2]
    cases hfls : s.freeList with
    | nil => exact ⟨List.replicate s.bs 0, [], by simp, by simp, rfl⟩
    | cons b rest =>
      exact ⟨b, rest, h10 b (by rw [hfls]; simp),
        fun x hx => h10 x (by rw [hfls]; exact List.mem_cons_of_mem b hx), rfl⟩
  obtain ⟨nb2, fl2, hnb2, hfl2, hBB⟩ : ∃ nb2 fl2, nb2.length = t.bs ∧
      (∀ b ∈ fl2, b.length = t.bs) ∧
      BB.add_block t = { t with
        buf := (BB.modLast t.buf fun b => { b with bEnd := t.wpos }) ++
          [BB.BSeg.mk nb2 BB.SENTINEL]
        freeList := fl2
        wpos := 0 } := by
    unfold BB.add_block
    dsimp only
    cases hflt : t.freeList with
    | nil => exact ⟨List.replicate t.bs 0, [], by simp, by simp, rfl⟩
    | cons b rest =>
      exact ⟨b, rest, hfl b (by rw [hflt]; simp),
        fun x hx => hfl x (by rw [hflt]; exact List.mem_cons_of_mem b hx), rfl⟩
  rw [hSB, hBB]
  refine ⟨hbs, hr, rfl, hsen, ?_, hfl2⟩
  show corrSegs 0
    ((SB.modLast s.buf fun g => { g with segEnd := s.wp }) ++ [SB.Seg.mk s.nextId nb1 0])
    ((BB.modLast t.buf fun b => { b with bEnd := t.wpos }) ++
      [BB.BSeg.mk nb2 BB.SENTINEL]) = true
  rw [hw]
  exact corrSegs_add s.nextId nb1 nb2 (by rw [hnb2, hbs, hnb1]) s.wp s.buf t.buf hcs

theorem add_block_if_needed_sim (s : SB.St) (t : BB.St) (h : SB.Inv s) (hc : corr s t) :
    corr (SB.add_block_if_needed s) (BB.add_block_if_needed t) := by
  have hbs := hc.1
  have hw := hc.2.2.1
  unfold SB.add_block_if_needed BB.add_block_if_needed
  by_cases hcond : s.wp = s.bs
  · rw [if_pos hcond, if_pos (by rw [hw, hbs]; exact hcond)]
    exact add_block_sim s t h hc
  · rw [if_neg hcond, if_neg (fun hx => hcond (by rw [hw, hbs] at hx; exact hx))]
    exact hc

theorem add_block_if_needed_cont_sim (s : SB.St) (t : BB.St) (len : Nat)
    (h : SB.Inv s) (hc : corr s t) :
    corr (SB.add_block_if_needed_cont s len) (BB.add_block_if_needed_cont t len) := by
  have hbs := hc.1
  have hw := hc.2.2.1
  unfold SB.add_block_if_needed_cont BB.add_block_if_needed_cont
  by_cases hcond : sub64 s.bs s.wp < len
  · rw [if_pos hcond, if_pos (by rw [hw, hbs]; exact hcond)]
    exact add_block_sim s t h hc
  · rw [if_neg hcond, if_neg (fun hx => hcond (by rw [hw, hbs] at hx; exact hx))]
    exact hc

theorem bbWriteLoop_succ (t : BB.St) (data : List Nat) (fuel : Nat) :
    BB.writeLoop t data (fuel + 1) =
      if data.isEmpty then t
      else
        let s1 := BB.add_block_if_needed t
        let tw := min data.length (sub64 s1.bs s1.wpos)
        let s2 := { s1 with
          buf := BB.modLast s1.buf fun g =>
            { g with block := setSlice g.block s1.wpos (data.take tw) } }
        BB.writeLoop { s2 with wpos := s2.wpos + tw } (data.drop tw) fuel := rfl

theorem corrSegs_blocks_len : ∀ (wp : Nat) (gs : List SB.Seg) (bs : List BB.BSeg),
    corrSegs wp gs bs = true → ∀ b ∈ bs, ∃ g ∈ gs, b.block.length = g.block.length
  | wp, [g], [b], h => by
    intro x hx
    have h3 := (corrSegs_single.mp h).2.2
    simp at hx
    exact ⟨g, by simp, by rw [hx]; exact h3⟩
  | wp, g :: g2 :: gs, b :: b2 :: bs, h => by
    intro x hx
    obtain ⟨h1, h2, h3, h4⟩ := corrSegs_cons_cons.mp h
    rcases List.mem_cons.mp hx with hx0 | hx1
    · exact ⟨g, by simp, by rw [hx0]; exact h3⟩
    · obtain ⟨g0, hg0, he0⟩ := corrSegs_blocks_len wp (g2 :: gs) (b2 :: bs) h4 x hx1
      exact ⟨g0, List.mem_cons_of_mem _ hg0, he0⟩
  | _, [], [], h => by simp [corrSegs] at h
  | _, [], _ :: _, h => by simp [corrSegs] at h
  | _, _ :: _, [], h => by simp [corrSegs] at h
  | _, [_], _ :: _ :: _, h => by simp [corrSegs] at h
  | _, _ :: _ :: _, [_], h => by simp [corrSegs] at h

theorem writeLoop_sim (fuel : Nat) : ∀ (s : SB.St) (t : BB.St) (data : List Nat),
    SB.Inv s → corr s t → corr (SB.writeLoop s data fuel) (BB.writeLoop t data fuel) := by
  induction fuel with
  | zero => intro s t data h hc; exact hc
  | succ fuel ih =>
    intro s t data h hc
    rw [SB.writeLoop_succ, bbWriteLoop_succ]
    by_cases hd : data.isEmpty = true
    · rw [if_pos hd, if_pos hd]
      exact hc
    · rw [if_neg hd, if_neg hd]
      dsimp only
      have h1 : SB.Inv (SB.add_block_if_needed s) := SB.inv_add_block_if_needed s h
      have hc1 : corr (SB.add_block_if_needed s) (BB.add_block_if_needed t) :=
        add_block_if_needed_sim s t h hc
    
      set s1 := SB.add_block_if_needed s with hs1
      set t1 := BB.add_block_if_needed t with ht1
      obtain ⟨hbs, hr, hw, hsen, hcs, hfl⟩ := hc1
      have htw : min data.length (sub64 t1.bs t1.wpos) =
          min data.length (sub64 s1.bs s1.wp) := by
        rw [hbs, hw]
      rw [htw]
      set tw := min data.length (sub64 s1.bs s1.wp) with htwd
      have hwle : s1.wp ≤ s1.bs := h1.2.2.2.2.2.1
      have hbslt : s1.bs < 2 ^ 64 := h1.2.2.2.2.2.2.1
      have hsub : sub64 s1.bs s1.wp = s1.bs - s1.wp := sub64_of_le hwle hbslt
      have htwle : tw ≤ data.length := by
        rw [htwd]
        omega
      have hdlen : (data.take tw).length = tw := by
        simp only [List.length_take]
        omega
      have hwtw : s1.wp + tw ≤ s1.bs := by
        rw [htwd, hsub]
        omega
      have hbound : s1.wp + (data.take tw).length ≤ s1.bs := by
        rw [hdlen]
        exact hwtw
      have hInvStep := SB.inv_writeCopy s1 h1 (data.take tw) hbound
      have hcw := corrSegs_write (data.take tw) s1.wp s1.buf t1.buf hcs
        (fun g hg => by rw [h1.2.2.2.2.2.2.2.1 g hg]; exact hbound)
        (fun b hb => by
          obtain ⟨g, hg, he⟩ := corrSegs_blocks_len s1.wp s1.buf t1.buf hcs b hb
          rw [he, h1.2.2.2.2.2.2.2.1 g hg]
          exact hbound)
      rw [hdlen] at hcw
      have hstep : corr
          { s1 with
              buf := SB.modLast s1.buf fun g =>
                { g with block := setSlice g.block s1.wp (data.take tw) }
              wp := s1.wp + tw }
          { t1 with
              buf := BB.modLast t1.buf fun b =>
                { b with block := setSlice b.block t1.wpos (data.take tw) }
              wpos := t1.wpos + tw } := by
        refine ⟨hbs, hr, ?_, hsen, ?_, hfl⟩
        · show t1.wpos + tw = s1.wp + tw
          rw [hw]
        · show corrSegs (s1.wp + tw)
            (SB.modLast s1.buf fun g =>
              { g with block := setSlice g.block s1.wp (data.take tw) })
            (BB.modLast t1.buf fun b =>
              { b with block := setSlice b.block t1.wpos (data.take tw) }) = true
          rw [hw]
          exact hcw
      have hInvStep2 : SB.Inv
          { s1 with
              buf := SB.modLast s1.buf fun g =>
                { g with block := setSlice g.block s1.wp (data.take tw) }
              wp := s1.wp + tw } := by
        have heq : s1.wp + tw = s1.wp + (data.take tw).length := by rw [hdlen]
        rw [heq]
        exact hInvStep
      exact ih _ _ (data.drop tw) hInvStep2 hstep

theorem write_sim (s : SB.St) (t : BB.St) (data : List Nat) (noti : Bool)
    (h : SB.Inv s) (hc : corr s t) :
    corr (SB.write s data noti) (BB.write t data) := by
  have hloop := writeLoop_sim data.length s t data h hc
  have hloopInv := SB.inv_writeLoop data.length s data h
  cases noti with
  | false => exact hloop
  | true =>
    show corr (SB.notify (SB.writeLoop s data data.length)) (BB.writeLoop t data data.length)
    exact notify_sim _ _ hloopInv hloop

theorem write_size_t_sim (s : SB.St) (t : BB.St) (n : Nat) (noti : Bool)
    (h : SB.Inv s) (hc : corr s t) :
    corr (SB.write_size_t s n noti) (BB.write_size_t t n) :=
  write_sim s t (le64 n) noti h hc

theorem write_string_sim (s : SB.St) (t : BB.St) (str : List Nat) (noti : Bool)
    (h : SB.Inv s) (hc : corr s t) :
    corr (SB.write_string s str noti) (BB.write_string t str) := by
  have h1 := write_size_t_sim s t str.length false h hc
  have hInv1 : SB.Inv (SB.write_size_t s str.length false) :=
    SB.inv_write s h (le64 str.length) false
  exact write_sim _ _ str noti hInv1 h1

theorem bbFrontEnd_cons (t : BB.St) (x : BB.BSeg) (r : List BB.BSeg)
    (hbuf : t.buf = x :: r) : BB.frontEnd t = x.bEnd := by
  unfold BB.frontEnd
  rw [hbuf]
  rfl

theorem bbFrontBlock_cons (t : BB.St) (x : BB.BSeg) (r : List BB.BSeg)
    (hbuf : t.buf = x :: r) : BB.frontBlock t = x.block := by
  unfold BB.frontBlock
  rw [hbuf]
  rfl

theorem bbPop_block_cons (t : BB.St) (x : BB.BSeg) (r : List BB.BSeg)
    (hbuf : t.buf = x :: r) :
    BB.pop_block t = { t with buf := r, preserved := t.preserved ++ [x], rpos := 0 } := by
  unfold BB.pop_block
  rw [hbuf]

theorem pop_if_needed_sim (s : SB.St) (t : BB.St) (n : Nat)
    (h : SB.Inv s) (hc : corr s t) :
    corr (SB.pop_block_if_needed s n) (BB.pop_block_if_needed t n) := by
  obtain ⟨hbs, hr, hw, hsen, hcs, hfl⟩ := hc
  obtain ⟨h1, h2, h3, h4, h5, h6, h7, h8, h9, h10, h11⟩ := h
  have hsv : BB.SENTINEL = 2 ^ 64 - 1 := rfl
  cases hsb : s.buf with
  | nil => exact absurd hsb h1
  | cons g gs1 =>
  rw [hsb] at hcs
  cases hbt : t.buf with
  | nil => rw [hbt] at hcs; simp [corrSegs] at hcs
  | cons b bs1 =>
  rw [hbt] at hcs
  cases gs1 with
  | nil =>
    cases bs1 with
    | cons b2 bs2 => simp [corrSegs] at hcs
    | nil =>
      obtain ⟨hbe, _, _⟩ := corrSegs_single.mp hcs
      have hcheck : SB.check_one_block_left s = true :=
        (SB.check_iff s h1 h3 h2).mpr (by rw [hsb]; rfl)
      have hobl : s.obl = true := by
        cases hob : s.obl with
        | true => rfl
        | false =>
          have := h5 hob
          rw [hsb] at this
          simp at this
      rw [SB.pop_if_needed_noop_checked s n hobl hcheck]
      unfold BB.pop_block_if_needed
      rw [if_neg (fun hx => hx.1 (by rw [bbFrontEnd_cons t b [] hbt]; exact hbe))]
      exact ⟨hbs, hr, hw, hsen, by rw [hsb, hbt]; exact hcs, hfl⟩
  | cons g2 gs2 =>
    cases bs1 with
    | nil => simp [corrSegs] at hcs
    | cons b2 bs2 =>
    obtain ⟨hbe, hagree, hblen, htail⟩ := corrSegs_cons_cons.mp hcs
    have hfes : SB.frontEnd s = g.segEnd := SB.frontEnd_cons s g (g2 :: gs2) hsb
    have hfet : BB.frontEnd t = g.segEnd := by
      rw [bbFrontEnd_cons t b (b2 :: bs2) hbt]
      exact hbe
    have hsege : g.segEnd ≤ s.bs := h9 g (by rw [hsb]; simp)
    have hsenne : g.segEnd ≠ BB.SENTINEL := by
      rw [hsv]
      rw [hsv] at hsen
      omega
    have hcheck : SB.check_one_block_left s = false := by
      cases hck : SB.check_one_block_left s with
      | false => rfl
      | true =>
        have := (SB.check_iff s h1 h3 h2).mp hck
        rw [hsb] at this
        simp at this
    by_cases hav : sub64 g.segEnd s.rpos < n
    · rw [SB.pop_if_needed_pop s n hcheck (by rw [hfes]; exact hav)]
      unfold BB.pop_block_if_needed
      rw [if_pos ⟨by rw [hfet]; exact hsenne, by rw [hfet, hr]; exact hav⟩]
      rw [SB.pop_block_cons s g (g2 :: gs2) hsb, bbPop_block_cons t b (b2 :: bs2) hbt]
      exact ⟨hbs, rfl, hw, hsen, htail, hfl⟩
    · rw [SB.pop_if_needed_noop_avail s n (by rw [hfes]; exact hav)]
      unfold BB.pop_block_if_needed
      rw [if_neg (fun hx => hav (by rw [hfet, hr] at hx; exact hx.2))]
      exact ⟨hbs, hr, hw, hsen, by rw [hsb, hbt]; exact hcs, hfl⟩

theorem read_bytes_sim (s : SB.St) (t : BB.St) (n : Nat)
    (h : SB.Inv s) (hc : corr s t) :
    corr (SB.read_bytes s n).1 (BB.read_bytes t n).1 ∧
    ((SB.pop_block_if_needed s n).rpos + n ≤ readWindow (SB.pop_block_if_needed s n) →
      (BB.read_bytes t n).2 = (SB.read_bytes s n).2) := by
  have hc1 := pop_if_needed_sim s t n h hc
  obtain ⟨hbs, hr, hw, hsen, hcs, hfl⟩ := hc1
  constructor
  · show corr
      { SB.pop_block_if_needed s n with rpos := (SB.pop_block_if_needed s n).rpos + n }
      { BB.pop_block_if_needed t n with rpos := (BB.pop_block_if_needed t n).rpos + n }
    exact ⟨hbs, by show _ + n = _ + n; rw [hr], hw, hsen, hcs, hfl⟩
  · intro hrange
    show getSlice (BB.frontBlock (BB.pop_block_if_needed t n))
        (BB.pop_block_if_needed t n).rpos n =
      getSlice (SB.frontBlock (SB.pop_block_if_needed s n))
        (SB.pop_block_if_needed s n).rpos n
    set s1 := SB.pop_block_if_needed s n with hs1
    set t1 := BB.pop_block_if_needed t n with ht1
    rw [hr]
    cases hsb : s1.buf with
    | nil => rw [hsb] at hcs; simp [corrSegs] at hcs
    | cons g gs1 =>
    rw [hsb] at hcs
    cases hbt : t1.buf with
    | nil => rw [hbt] at hcs; simp [corrSegs] at hcs
    | cons b bs1 =>
    rw [hbt] at hcs
    rw [SB.frontBlock_cons s1 g gs1 hsb, bbFrontBlock_cons t1 b bs1 hbt]
    cases gs1 with
    | nil =>
      cases bs1 with
      | cons b2 bs2 => simp [corrSegs] at hcs
      | nil =>
        obtain ⟨_, hagree, _⟩ := corrSegs_single.mp hcs
        have hwin : readWindow s1 = s1.wp := by
          unfold readWindow
          rw [if_pos (by rw [hsb]; rfl)]
        rw [hwin] at hrange
        exact getSlice_of_take_eq hagree hrange
    | cons g2 gs2 =>
      cases bs1 with
      | nil => simp [corrSegs] at hcs
      | cons b2 bs2 =>
        obtain ⟨_, hagree, _, _⟩ := corrSegs_cons_cons.mp hcs
        have hwin : readWindow s1 = g.segEnd := by
          unfold readWindow
          rw [if_neg (by rw [hsb]; simp)]
          exact SB.frontEnd_cons s1 g (g2 :: gs2) hsb
        rw [hwin] at hrange
        exact getSlice_of_take_eq hagree hrange

theorem empty_sim (s : SB.St) (t : BB.St) (h : SB.Inv s) (hc : corr s t)
    (hpub : SB.loadWpos s = s.wp) :
    BB.empty t = SB.empty_c s := by
  obtain ⟨hbs, hr, hw, hsen, hcs, hfl⟩ := hc
  obtain ⟨h1, h2, h3, h4, h5, h6, h7, h8, h9, h10, h11⟩ := h
  have hsv : BB.SENTINEL = 2 ^ 64 - 1 := rfl
  cases hsb : s.buf with
  | nil => exact absurd hsb h1
  | cons g gs1 =>
  rw [hsb] at hcs
  cases hbt : t.buf with
  | nil => rw [hbt] at hcs; simp [corrSegs] at hcs
  | cons b bs1 =>
  rw [hbt] at hcs
  cases gs1 with
  | nil =>
    cases bs1 with
    | cons b2 bs2 => simp [corrSegs] at hcs
    | nil =>
      obtain ⟨hbe, _, _⟩ := corrSegs_single.mp hcs
      have hcheck : SB.check_one_block_left s = true :=
        (SB.check_iff s h1 h3 h2).mpr (by rw [hsb]; rfl)
      have hobl : s.obl = true := by
        cases hob : s.obl with
        | true => rfl
        | false =>
          have := h5 hob
          rw [hsb] at this
          simp at this
      have hL : SB.empty_c s = (s.rpos == SB.loadWpos s) := by
        unfold SB.empty_c
        rw [hobl, hcheck]
        simp
      have hR : BB.empty t = (t.rpos == t.wpos) := by
        unfold BB.empty
        rw [bbFrontEnd_cons t b [] hbt, hbe]
        simp
      rw [hL, hR, hr, hw, hpub]
  | cons g2 gs2 =>
    cases bs1 with
    | nil => simp [corrSegs] at hcs
    | cons b2 bs2 =>
      obtain ⟨hbe, _, _, _⟩ := corrSegs_cons_cons.mp hcs
      have hsege : g.segEnd ≤ s.bs := h9 g (by rw [hsb]; simp)
      have hsenne : g.segEnd ≠ BB.SENTINEL := by
        rw [hsv]
        rw [hsv] at hsen
        omega
      have hcheck : SB.check_one_block_left s = false := by
        cases hck : SB.check_one_block_left s with
        | false => rfl
        | true =>
          have := (SB.check_iff s h1 h3 h2).mp hck
          rw [hsb] at this
          simp at this
      have hL : SB.empty_c s = false := by
        unfold SB.empty_c
        rw [hcheck]
        simp
      have hR : BB.empty t = false := by
        unfold BB.empty
        rw [bbFrontEnd_cons t b (b2 :: bs2) hbt, hbe]
        simp [hsenne]
      rw [hL, hR]

theorem ensure_cont_sim (s : SB.St) (t : BB.St) (n : Nat) (h : SB.Inv s) (hc : corr s t) :
    corr (SB.ensure_cont s n).1 (BB.ensure_cont t n).1 ∧
    (BB.ensure_cont t n).2 = (SB.ensure_cont s n).2 := by
  constructor
  · show corr (SB.add_block_if_needed_cont s n) (BB.add_block_if_needed_cont t n)
    exact add_block_if_needed_cont_sim s t n h hc
  · show (BB.add_block_if_needed_cont t n).wpos = (SB.add_block_if_needed_cont s n).wp
    exact (add_block_if_needed_cont_sim s t n h hc).2.2.1

theorem write_cont_sim (s : SB.St) (t : BB.St) (data : List Nat) (noti : Bool)
    (h : SB.Inv s) (hc : corr s t) (hlen : data.length ≤ s.bs) :
    corr (SB.write_cont s data noti) (BB.write_cont t data) := by
  unfold SB.write_cont BB.write_cont
  by_cases hd : data.isEmpty = true
  · rw [if_pos hd, if_pos hd]
    exact hc
  · rw [if_neg hd, if_neg hd]
    dsimp only
    have h1 : SB.Inv (SB.add_block_if_needed_cont s data.length) :=
      SB.inv_add_block_if_needed_cont s h data.length
    have hc1 := add_block_if_needed_cont_sim s t data.length h hc
    set s1 := SB.add_block_if_needed_cont s data.length with hs1d
    set t1 := BB.add_block_if_needed_cont t data.length with ht1d
    obtain ⟨hbs, hr, hw, hsen, hcs, hfl⟩ := hc1
    have hble : s1.wp + data.length ≤ s1.bs := by
      rw [hs1d]
      unfold SB.add_block_if_needed_cont
      by_cases hcnd : sub64 s.bs s.wp < data.length
      · rw [if_pos hcnd]
        have hw0 : (SB.add_block s).wp = 0 := by
          rw [SB.add_block_eq]
          cases (SB.storeWpos s).freeList <;> rfl
        have hb0 : (SB.add_block s).bs = s.bs := by
          rw [SB.add_block_eq]
          cases (SB.storeWpos s).freeList <;> rfl
        rw [hw0, hb0]
        omega
      · rw [if_neg hcnd]
        have hsub : sub64 s.bs s.wp = s.bs - s.wp :=
          sub64_of_le h.2.2.2.2.2.1 h.2.2.2.2.2.2.1
        rw [hsub] at hcnd
        have := h.2.2.2.2.2.1
        omega
    have hcw := corrSegs_write data s1.wp s1.buf t1.buf hcs
      (fun g hg => by rw [h1.2.2.2.2.2.2.2.1 g hg]; exact hble)
      (fun b hb => by
        obtain ⟨g, hg, he⟩ := corrSegs_blocks_len s1.wp s1.buf t1.buf hcs b hb
        rw [he, h1.2.2.2.2.2.2.2.1 g hg]
        exact hble)
    have hstep : corr
        { s1 with
            buf := SB.modLast s1.buf fun g => { g with block := setSlice g.block s1.wp data }
            wp := s1.wp + data.length }
        { t1 with
            buf := BB.modLast t1.buf fun b => { b with block := setSlice b.block t1.wpos data }
            wpos := t1.wpos + data.length } := by
      refine ⟨hbs, hr, ?_, hsen, ?_, hfl⟩
      · show t1.wpos + data.length = s1.wp + data.length
        rw [hw]
      · show corrSegs (s1.wp + data.length)
          (SB.modLast s1.buf fun g => { g with block := setSlice g.block s1.wp data })
          (BB.modLast t1.buf fun b => { b with block := setSlice b.block t1.wpos data }) = true
        rw [hw]
        exact hcw
    have hInv3 : SB.Inv
        { s1 with
            buf := SB.modLast s1.buf fun g => { g with block := setSlice g.block s1.wp data }
            wp := s1.wp + data.length } :=
      SB.inv_writeCopy s1 h1 data hble
    cases noti with
    | false => exact hstep
    | true =>
      show corr (SB.notify
        { s1 with
            buf := SB.modLast s1.buf fun g => { g with block := setSlice g.block s1.wp data }
            wp := s1.wp + data.length }) _
      exact notify_sim _ _ hInv3 hstep

theorem bbInputLoop_cons (t : BB.St) (step : SB.RdStep) (rest : List SB.RdStep)
    (cont : Bool) (total : Nat) :
    BB.inputLoop t (step :: rest) cont total =
      let s1 := BB.add_block_if_needed t
      let cap := sub64 s1.bs s1.wpos
      match step with
      | none => (s1, total, true)
      | some l =>
        let data := l.take cap
        if data.isEmpty then (s1, total, false)
        else
          let s2 := { s1 with
            buf := BB.modLast s1.buf fun g => { g with block := setSlice g.block s1.wpos data } }
          let s3 := { s2 with wpos := s2.wpos + data.length }
          if cont then (s3, total + data.length, false)
          else BB.inputLoop s3 rest cont (total + data.length) := rfl

theorem inputLoop_sim (steps : List SB.RdStep) :
    ∀ (s : SB.St) (t : BB.St) (cont : Bool) (total : Nat),
      SB.Inv s → corr s t →
      corr (SB.inputLoop s steps cont none total).1 (BB.inputLoop t steps cont total).1 ∧
      (SB.inputLoop s steps cont none total).2 = (BB.inputLoop t steps cont total).2 := by
  induction steps with
  | nil => intro s t cont total h hc; exact ⟨hc, rfl⟩
  | cons step rest ih =>
    intro s t cont total h hc
    rw [SB.inputLoop_cons, bbInputLoop_cons]
    dsimp only
    have h1 := SB.inv_add_block_if_needed s h
    have hc1 := add_block_if_needed_sim s t h hc
    set s1 := SB.add_block_if_needed s with hs1
    set t1 := BB.add_block_if_needed t with ht1
    obtain ⟨hbs, hr, hw, hsen, hcs, hfl⟩ := hc1
    have hcap : sub64 t1.bs t1.wpos = sub64 s1.bs s1.wp := by rw [hbs, hw]
    rw [hcap]
    cases step with
    | none => exact ⟨⟨hbs, hr, hw, hsen, hcs, hfl⟩, rfl⟩
    | some l =>
      dsimp only
      by_cases hde : (l.take (sub64 s1.bs s1.wp)).isEmpty = true
      · rw [if_pos hde, if_pos hde]
        exact ⟨⟨hbs, hr, hw, hsen, hcs, hfl⟩, rfl⟩
      · rw [if_neg hde, if_neg hde]
        have hwle : s1.wp ≤ s1.bs := h1.2.2.2.2.2.1
        have hbslt : s1.bs < 2 ^ 64 := h1.2.2.2.2.2.2.1
        have hsub : sub64 s1.bs s1.wp = s1.bs - s1.wp := sub64_of_le hwle hbslt
        have hble : s1.wp + (l.take (sub64 s1.bs s1.wp)).length ≤ s1.bs := by
          simp only [List.length_take]
          omega
        have hcw := corrSegs_write (l.take (sub64 s1.bs s1.wp)) s1.wp s1.buf t1.buf hcs
          (fun g hg => by rw [h1.2.2.2.2.2.2.2.1 g hg]; exact hble)
          (fun b hb => by
            obtain ⟨g, hg, he⟩ :=
              corrSegs_blocks_len s1.wp s1.buf t1.buf hcs b hb
            rw [he, h1.2.2.2.2.2.2.2.1 g hg]
            exact hble)
        have hstep : corr
            { s1 with
                buf := SB.modLast s1.buf fun g =>
                  { g with block := setSlice g.block s1.wp (l.take (sub64 s1.bs s1.wp)) }
                wp := s1.wp + (l.take (sub64 s1.bs s1.wp)).length }
            { t1 with
                buf := BB.modLast t1.buf fun b =>
                  { b with block := setSlice b.block t1.wpos (l.take (sub64 s1.bs s1.wp)) }
                wpos := t1.wpos + (l.take (sub64 s1.bs s1.wp)).length } := by
          refine ⟨hbs, hr, ?_, hsen, ?_, hfl⟩
          · show t1.wpos + _ = s1.wp + _
            rw [hw]
          · show corrSegs (s1.wp + (l.take (sub64 s1.bs s1.wp)).length)
              (SB.modLast s1.buf fun g =>
                { g with block := setSlice g.block s1.wp (l.take (sub64 s1.bs s1.wp)) })
              (BB.modLast t1.buf fun b =>
                { b with block := setSlice b.block t1.wpos (l.take (sub64 s1.bs s1.wp)) }) = true
            rw [hw]
            exact hcw
        have hInv3 : SB.Inv
            { s1 with
                buf := SB.modLast s1.buf fun g =>
                  { g with block := setSlice g.block s1.wp (l.take (sub64 s1.bs s1.wp)) }
                wp := s1.wp + (l.take (sub64 s1.bs s1.wp)).length } :=
          SB.inv_writeCopy s1 h1 (l.take (sub64 s1.bs s1.wp)) hble
        by_cases hcont : cont = true
        · rw [if_pos hcont, if_pos hcont]
          exact ⟨hstep, rfl⟩
        · rw [if_neg hcont, if_neg hcont]
          exact ih _ _ cont (total + (l.take (sub64 s1.bs s1.wp)).length) hInv3 hstep

theorem input_from_fd_sim (s : SB.St) (t : BB.St) (steps : List SB.RdStep) (cont : Bool)
    (h : SB.Inv s) (hc : corr s t) :
    corr (SB.input_from_fd s steps cont none).1 (BB.input_from_fd t steps cont).1 ∧
    (SB.input_from_fd s steps cont none).2 = (BB.input_from_fd t steps cont).2 := by
  obtain ⟨hcL, heq⟩ := inputLoop_sim steps s t cont 0 h hc
  have hInvLoop : SB.Inv (SB.inputLoop s steps cont none 0).1 :=
    SB.inv_inputLoop steps s cont none 0 h
  unfold SB.input_from_fd BB.input_from_fd
  dsimp only
  have h21 : (BB.inputLoop t steps cont 0).2.1 = (SB.inputLoop s steps cont none 0).2.1 := by
    rw [heq]
  have h22 : (BB.inputLoop t steps cont 0).2.2 = (SB.inputLoop s steps cont none 0).2.2 := by
    rw [heq]
  by_cases hcond : (SB.inputLoop s steps cont none 0).2.2 = true ∧
      (SB.inputLoop s steps cont none 0).2.1 = 0
  · rw [if_pos hcond, if_pos ⟨by rw [h22]; exact hcond.1, by rw [h21]; exact hcond.2⟩]
    refine ⟨hcL, ?_⟩
    show ((-1 : Int), (SB.inputLoop s steps cont none 0).2.1,
        (SB.inputLoop s steps cont none 0).2.2) =
      ((-1 : Int), (BB.inputLoop t steps cont 0).2.1, (BB.inputLoop t steps cont 0).2.2)
    rw [h21, h22]
  · rw [if_neg hcond,
      if_neg (show ¬((BB.inputLoop t steps cont 0).2.2 = true ∧
          (BB.inputLoop t steps cont 0).2.1 = 0) from
        fun hx => hcond ⟨by rw [← h22]; exact hx.1, by rw [← h21]; exact hx.2⟩)]
    constructor
    · by_cases hpos : 0 < (SB.inputLoop s steps cont none 0).2.1
      · show corr (if 0 < (SB.inputLoop s steps cont none 0).2.1 then
            SB.notify (SB.inputLoop s steps cont none 0).1
          else (SB.inputLoop s steps cont none 0).1) (BB.inputLoop t steps cont 0).1
        rw [if_pos hpos]
        exact notify_sim _ _ hInvLoop hcL
      · show corr (if 0 < (SB.inputLoop s steps cont none 0).2.1 then
            SB.notify (SB.inputLoop s steps cont none 0).1
          else (SB.inputLoop s steps cont none 0).1) (BB.inputLoop t steps cont 0).1
        rw [if_neg hpos]
        exact hcL
    · show (((SB.inputLoop s steps cont none 0).2.1 : Int),
          (SB.inputLoop s steps cont none 0).2.1, (SB.inputLoop s steps cont none 0).2.2) =
        (((BB.inputLoop t steps cont 0).2.1 : Int),
          (BB.inputLoop t steps cont 0).2.1, (BB.inputLoop t steps cont 0).2.2)
      rw [h21, h22]

/-- C6 counterexample: the two buffers do not return the same values for
the shared operation `output_to_fd`.  Driven identically (block size 4,
`write` of 5 bytes, `read<T>` of a 4-byte value, then `output_to_fd`
against a file descriptor accepting 10 bytes), the SPSC buffer pops the
drained committed front segment on loop entry
(`pop_block_if_needed_and_available(1)`) and writes the remaining byte,
returning 1, while the sequential `BlockBuffer` computes the request
from the drained front before any pop and stops at a zero-length write,
returning 0. -/
theorem C6_counterexample :
    (SB.output_to_fd (SB.read_bytes (SB.write (SB.init 4) [1, 2, 3, 4, 5] true) 4).1
        [some 10]).2.1 = 1 ∧
    (BB.output_to_fd (BB.read_bytes (BB.write (BB.init 4) [1, 2, 3, 4, 5]) 4).1
        [some 10]).2.1 = 0 := by
  decide

/-- C6 (amended): driven single-threadedly from corresponding states
(relation `corr`: equal block size and cursors, segment queues equal up
to the published-end/sentinel tail representation and agreeing on all
committed bytes), the sequential `BlockBuffer` and the SPSC buffer stay
corresponding and return identical values for the shared operations
construction, `write` (ranges, typed values and strings), `read<T>`
(the state unconditionally; the bytes whenever the read stays within the
front segment's committed window), `write_cont` (within the block size),
`ensure_cont`, `empty` (with the SPSC write position published) and
`input_from_fd`.  The contract is not identical for `output_to_fd`
(different pop scheduling at a drained committed front), for
`clear_preserved` (the sequential version misses the emptiness check),
and the sequential buffer does not offer `get<T>`, `get_cont`,
`read_cont` or the `max_len` variant of `input_from_fd`. -/
theorem C6_theorem (s : SB.St) (t : BB.St) (h : SB.Inv s) (hc : corr s t)
    (data str : List Nat) (noti : Bool) (n len : Nat) (steps : List SB.RdStep)
    (cont : Bool) :
    (∀ m, m < BB.SENTINEL → corr (SB.init m) (BB.init m)) ∧
    corr (SB.write s data noti) (BB.write t data) ∧
    corr (SB.write_string s str noti) (BB.write_string t str) ∧
    corr (SB.read_bytes s n).1 (BB.read_bytes t n).1 ∧
    ((SB.pop_block_if_needed s n).rpos + n ≤ readWindow (SB.pop_block_if_needed s n) →
      (BB.read_bytes t n).2 = (SB.read_bytes s n).2) ∧
    (SB.loadWpos s = s.wp → BB.empty t = SB.empty_c s) ∧
    corr (SB.ensure_cont s len).1 (BB.ensure_cont t len).1 ∧
    (BB.ensure_cont t len).2 = (SB.ensure_cont s len).2 ∧
    (data.length ≤ s.bs → corr (SB.write_cont s data noti) (BB.write_cont t data)) ∧
    corr (SB.input_from_fd s steps cont none).1 (BB.input_from_fd t steps cont).1 ∧
    (SB.input_from_fd s steps cont none).2 = (BB.input_from_fd t steps cont).2 := by
  refine ⟨?_, write_sim s t data noti h hc, write_string_sim s t str noti h hc,
    (read_bytes_sim s t n h hc).1, (read_bytes_sim s t n h hc).2,
    fun hpub => empty_sim s t h hc hpub,
    (ensure_cont_sim s t len h hc).1, (ensure_cont_sim s t len h hc).2,
    fun hlen => write_cont_sim s t data noti h hc hlen,
    (input_from_fd_sim s t steps cont h hc).1, (input_from_fd_sim s t steps cont h hc).2⟩
  intro m hm
  refine ⟨rfl, rfl, rfl, hm, ?_, by intro b hb; simp [BB.init] at hb⟩
  show corrSegs 0 [SB.Seg.mk 0 (List.replicate m 0) 0]
    [BB.BSeg.mk (List.replicate m 0) BB.SENTINEL] = true
  exact corrSegs_single.mpr ⟨rfl, by simp, by simp⟩

/-- Witness for the amended C6 theorem: fresh corresponding buffers with
block size 8, a 2-byte write, a 0-byte read, `empty`, and a one-step
`input_from_fd` delivering one byte. -/
theorem C6_theorem_witness :
    corr (SB.write (SB.init 8) [1, 2] true) (BB.write (BB.init 8) [1, 2]) ∧
    (BB.read_bytes (BB.init 8) 0).2 = (SB.read_bytes (SB.init 8) 0).2 ∧
    BB.empty (BB.init 8) = SB.empty_c (SB.init 8) ∧
    (SB.input_from_fd (SB.init 8) [some [7]] false none).2 =
      (BB.input_from_fd (BB.init 8) [some [7]] false).2 :=
  have h := C6_theorem (SB.init 8) (BB.init 8) (by decide) (by decide) [1, 2] [3] true 0 4
    [some [7]] false
  ⟨h.2.1, h.2.2.2.2.1 (by decide), h.2.2.2.2.2.1 (by decide),
    h.2.2.2.2.2.2.2.2.2.2⟩

